import Mathlib

/-!
# Verification of the niri window-layout engine (`src/layout/mod.rs`)

A shallow embedding of the layout engine's data model and of the `Layout`
commands implemented in `src/layout/mod.rs`.  Machine floats (`f64`) are
modelled as rationals, machine indices (`usize`) as `Nat` with saturating
subtraction (which `Nat` subtraction already is), Rust `Vec` as `List`,
and `Rc<Options>` sharing as plain values (the code only ever reads the
shared snapshot or replaces it wholesale).

The repository sources provide only `src/layout/mod.rs`; the bodies of
`Monitor`, `Workspace`, `Column`, `Tile` (submodules `monitor.rs`,
`workspace.rs`, …) and of small utilities (`crate::rubber_band`,
`crate::utils::round_logical_in_physical_max1`) are not under `src/`.
Wherever such missing code decides behaviour it is modelled from the
spec; every such definition carries a doc comment starting with
`Modelled from the spec:`.
-/

namespace Niri

/-- An output (display).  `smithay::output::Output` is opaque to the layout;
the code compares outputs with `==` and `OutputId::matches` compares by
connector name, so an output is identified by a `name`, and carries the
fractional scale that `output.current_scale().fractional_scale()` reports. -/
structure Output where
  name : Nat
  scale : ℚ
deriving Repr, DecidableEq

/-- The fields of `Options` that `adjusted_for_scale` touches (`gaps`,
`focus_ring.width`, `border.width`); the remaining configuration fields are
never modified by the layout code and are irrelevant to the claims. -/
structure Opts where
  gaps : ℚ
  focusRingWidth : ℚ
  borderWidth : ℚ
deriving Repr, DecidableEq

/-- Modelled from the spec: `round_logical_in_physical_max1` lives in
`crate::utils`, which is not under `src/`.  Per §5 of the spec, options
adjustment "rounds gaps, focus-ring width, and border width to physical
pixels using that scale"; following the function's name, a nonzero logical
value rounds to at least one physical pixel. -/
def roundLogicalInPhysicalMax1 (scale logical : ℚ) : ℚ :=
  if logical = 0 then 0
  else ((max (round (logical * scale)) 1 : ℤ) : ℚ) / scale

/-- `Options::adjusted_for_scale` (`mod.rs:415`). -/
def Opts.adjustedForScale (o : Opts) (scale : ℚ) : Opts :=
  { gaps := roundLogicalInPhysicalMax1 scale o.gaps
    focusRingWidth := roundLogicalInPhysicalMax1 scale o.focusRingWidth
    borderWidth := roundLogicalInPhysicalMax1 scale o.borderWidth }

/-- `ColumnWidth`: absolute pixels, proportion of the working area, or a
configured preset. -/
inductive ColWidth where
  | fixed (px : ℚ)
  | proportion (p : ℚ)
  | preset (idx : Nat)
deriving Repr, DecidableEq

/-- A tile: one window plus its interactive-move render offset.  The window
handle is reduced to its id and its pending-fullscreen state (the only
handle state `mod.rs` consults); `options` is the tile's scale-adjusted
options copy. -/
structure Tile where
  wid : Nat
  moveOffset : ℚ × ℚ
  pendingFullscreen : Bool
  options : Opts
deriving Repr, DecidableEq

/-- A column: an ordered sequence of tiles sharing a width. -/
structure Column where
  tiles : List Tile
  activeTileIdx : Nat
  isFullscreen : Bool
  width : ColWidth
  isFullWidth : Bool
deriving Repr, DecidableEq

/-- A workspace.  `curOutput` is the current output reference (`None` when
parked), `originalOutput` the remembered origin (`OutputId` compares by
name, hence a `Nat`), `scale` the fractional scale of the current output
snapshot used by `Workspace::scale()`. -/
structure Workspace where
  id : Nat
  name : Option String
  originalOutput : Nat
  curOutput : Option Nat
  columns : List Column
  activeColumnIdx : Nat
  scale : ℚ
  baseOptions : Opts
  options : Opts
deriving Repr, DecidableEq

/-- A workspace switch in progress on a monitor: an animation between two
indices or a touch gesture at a fractional index. -/
inductive Switch where
  | animation (a : Nat) (b : Nat)
  | gesture (currentIdx : ℚ)
deriving Repr, DecidableEq

/-- A monitor: an output plus its ordered workspaces. -/
structure Monitor where
  output : Output
  workspaces : List Workspace
  activeWorkspaceIdx : Nat
  workspaceSwitch : Option Switch
  previousWorkspaceId : Option Nat
  options : Opts
deriving Repr, DecidableEq

/-- `MonitorSet` (`mod.rs:267`). -/
inductive MonitorSet where
  | normal (monitors : List Monitor) (primaryIdx : Nat) (activeMonitorIdx : Nat)
  | noOutputs (workspaces : List Workspace)
deriving Repr, DecidableEq

/-- `InteractiveMoveData` (`mod.rs:107`). -/
structure IMoveData where
  tile : Tile
  output : Output
  pointerPosWithinOutput : ℚ × ℚ
  width : ColWidth
  isFullWidth : Bool
  pointerRatioWithinWindow : ℚ × ℚ
deriving Repr, DecidableEq

/-- `InteractiveMoveState` (`mod.rs:90`). -/
inductive IMoveState where
  | starting (windowId : Nat) (pointerDelta : ℚ × ℚ) (pointerRatioWithinWindow : ℚ × ℚ)
  | moving (data : IMoveData)
deriving Repr, DecidableEq

/-- `Layout` (`mod.rs:252`).  `nextWsId` models the global counter behind
`WorkspaceId` allocation so that freshly created workspaces get fresh ids. -/
structure Layout where
  monitorSet : MonitorSet
  isActive : Bool
  interactiveMove : Option IMoveState
  options : Opts
  nextWsId : Nat
deriving Repr, DecidableEq

/-- `RemovedTile` (`mod.rs:336`). -/
structure RemovedTile where
  tile : Tile
  width : ColWidth
  isFullWidth : Bool
deriving Repr, DecidableEq

/-- `RubberBand` from `crate::rubber_band` (not under `src/`).
Modelled from the spec: §4.2 gives the rubber-band function
`band(x) = x * (1 - 1/(stiffness*x + 1))`, scaled by the band's limit. -/
structure RubberBand where
  stiffness : ℚ
  limit : ℚ
deriving Repr, DecidableEq

/-- Modelled from the spec: the rubber-band formula of §4.2,
`band(x) = x * (1 - 1/(stiffness*x + 1))` (the spec's formula does not
involve the limit field). -/
def RubberBand.band (rb : RubberBand) (x : ℚ) : ℚ :=
  x * (1 - 1 / (rb.stiffness * x + 1))

/-- `INTERACTIVE_MOVE_START_THRESHOLD` (`mod.rs:78`): `256. * 256.`. -/
def interactiveMoveStartThreshold : ℚ := 256 * 256

/-! ## Workspace operations

`workspace.rs` is not under `src/`; these operations are modelled from the
spec where their bodies matter to the claims.  Field accesses (`ws.name`,
`ws.columns`, `ws.original_output`, …) mirror the uses in `mod.rs`. -/

/-- `eq_ignore_ascii_case` on workspace names. -/
def eqIgnoreAsciiCase (a b : String) : Bool :=
  a.toLower == b.toLower

/-- `Workspace::has_windows`: whether the workspace has any column. -/
def Workspace.hasWindows (ws : Workspace) : Bool :=
  !ws.columns.isEmpty

/-- `Workspace::has_window`. -/
def Workspace.hasWindow (ws : Workspace) (wid : Nat) : Bool :=
  ws.columns.any fun c => c.tiles.any fun t => t.wid == wid

/-- Modelled from the spec: `Workspace::set_output` (workspace.rs is not
under `src/`).  Sets the current output reference; per §5 the workspace
re-derives its scale-adjusted options copy from the new output's scale. -/
def Workspace.setOutput (ws : Workspace) (o : Option Output) : Workspace :=
  match o with
  | none => { ws with curOutput := none }
  | some out =>
      { ws with
        curOutput := some out.name
        scale := out.scale
        options := ws.baseOptions.adjustedForScale out.scale }

/-- Modelled from the spec: `Workspace::new` (workspace.rs is not under
`src/`).  A fresh empty unnamed workspace on the given output; its
original-output is that output (§3: trailing empties are created on their
monitor), its options are the base snapshot adjusted for the output scale. -/
def Workspace.fresh (out : Output) (id : Nat) (opts : Opts) : Workspace :=
  { id := id
    name := none
    originalOutput := out.name
    curOutput := some out.name
    columns := []
    activeColumnIdx := 0
    scale := out.scale
    baseOptions := opts
    options := opts.adjustedForScale out.scale }

/-- Modelled from the spec: `Workspace::new_with_config` — like
`Workspace.fresh` but carrying the configured name. -/
def Workspace.freshNamed (out : Output) (name : String) (id : Nat) (opts : Opts) : Workspace :=
  { Workspace.fresh out id opts with name := some name }

/-- Modelled from the spec: `Workspace::new_no_outputs` — a fresh workspace
parked with no output; scale defaults to 1. -/
def Workspace.freshNoOutputs (id : Nat) (opts : Opts) : Workspace :=
  { id := id
    name := none
    originalOutput := 0
    curOutput := none
    columns := []
    activeColumnIdx := 0
    scale := 1
    baseOptions := opts
    options := opts.adjustedForScale 1 }

/-- Modelled from the spec: `Workspace::new_with_config_no_outputs`. -/
def Workspace.freshNamedNoOutputs (name : String) (id : Nat) (opts : Opts) : Workspace :=
  { Workspace.freshNoOutputs id opts with name := some name }

/-- Modelled from the spec: `Workspace::update_config` — replaces the base
snapshot and re-derives the scale-adjusted copy (§5); tiles re-derive
their copies as well. -/
def Workspace.updateConfig (ws : Workspace) (opts : Opts) : Workspace :=
  { ws with
    baseOptions := opts
    options := opts.adjustedForScale ws.scale
    columns := ws.columns.map fun c =>
      { c with tiles := c.tiles.map fun t =>
          { t with options := opts.adjustedForScale ws.scale } } }

/-- Modelled from the spec: adding a window to a workspace (§4.2 public
contract; §4.4 "a workspace forgets its origin when the user moves or
creates a window on it").  A new single-tile column is inserted right of
the active column (at the front when the workspace is empty); when
`activate` is set the new column becomes active, otherwise the active
column index keeps pointing at the previously active column.  When the
workspace is hosted by an output its original-output becomes that output. -/
def Workspace.addWindow (ws : Workspace) (out : Option Output) (wid : Nat)
    (activate : Bool) (width : ColWidth) (isFullWidth : Bool) : Workspace :=
  let tile : Tile :=
    { wid := wid, moveOffset := (0, 0), pendingFullscreen := false, options := ws.options }
  let col : Column :=
    { tiles := [tile], activeTileIdx := 0, isFullscreen := false
      width := width, isFullWidth := isFullWidth }
  let insertIdx := if ws.columns.isEmpty then 0 else ws.activeColumnIdx + 1
  let ws :=
    { ws with
      columns := ws.columns.insertIdx insertIdx col
      activeColumnIdx := if activate then insertIdx else ws.activeColumnIdx }
  match out with
  | some o => { ws with originalOutput := o.name }
  | none => ws

/-- Modelled from the spec: `Workspace::remove_tile` (§4.2 public
contract).  Removes the tile holding `wid` from its column; a column left
empty is removed and the active column index is adjusted to keep pointing
at the same column (clamped).  Returns the removed tile together with its
column's width and full-width flag. -/
def Workspace.removeTile (ws : Workspace) (wid : Nat) : Option (RemovedTile × Workspace) :=
  match ws.columns.findIdx? (fun c => c.tiles.any fun t => t.wid == wid) with
  | none => none
  | some colIdx =>
      match ws.columns[colIdx]? with
      | none => none
      | some col =>
          match col.tiles.find? (fun t => t.wid == wid) with
          | none => none
          | some tile =>
              let removed : RemovedTile :=
                { tile := tile, width := col.width, isFullWidth := col.isFullWidth }
              let remTiles := col.tiles.filter fun t => !(t.wid == wid)
              let columns :=
                if remTiles.isEmpty then ws.columns.eraseIdx colIdx
                else ws.columns.set colIdx
                  { col with
                    tiles := remTiles,
                    activeTileIdx := min col.activeTileIdx (remTiles.length - 1) }
              let active :=
                if remTiles.isEmpty && decide (colIdx < ws.activeColumnIdx) then
                  ws.activeColumnIdx - 1
                else min ws.activeColumnIdx (columns.length - 1)
              some (removed, { ws with columns := columns, activeColumnIdx := active })

/-- Modelled from the spec: `Workspace::set_fullscreen` (§4.2): marks the
column of the given window fullscreen (or clears the flag). -/
def Workspace.setFullscreenWin (ws : Workspace) (wid : Nat) (isFullscreen : Bool) : Workspace :=
  { ws with
    columns := ws.columns.map fun c =>
      if c.tiles.any (fun t => t.wid == wid) then { c with isFullscreen := isFullscreen }
      else c }

/-- Modelled from the spec: `Workspace::toggle_fullscreen` (§4.2). -/
def Workspace.toggleFullscreenWin (ws : Workspace) (wid : Nat) : Workspace :=
  { ws with
    columns := ws.columns.map fun c =>
      if c.tiles.any (fun t => t.wid == wid) then { c with isFullscreen := !c.isFullscreen }
      else c }

/-- Modelled from the spec: `Workspace::activate_window` — focuses the
column and tile holding the window. -/
def Workspace.activateWindowIn (ws : Workspace) (wid : Nat) : Workspace :=
  match ws.columns.findIdx? (fun c => c.tiles.any fun t => t.wid == wid) with
  | none => ws
  | some colIdx =>
      { ws with
        activeColumnIdx := colIdx
        columns := ws.columns.map fun c =>
          if c.tiles.any (fun t => t.wid == wid) then
            { c with activeTileIdx := c.tiles.findIdx fun t => t.wid == wid }
          else c }

/-- Replace the element at an index, leaving the list unchanged when the
index is out of range. -/
def listModify (l : List α) (i : Nat) (f : α → α) : List α :=
  match l[i]? with
  | some x => l.set i (f x)
  | none => l

/-- Update the first tile with the given window id, walking workspaces in
order — the shape of `self.workspaces_mut().flat_map(|ws| ws.tiles_mut())
.find(...)` in `mod.rs`. -/
def Workspace.updateTileFirst (ws : Workspace) (wid : Nat) (f : Tile → Tile) : Workspace :=
  match ws.columns.findIdx? (fun c => c.tiles.any fun t => t.wid == wid) with
  | none => ws
  | some colIdx =>
      { ws with
        columns := listModify ws.columns colIdx fun c =>
          { c with tiles :=
              listModify c.tiles (c.tiles.findIdx fun t => t.wid == wid) f } }

/-! ## Monitor operations (monitor.rs is not under `src/`) -/

/-- Modelled from the spec: `Monitor::new` — a new monitor starts at its
first workspace with no switch in progress (§4.4 Attach says nothing else
about the fresh monitor's state). -/
def Monitor.mkNew (out : Output) (wss : List Workspace) (opts : Opts) : Monitor :=
  { output := out
    workspaces := wss
    activeWorkspaceIdx := 0
    workspaceSwitch := none
    previousWorkspaceId := none
    options := opts }

/-- Modelled from the spec: `Monitor::clean_up_workspaces` (§4.3 workspace
cleanup rules): remove every workspace that is unnamed, empty, and neither
the active nor the last one, keeping the active index on the same
workspace.  `cleanUpGo` walks the list front to back carrying the current
index; it returns the kept workspaces and the number of removals at
indices below the active one. -/
def cleanUpGo (active lastIdx : Nat) : Nat → List Workspace → List Workspace × Nat
  | _, [] => ([], 0)
  | i, ws :: rest =>
      let (rest', removedBefore) := cleanUpGo active lastIdx (i + 1) rest
      if ws.hasWindows || ws.name.isSome || i == active || i == lastIdx then
        (ws :: rest', removedBefore)
      else
        (rest', if i < active then removedBefore + 1 else removedBefore)

/-- Modelled from the spec: see `cleanUpGo`. -/
def Monitor.cleanUpWorkspaces (m : Monitor) : Monitor :=
  let (kept, removedBefore) :=
    cleanUpGo m.activeWorkspaceIdx (m.workspaces.length - 1) 0 m.workspaces
  { m with
    workspaces := kept
    activeWorkspaceIdx := m.activeWorkspaceIdx - removedBefore }

/-- `Monitor::find_named_workspace_index` (used at `mod.rs:649`). -/
def Monitor.findNamedWorkspaceIndex (m : Monitor) (name : String) : Option Nat :=
  m.workspaces.findIdx? fun ws =>
    (ws.name.map fun n => eqIgnoreAsciiCase n name).getD false

/-- Modelled from the spec: `Monitor::switch_workspace(i)` (§4.3 workspace
switch state machine): the target index is clamped; when it differs from
the active index the switch becomes an animation from the active index to
the target, the previous-workspace id is recorded, and the target becomes
active; "no movement" leaves the monitor unchanged. -/
def Monitor.switchWorkspace (m : Monitor) (idx : Nat) : Monitor :=
  if min idx (m.workspaces.length - 1) = m.activeWorkspaceIdx then m
  else
    { m with
      previousWorkspaceId := (m.workspaces[m.activeWorkspaceIdx]?).map Workspace.id
      activeWorkspaceIdx := min idx (m.workspaces.length - 1)
      workspaceSwitch :=
        some (.animation m.activeWorkspaceIdx (min idx (m.workspaces.length - 1))) }

/-- Modelled from the spec: `Monitor::add_window(workspace_idx, window,
activate, width, is_full_width)` (§4.3 public contract; §3 lifecycle (b):
a trailing empty workspace is created when the previous one gains a
window).  The window is added to the given workspace; when that workspace
was the last one a fresh trailing empty workspace is appended (consuming a
fresh id); when `activate` is set the monitor switches to that workspace. -/
def Monitor.addWindow (m : Monitor) (wsIdx wid : Nat) (activate : Bool)
    (width : ColWidth) (isFullWidth : Bool) (freshId : Nat) : Monitor × Nat :=
  match m.workspaces[wsIdx]? with
  | none => (m, freshId)
  | some ws =>
      let ws' := ws.addWindow (some m.output) wid activate width isFullWidth
      let wss := m.workspaces.set wsIdx ws'
      let (wss', freshId') :=
        if wsIdx = m.workspaces.length - 1 then
          (wss ++ [Workspace.fresh m.output freshId m.options], freshId + 1)
        else (wss, freshId)
      let m' := { m with workspaces := wss' }
      let m' := if activate then m'.switchWorkspace wsIdx else m'
      (m', freshId')

/-- Modelled from the spec: per-monitor part of `update_config` (§5 shared
resource policy; `verify_invariants` at `mod.rs:2034` pins the monitor's
copy to the layout's snapshot): the monitor takes the new snapshot and
every workspace re-derives its scale-adjusted copy. -/
def Monitor.updateConfigM (m : Monitor) (opts : Opts) : Monitor :=
  { m with
    options := opts
    workspaces := m.workspaces.map fun ws => ws.updateConfig opts }

/-- Modelled from the spec: `Workspace::activate_window` lifted to the
monitor as done at `mod.rs:1222-1239`: focus the window in its workspace,
then switch to that workspace unless a vertical gesture is currently
around it. -/
def Monitor.activateWindowInMon (m : Monitor) (wid : Nat) : Monitor :=
  match m.workspaces.findIdx? (fun ws => ws.hasWindow wid) with
  | none => m
  | some wsIdx =>
      match m.workspaces[wsIdx]? with
      | none => m
      | some ws =>
          let m' := { m with workspaces := m.workspaces.set wsIdx (ws.activateWindowIn wid) }
          match m'.workspaceSwitch with
          | some (.gesture cur) =>
              if ⌊cur⌋ = (wsIdx : ℤ) ∨ ⌈cur⌉ = (wsIdx : ℤ) then m'
              else m'.switchWorkspace wsIdx
          | _ => m'.switchWorkspace wsIdx

/-! ## Layout commands (from `src/layout/mod.rs`) -/

/-- State threaded through the collection loop of `Layout::add_output`
(`mod.rs:466-493`): the primary's workspace list, its active workspace
index, the collected workspaces in push order, the primary's workspace
switch, and the `stopped_primary_ws_switch` flag. -/
structure CollectState where
  wss : List Workspace
  activeIdx : Nat
  collected : List Workspace
  switch : Option Switch
  stopped : Bool
deriving Repr, DecidableEq

/-- One iteration of the loop (`mod.rs:469-493`): when the workspace at
index `i` has its original output matching the connecting one, it is
removed; any workspace switch is stopped; the workspace is collected when
it has windows or a name; and the active index is pulled back when `i` is
at or before it (saturating). -/
def addOutputStep (oname : Nat) (s : CollectState) (i : Nat) : CollectState :=
  match s.wss[i]? with
  | none => s
  | some w =>
      if w.originalOutput = oname then
        { wss := s.wss.eraseIdx i
          activeIdx := if i ≤ s.activeIdx then s.activeIdx - 1 else s.activeIdx
          collected :=
            if w.hasWindows || w.name.isSome then s.collected ++ [w] else s.collected
          switch := none
          stopped := s.stopped || s.switch.isSome }
      else s

/-- The loop `for i in (0..primary.workspaces.len()).rev()` of
`Layout::add_output`: indices are visited from `n - 1` down to `0`. -/
def addOutputGo (oname : Nat) : Nat → CollectState → CollectState
  | 0, s => s
  | i + 1, s => addOutputGo oname i (addOutputStep oname s i)

/-- `Layout::add_output` (`mod.rs:457-533`). -/
def Layout.addOutput (L : Layout) (o : Output) : Layout :=
  match L.monitorSet with
  | .normal monitors primaryIdx activeMonitorIdx =>
      match monitors[primaryIdx]? with
      | none => L
      | some primary =>
          let s0 : CollectState :=
            { wss := primary.workspaces
              activeIdx := primary.activeWorkspaceIdx
              collected := []
              switch := primary.workspaceSwitch
              stopped := false }
          let s := addOutputGo o.name primary.workspaces.length s0
          let primary' :=
            { primary with
              workspaces := s.wss
              activeWorkspaceIdx := s.activeIdx
              workspaceSwitch := s.switch }
          let primary' := if s.stopped then primary'.cleanUpWorkspaces else primary'
          let newWss := s.collected.reverse ++ [Workspace.fresh o L.nextWsId L.options]
          let newWss := newWss.map fun ws => ws.setOutput (some o)
          let newMon := Monitor.mkNew o newWss L.options
          { L with
            monitorSet :=
              .normal ((monitors.set primaryIdx primary') ++ [newMon])
                primaryIdx activeMonitorIdx
            nextWsId := L.nextWsId + 1 }
  | .noOutputs wss =>
      let newWss := wss ++ [Workspace.fresh o L.nextWsId L.options]
      let newWss := newWss.map fun ws => ws.setOutput (some o)
      let newMon := Monitor.mkNew o newWss L.options
      { L with
        monitorSet := .normal [newMon] 0 0
        nextWsId := L.nextWsId + 1 }

/-- `Layout::remove_output` (`mod.rs:535-602`).  Removing an output that is
not present panics in Rust (`expect`); the model returns the layout
unchanged in that unreachable case, and `OpValid` excludes it. -/
def Layout.removeOutput (L : Layout) (oname : Nat) : Layout :=
  match L.monitorSet with
  | .noOutputs _ => L
  | .normal monitors primaryIdx activeMonitorIdx =>
      match monitors.findIdx? (fun mon => mon.output.name == oname) with
      | none => L
      | some idx =>
          match monitors[idx]? with
          | none => L
          | some monitor =>
              let monitors' := monitors.eraseIdx idx
              let wss := monitor.workspaces.map fun ws => ws.setOutput none
              let wss := wss.filter fun ws => ws.hasWindows || ws.name.isSome
              if monitors'.isEmpty then
                { L with monitorSet := .noOutputs wss }
              else
                let primaryIdx' := if idx ≤ primaryIdx then primaryIdx - 1 else primaryIdx
                let activeMonitorIdx' :=
                  if idx ≤ activeMonitorIdx then activeMonitorIdx - 1 else activeMonitorIdx
                match monitors'[primaryIdx']? with
                | none => L
                | some primary =>
                    let wss := wss.map fun ws => ws.setOutput (some primary.output)
                    let emptyWasFocused :=
                      primary.activeWorkspaceIdx = primary.workspaces.length - 1
                    let newWss :=
                      primary.workspaces.dropLast ++ wss ++ primary.workspaces.getLast?.toList
                    let primary' := { primary with workspaces := newWss }
                    let primary' :=
                      if emptyWasFocused then
                        { primary' with activeWorkspaceIdx := newWss.length - 1 }
                      else primary'
                    { L with
                      monitorSet :=
                        .normal (monitors'.set primaryIdx' primary')
                          primaryIdx' activeMonitorIdx' }

/-- Whether the active column of the monitor's active workspace is
fullscreen — the "don't steal focus from an active fullscreen window"
test of `mod.rs:729-734`. -/
def Monitor.activeColumnIsFullscreen (mon : Monitor) : Bool :=
  match mon.workspaces[mon.activeWorkspaceIdx]? with
  | none => false
  | some ws =>
      !ws.columns.isEmpty &&
        ((ws.columns[ws.activeColumnIdx]?).map Column.isFullscreen).getD false

/-- `Layout::add_window` (`mod.rs:713-756`), with the column width already
resolved (`resolve_default_width` only massages the width argument using
the window's size and border, which the claims do not depend on). -/
def Layout.addWindow (L : Layout) (wid : Nat) (width : ColWidth)
    (isFullWidth : Bool) : Layout :=
  match L.monitorSet with
  | .normal monitors primaryIdx activeMonitorIdx =>
      match monitors[activeMonitorIdx]? with
      | none => L
      | some mon =>
          let activate := !mon.activeColumnIsFullscreen
          let (mon', next') :=
            mon.addWindow mon.activeWorkspaceIdx wid activate width isFullWidth L.nextWsId
          { L with
            monitorSet := .normal (monitors.set activeMonitorIdx mon') primaryIdx activeMonitorIdx
            nextWsId := next' }
  | .noOutputs wss =>
      match wss with
      | ws :: rest =>
          { L with
            monitorSet := .noOutputs (ws.addWindow none wid true width isFullWidth :: rest) }
      | [] =>
          let ws := Workspace.freshNoOutputs L.nextWsId L.options
          { L with
            monitorSet := .noOutputs [ws.addWindow none wid true width isFullWidth]
            nextWsId := L.nextWsId + 1 }

/-- `Layout::add_window_on_output` (`mod.rs:806-847`).  This command
panics when no monitors exist or the output is absent; `OpValid` excludes
those cases and the model then returns the layout unchanged. -/
def Layout.addWindowOnOutput (L : Layout) (oname wid : Nat) (width : ColWidth)
    (isFullWidth : Bool) : Layout :=
  match L.monitorSet with
  | .noOutputs _ => L
  | .normal monitors primaryIdx activeMonitorIdx =>
      match monitors.findIdx? (fun mon => mon.output.name == oname) with
      | none => L
      | some monIdx =>
          match monitors[monIdx]? with
          | none => L
          | some mon =>
              let activate :=
                !(monIdx == activeMonitorIdx && mon.activeColumnIsFullscreen)
              let (mon', next') :=
                mon.addWindow mon.activeWorkspaceIdx wid activate width isFullWidth L.nextWsId
              { L with
                monitorSet := .normal (monitors.set monIdx mon') primaryIdx activeMonitorIdx
                nextWsId := next' }

/-- `Layout::add_window_to_named_workspace` (`mod.rs:630-685`).  Panics
when no workspace carries the name (`unwrap`); `OpValid` excludes it. -/
def Layout.addWindowToNamedWorkspace (L : Layout) (wsName : String) (wid : Nat)
    (width : ColWidth) (isFullWidth : Bool) : Layout :=
  match L.monitorSet with
  | .normal monitors primaryIdx activeMonitorIdx =>
      match monitors.findIdx? (fun mon => (mon.findNamedWorkspaceIndex wsName).isSome) with
      | none => L
      | some monIdx =>
          match monitors[monIdx]? with
          | none => L
          | some mon =>
              match mon.findNamedWorkspaceIndex wsName with
              | none => L
              | some wsIdx =>
                  let fsNoSteal :=
                    match mon.workspaces[wsIdx]? with
                    | none => false
                    | some ws =>
                        monIdx == activeMonitorIdx && !ws.columns.isEmpty &&
                          ((ws.columns[ws.activeColumnIdx]?).map Column.isFullscreen).getD false
                  let activate := !fsNoSteal && mon.activeWorkspaceIdx == wsIdx
                  let (mon', next') :=
                    mon.addWindow wsIdx wid activate width isFullWidth L.nextWsId
                  { L with
                    monitorSet := .normal (monitors.set monIdx mon') primaryIdx activeMonitorIdx
                    nextWsId := next' }
  | .noOutputs wss =>
      match wss.findIdx? (fun ws => (ws.name.map fun n => eqIgnoreAsciiCase n wsName).getD false) with
      | none => L
      | some idx =>
          match wss[idx]? with
          | none => L
          | some ws =>
              { L with
                monitorSet := .noOutputs (wss.set idx (ws.addWindow none wid true width isFullWidth)) }

/-- Apply `f` to the first workspace (in iteration order) containing the
window — the repeated `for ws in … if ws.has_window(window) { …; return }`
shape of `mod.rs`. -/
def updateFirstWsWith (wid : Nat) (f : Workspace → Workspace) : List Workspace → List Workspace
  | [] => []
  | ws :: rest =>
      if ws.hasWindow wid then f ws :: rest
      else ws :: updateFirstWsWith wid f rest

/-- `updateFirstWsWith` lifted over the monitor list. -/
def updateFirstMonWith (wid : Nat) (f : Workspace → Workspace) : List Monitor → List Monitor
  | [] => []
  | mon :: rest =>
      if mon.workspaces.any (fun ws => ws.hasWindow wid) then
        { mon with workspaces := updateFirstWsWith wid f mon.workspaces } :: rest
      else mon :: updateFirstMonWith wid f rest

/-- Apply `f` to the first workspace containing the window, over either
monitor-set variant. -/
def Layout.applyToWindowWs (L : Layout) (wid : Nat) (f : Workspace → Workspace) : Layout :=
  match L.monitorSet with
  | .normal monitors p a =>
      { L with monitorSet := .normal (updateFirstMonWith wid f monitors) p a }
  | .noOutputs wss =>
      { L with monitorSet := .noOutputs (updateFirstWsWith wid f wss) }

/-- Zero the interactive-move offset of the first tile with the given id. -/
def Layout.updateFirstTile (L : Layout) (wid : Nat) (f : Tile → Tile) : Layout :=
  L.applyToWindowWs wid fun ws => ws.updateTileFirst wid f

/-- The `InteractiveMoveState::Starting` branch of
`Layout::interactive_move_end` (`mod.rs:3014-3035`): the tile's offset is
zeroed (it animates back, which is render-only) and the move state is
cleared. -/
def Layout.interactiveMoveEndStarting (L : Layout) (wid : Nat) : Layout :=
  { L.updateFirstTile wid (fun t => { t with moveOffset := (0, 0) }) with
    interactiveMove := none }

/-- The `MonitorSet::Normal` part of `Layout::remove_window`
(`mod.rs:878-903`): find the first workspace holding the window, remove
the tile, and drop the workspace when it became empty, unnamed, is neither
active nor last, and no switch is in progress. -/
def removeWindowFromMonitors (wid : Nat) : List Monitor → Option RemovedTile × List Monitor
  | [] => (none, [])
  | mon :: rest =>
      match mon.workspaces.findIdx? (fun ws => ws.hasWindow wid) with
      | some idx =>
          match mon.workspaces[idx]? with
          | none => (none, mon :: rest)
          | some ws =>
              match ws.removeTile wid with
              | none => (none, mon :: rest)
              | some (removed, ws') =>
                  let wss := mon.workspaces.set idx ws'
                  let cleanup :=
                    !ws'.hasWindows && ws'.name.isNone &&
                      !(idx == mon.activeWorkspaceIdx) &&
                      !(idx == mon.workspaces.length - 1) &&
                      mon.workspaceSwitch.isNone
                  let mon' :=
                    if cleanup then
                      { mon with
                        workspaces := wss.eraseIdx idx
                        activeWorkspaceIdx :=
                          if idx < mon.activeWorkspaceIdx then mon.activeWorkspaceIdx - 1
                          else mon.activeWorkspaceIdx }
                    else { mon with workspaces := wss }
                  (some removed, mon' :: rest)
      | none =>
          match removeWindowFromMonitors wid rest with
          | (r, rest') => (r, mon :: rest')

/-- The `MonitorSet::NoOutputs` part of `Layout::remove_window`
(`mod.rs:904-917`): remove the tile from the first parked workspace holding
it; a workspace left empty and unnamed is dropped. -/
def removeWindowFromParked (wid : Nat) : List Workspace → Option RemovedTile × List Workspace
  | [] => (none, [])
  | ws :: rest =>
      if ws.hasWindow wid then
        match ws.removeTile wid with
        | none => (none, ws :: rest)
        | some (removed, ws') =>
            if !ws'.hasWindows && ws'.name.isNone then (some removed, rest)
            else (some removed, ws' :: rest)
      else
        match removeWindowFromParked wid rest with
        | (r, rest') => (r, ws :: rest')

/-- The monitor-set search of `Layout::remove_window`, after the
interactive-move checks. -/
def Layout.removeWindowMain (L : Layout) (wid : Nat) : Option RemovedTile × Layout :=
  match L.monitorSet with
  | .normal monitors p a =>
      match removeWindowFromMonitors wid monitors with
      | (r, monitors') => (r, { L with monitorSet := .normal monitors' p a })
  | .noOutputs wss =>
      match removeWindowFromParked wid wss with
      | (r, wss') => (r, { L with monitorSet := .noOutputs wss' })

/-- `Layout::remove_window` (`mod.rs:849-921`). -/
def Layout.removeWindow (L : Layout) (wid : Nat) : Option RemovedTile × Layout :=
  match L.interactiveMove with
  | some (.starting windowId _ _) =>
      let L' := if windowId = wid then L.interactiveMoveEndStarting wid else L
      L'.removeWindowMain wid
  | some (.moving mv) =>
      if mv.tile.wid = wid then
        (some { tile := mv.tile, width := mv.width, isFullWidth := mv.isFullWidth },
          { L with interactiveMove := none })
      else L.removeWindowMain wid
  | none => L.removeWindowMain wid

/-- The main body of `Layout::activate_window` (`mod.rs:1213-1240`): for
each monitor whose workspaces contain the window, the window is focused in
its workspace and the monitor switches to it (subject to the gesture
check); the active monitor index becomes the last such monitor's index. -/
def activateGo (wid : Nat) (base : Nat) : List Monitor → List Monitor × Option Nat
  | [] => ([], none)
  | mon :: rest =>
      match activateGo wid (base + 1) rest with
      | (rest', found) =>
          if mon.workspaces.any (fun ws => ws.hasWindow wid) then
            (mon.activateWindowInMon wid :: rest', some (found.getD base))
          else (mon :: rest', found)

/-- `Layout::activate_window` (`mod.rs:1206-1241`). -/
def Layout.activateWindow (L : Layout) (wid : Nat) : Layout :=
  let isMovingThis :=
    match L.interactiveMove with
    | some (.moving mv) => mv.tile.wid == wid
    | _ => false
  if isMovingThis then L
  else
    match L.monitorSet with
    | .noOutputs _ => L
    | .normal monitors primaryIdx activeMonitorIdx =>
        match activateGo wid 0 monitors with
        | (monitors', found) =>
            { L with
              monitorSet :=
                .normal monitors' primaryIdx (found.getD activeMonitorIdx) }

/-- `Layout::focus_output` (`mod.rs:2441-2455`). -/
def Layout.focusOutput (L : Layout) (oname : Nat) : Layout :=
  match L.monitorSet with
  | .noOutputs _ => L
  | .normal monitors primaryIdx activeMonitorIdx =>
      match monitors.findIdx? (fun mon => mon.output.name == oname) with
      | some idx => { L with monitorSet := .normal monitors primaryIdx idx }
      | none => { L with monitorSet := .normal monitors primaryIdx activeMonitorIdx }

/-- `Layout::set_fullscreen` (`mod.rs:2611-2638`). -/
def Layout.setFullscreen (L : Layout) (wid : Nat) (isFullscreen : Bool) : Layout :=
  let isMovingThis :=
    match L.interactiveMove with
    | some (.moving mv) => mv.tile.wid == wid
    | _ => false
  if isMovingThis then L
  else L.applyToWindowWs wid fun ws => ws.setFullscreenWin wid isFullscreen

/-- `Layout::toggle_fullscreen` (`mod.rs:2640-2667`). -/
def Layout.toggleFullscreen (L : Layout) (wid : Nat) : Layout :=
  let isMovingThis :=
    match L.interactiveMove with
    | some (.moving mv) => mv.tile.wid == wid
    | _ => false
  if isMovingThis then L
  else L.applyToWindowWs wid fun ws => ws.toggleFullscreenWin wid

/-- A workspace block from the configuration (`niri_config::Workspace`):
a name and optionally the output to open on. -/
structure WsConfig where
  name : String
  openOnOutput : Option Nat
deriving Repr, DecidableEq

/-- `Layout::find_workspace_by_name(..).is_some()` (`mod.rs:999`). -/
def Layout.hasWorkspaceNamed (L : Layout) (name : String) : Bool :=
  match L.monitorSet with
  | .normal monitors _ _ =>
      monitors.any fun mon => mon.workspaces.any fun ws =>
        (ws.name.map fun n => eqIgnoreAsciiCase n name).getD false
  | .noOutputs wss =>
      wss.any fun ws => (ws.name.map fun n => eqIgnoreAsciiCase n name).getD false

/-- `Layout::ensure_named_workspace` (`mod.rs:2285-2325`). -/
def Layout.ensureNamedWorkspace (L : Layout) (cfg : WsConfig) : Layout :=
  if L.hasWorkspaceNamed cfg.name then L
  else
    match L.monitorSet with
    | .normal monitors primaryIdx activeMonitorIdx =>
        let monIdx :=
          match cfg.openOnOutput with
          | some oname =>
              (monitors.findIdx? fun m => m.output.name == oname).getD primaryIdx
          | none => activeMonitorIdx
        match monitors[monIdx]? with
        | none => L
        | some mon =>
            let ws := Workspace.freshNamed mon.output cfg.name L.nextWsId L.options
            let mon' :=
              { mon with
                workspaces := ws :: mon.workspaces
                activeWorkspaceIdx := mon.activeWorkspaceIdx + 1
                workspaceSwitch := none }
            let mon' := mon'.cleanUpWorkspaces
            { L with
              monitorSet := .normal (monitors.set monIdx mon') primaryIdx activeMonitorIdx
              nextWsId := L.nextWsId + 1 }
    | .noOutputs wss =>
        { L with
          monitorSet :=
            .noOutputs (Workspace.freshNamedNoOutputs cfg.name L.nextWsId L.options :: wss)
          nextWsId := L.nextWsId + 1 }

/-- `Layout::update_config` (`mod.rs:2327-2349`). -/
def Layout.updateConfig (L : Layout) (opts : Opts) : Layout :=
  let L' :=
    match L.interactiveMove with
    | some (.moving mv) =>
        { L with
          interactiveMove := some (.moving
            { mv with tile :=
                { mv.tile with options := opts.adjustedForScale mv.output.scale } }) }
    | _ => L
  match L'.monitorSet with
  | .normal monitors p a =>
      { L' with
        monitorSet := .normal (monitors.map fun m => m.updateConfigM opts) p a
        options := opts }
  | .noOutputs wss =>
      { L' with
        monitorSet := .noOutputs (wss.map fun ws => ws.updateConfig opts)
        options := opts }

/-- Whether a monitor set holds the window. -/
def MonitorSet.hasWindowMS (ms : MonitorSet) (wid : Nat) : Bool :=
  match ms with
  | .normal monitors _ _ =>
      monitors.any fun m => m.workspaces.any fun ws => ws.hasWindow wid
  | .noOutputs wss => wss.any fun ws => ws.hasWindow wid

/-- Whether the monitor set (not counting a moving tile) holds the window. -/
def Layout.hasWindowInSet (L : Layout) (wid : Nat) : Bool :=
  L.monitorSet.hasWindowMS wid

/-- `Layout::interactive_move_update` (`mod.rs:2849-3007`).  The two
render-only effects (the move-back animation and `animate_move_from`) are
outside the model; `output_enter`/`output_leave` notifications carry no
layout state.  On the unreachable `unwrap` failure (moving a window that
is not in the layout) the model keeps the post-offset state. -/
def Layout.interactiveMoveUpdate (L : Layout) (wid : Nat) (delta : ℚ × ℚ)
    (out : Output) (pointerPos : ℚ × ℚ) : Layout :=
  match L.interactiveMove with
  | none => L
  | some (.starting windowId pointerDelta ratio) =>
      if windowId ≠ wid then L
      else
        let pd := (pointerDelta.1 + delta.1, pointerDelta.2 + delta.2)
        let sqDist := pd.1 * pd.1 + pd.2 * pd.2
        let factor :=
          RubberBand.band { stiffness := 1, limit := 1 / 2 }
            (sqDist / interactiveMoveStartThreshold)
        let L1 := L.updateFirstTile wid fun t =>
          { t with moveOffset := (pd.1 * factor, pd.2 * factor) }
        let L1 := { L1 with interactiveMove := some (.starting wid pd ratio) }
        if sqDist < interactiveMoveStartThreshold then L1
        else
          match L1.removeWindow wid with
          | (none, _) => L1
          | (some removed, L2) =>
              let tile := removed.tile
              let tile := { tile with moveOffset := (0, 0) }
              let tile := { tile with options := L2.options.adjustedForScale out.scale }
              -- `request_size((0,0))` to unfullscreen: per the handle
              -- contract the pending-fullscreen state drops immediately.
              let tile :=
                if tile.pendingFullscreen then { tile with pendingFullscreen := false }
                else tile
              { L2 with
                interactiveMove := some (.moving
                  { tile := tile
                    output := out
                    pointerPosWithinOutput := pointerPos
                    width := removed.width
                    isFullWidth := removed.isFullWidth
                    pointerRatioWithinWindow := ratio }) }
  | some (.moving mv) =>
      if mv.tile.wid ≠ wid then L
      else
        let (mv', L1) :=
          if mv.output ≠ out then
            ({ mv with
                tile := { mv.tile with options := L.options.adjustedForScale out.scale }
                output := out },
              L.focusOutput out.name)
          else (mv, L)
        { L1 with
          interactiveMove := some (.moving
            { mv' with pointerPosWithinOutput := pointerPos }) }

/-! ## The command surface and its preconditions -/

/-- The embedded `Layout` commands (the commands of `mod.rs` whose bodies
the claims are about). -/
inductive Op where
  | addOutput (o : Output)
  | removeOutput (oname : Nat)
  | addWindow (wid : Nat) (width : ColWidth) (isFullWidth : Bool)
  | addWindowOnOutput (oname wid : Nat) (width : ColWidth) (isFullWidth : Bool)
  | addWindowToNamedWorkspace (wsName : String) (wid : Nat) (width : ColWidth)
      (isFullWidth : Bool)
  | removeWindow (wid : Nat)
  | activateWindow (wid : Nat)
  | focusOutput (oname : Nat)
  | setFullscreen (wid : Nat) (isFullscreen : Bool)
  | toggleFullscreen (wid : Nat)
  | ensureNamedWorkspace (cfg : WsConfig)
  | updateConfig (opts : Opts)
  | interactiveMoveUpdate (wid : Nat) (delta : ℚ × ℚ) (out : Output)
      (pointerPos : ℚ × ℚ)
deriving Repr, DecidableEq

/-- Apply a command to the layout. -/
def Layout.applyOp (L : Layout) : Op → Layout
  | .addOutput o => L.addOutput o
  | .removeOutput oname => L.removeOutput oname
  | .addWindow wid width ifw => L.addWindow wid width ifw
  | .addWindowOnOutput oname wid width ifw => L.addWindowOnOutput oname wid width ifw
  | .addWindowToNamedWorkspace n wid width ifw => L.addWindowToNamedWorkspace n wid width ifw
  | .removeWindow wid => (L.removeWindow wid).2
  | .activateWindow wid => L.activateWindow wid
  | .focusOutput oname => L.focusOutput oname
  | .setFullscreen wid b => L.setFullscreen wid b
  | .toggleFullscreen wid => L.toggleFullscreen wid
  | .ensureNamedWorkspace cfg => L.ensureNamedWorkspace cfg
  | .updateConfig opts => L.updateConfig opts
  | .interactiveMoveUpdate wid delta out pos => L.interactiveMoveUpdate wid delta out pos

/-- Whether a monitor for the named output is connected. -/
def Layout.hasOutput (L : Layout) (oname : Nat) : Bool :=
  match L.monitorSet with
  | .normal monitors _ _ => monitors.any fun m => m.output.name == oname
  | .noOutputs _ => false

/-- The documented structural pre-conditions of each command (§7: duplicate
or missing outputs, missing named workspaces and the like terminate the
process; external callers must check them).  Commands without such
pre-conditions are always valid. -/
def OpValid (L : Layout) : Op → Prop
  | .addOutput o => L.hasOutput o.name = false
  | .removeOutput oname => L.hasOutput oname = true
  | .addWindowOnOutput oname _ _ _ => L.hasOutput oname = true
  | .addWindowToNamedWorkspace n _ _ _ => L.hasWorkspaceNamed n = true
  | _ => True

instance (L : Layout) : (op : Op) → Decidable (OpValid L op)
  | .addOutput o => inferInstanceAs (Decidable (_ = _))
  | .removeOutput oname => inferInstanceAs (Decidable (_ = _))
  | .addWindowOnOutput oname wid width ifw => inferInstanceAs (Decidable (_ = _))
  | .addWindowToNamedWorkspace n wid width ifw => inferInstanceAs (Decidable (_ = _))
  | .addWindow _ _ _ => inferInstanceAs (Decidable True)
  | .removeWindow _ => inferInstanceAs (Decidable True)
  | .activateWindow _ => inferInstanceAs (Decidable True)
  | .focusOutput _ => inferInstanceAs (Decidable True)
  | .setFullscreen _ _ => inferInstanceAs (Decidable True)
  | .toggleFullscreen _ => inferInstanceAs (Decidable True)
  | .ensureNamedWorkspace _ => inferInstanceAs (Decidable True)
  | .updateConfig _ => inferInstanceAs (Decidable True)
  | .interactiveMoveUpdate _ _ _ _ => inferInstanceAs (Decidable True)

/-! ## The layout invariants -/

/-- A workspace that may exist on its own: it has windows or a name. -/
def Workspace.keepable (ws : Workspace) : Bool :=
  ws.hasWindows || ws.name.isSome

/-- The per-monitor structural invariants: at least one workspace, the
active index in range, a trailing empty unnamed workspace originating on
this monitor, and — when no workspace switch is in progress — no unnamed
empty workspace other than the active or last one.  `opts` is the layout's
shared snapshot: the monitor carries it verbatim and every workspace
carries it as base plus a scale-adjusted copy. -/
def Monitor.invariant (m : Monitor) (opts : Opts) : Prop :=
  m.workspaces ≠ [] ∧
  m.activeWorkspaceIdx < m.workspaces.length ∧
  (∀ last ∈ m.workspaces.getLast?,
     last.columns = [] ∧ last.name = none ∧ last.originalOutput = m.output.name) ∧
  (m.workspaceSwitch = none →
    ∀ i < m.workspaces.length - 1, i ≠ m.activeWorkspaceIdx →
      ∀ ws ∈ m.workspaces[i]?, ws.keepable = true) ∧
  m.options = opts ∧
  (∀ ws ∈ m.workspaces,
     ws.baseOptions = opts ∧ ws.options = opts.adjustedForScale ws.scale)

instance (m : Monitor) (opts : Opts) : Decidable (m.invariant opts) :=
  inferInstanceAs (Decidable (_ ∧ _))

/-- The monitor-set part of the strengthened inductive invariant. -/
def MonitorSet.invCore : MonitorSet → Opts → Prop
  | .normal monitors primaryIdx activeMonitorIdx, opts =>
      monitors ≠ [] ∧
      primaryIdx < monitors.length ∧
      activeMonitorIdx < monitors.length ∧
      (monitors.map fun m => m.output.name).Nodup ∧
      (∀ m ∈ monitors, m.invariant opts) ∧
      (∀ i < monitors.length, i ≠ primaryIdx →
         ∀ m ∈ monitors[i]?, ∀ ws ∈ m.workspaces,
           ws.originalOutput = m.output.name) ∧
      (∀ p ∈ monitors[primaryIdx]?, ∀ ws ∈ p.workspaces,
         ws.originalOutput ≠ p.output.name →
         ∀ m ∈ monitors, ws.originalOutput ≠ m.output.name)
  | .noOutputs wss, opts =>
      ∀ ws ∈ wss,
        ws.keepable = true ∧ ws.baseOptions = opts ∧
          ws.options = opts.adjustedForScale ws.scale

/-- The interactive-move part of the invariant: a `Starting` move is on a
window that exists in the layout (`mod.rs:1949-1952`). -/
def imOkCore (ms : MonitorSet) : Option IMoveState → Prop
  | some (.starting wid _ _) => ms.hasWindowMS wid = true
  | _ => True

instance : (ms : MonitorSet) → (opts : Opts) → Decidable (MonitorSet.invCore ms opts)
  | .normal _ _ _, _ => inferInstanceAs (Decidable (_ ∧ _))
  | .noOutputs wss, _ => inferInstanceAs (Decidable (∀ ws ∈ wss, _ ∧ _ ∧ _))

instance : (ms : MonitorSet) → (im : Option IMoveState) → Decidable (imOkCore ms im)
  | _, some (.starting _ _ _) => inferInstanceAs (Decidable (_ = _))
  | _, some (.moving _) => inferInstanceAs (Decidable True)
  | _, none => inferInstanceAs (Decidable True)

/-- The strengthened inductive invariant of the layout, the formal
counterpart of `Layout::verify_invariants` (`mod.rs:1934-2129`) plus the
auxiliary facts needed for it to be inductive. -/
def Layout.Inv (L : Layout) : Prop :=
  L.monitorSet.invCore L.options ∧ imOkCore L.monitorSet L.interactiveMove

instance (L : Layout) : Decidable L.Inv :=
  inferInstanceAs (Decidable (_ ∧ _))

/-! ## The claimed invariant properties (claims C2, C7, C8) -/

/-- Claim C2's property: every workspace of a secondary monitor has an
original-output matching that monitor, and any workspace of the primary
whose original-output does not match the primary has no monitor in the
current set matching its original-output. -/
def MonitorSet.originInvariant : MonitorSet → Prop
  | .normal monitors primaryIdx _ =>
      (∀ i < monitors.length, i ≠ primaryIdx →
         ∀ m ∈ monitors[i]?, ∀ ws ∈ m.workspaces,
           ws.originalOutput = m.output.name) ∧
      (∀ p ∈ monitors[primaryIdx]?, ∀ ws ∈ p.workspaces,
         ws.originalOutput ≠ p.output.name →
         ∀ m ∈ monitors, ws.originalOutput ≠ m.output.name)
  | .noOutputs _ => True

instance : (ms : MonitorSet) → Decidable ms.originInvariant
  | .normal _ _ _ => inferInstanceAs (Decidable (_ ∧ _))
  | .noOutputs _ => inferInstanceAs (Decidable True)

/-- Claim C2's property read off the layout. -/
def Layout.OriginInvariant (L : Layout) : Prop :=
  L.monitorSet.originInvariant

instance (L : Layout) : Decidable L.OriginInvariant :=
  inferInstanceAs (Decidable L.monitorSet.originInvariant)

/-- Claim C7's property: for every monitor with no workspace switch in
progress, no workspace is simultaneously unnamed, empty, and neither
active nor last; and the last workspace of every monitor is unnamed and
empty. -/
def MonitorSet.cleanupInvariant : MonitorSet → Prop
  | .normal monitors _ _ =>
      ∀ m ∈ monitors,
        (m.workspaceSwitch = none →
          ∀ i < m.workspaces.length - 1, i ≠ m.activeWorkspaceIdx →
            ∀ ws ∈ m.workspaces[i]?, ws.keepable = true) ∧
        (∀ last ∈ m.workspaces.getLast?, last.columns = [] ∧ last.name = none)
  | .noOutputs _ => True

instance : (ms : MonitorSet) → Decidable ms.cleanupInvariant
  | .normal monitors _ _ => inferInstanceAs (Decidable (∀ m ∈ monitors, _ ∧ _))
  | .noOutputs _ => inferInstanceAs (Decidable True)

/-- Claim C7's property read off the layout. -/
def Layout.CleanupInvariant (L : Layout) : Prop :=
  L.monitorSet.cleanupInvariant

instance (L : Layout) : Decidable L.CleanupInvariant :=
  inferInstanceAs (Decidable L.monitorSet.cleanupInvariant)

/-- Claim C8's invariant part: every monitor's options equal the layout's
shared snapshot, and every workspace's effective options equal the base
snapshot adjusted for the workspace's scale. -/
def MonitorSet.optionsInvariant : MonitorSet → Opts → Prop
  | .normal monitors _ _, opts =>
      ∀ m ∈ monitors, m.options = opts ∧
        ∀ ws ∈ m.workspaces,
          ws.baseOptions = opts ∧ ws.options = opts.adjustedForScale ws.scale
  | .noOutputs wss, opts =>
      ∀ ws ∈ wss,
        ws.baseOptions = opts ∧ ws.options = opts.adjustedForScale ws.scale

instance : (ms : MonitorSet) → (opts : Opts) → Decidable (ms.optionsInvariant opts)
  | .normal monitors _ _, _ => inferInstanceAs (Decidable (∀ m ∈ monitors, _ ∧ _))
  | .noOutputs wss, _ => inferInstanceAs (Decidable (∀ ws ∈ wss, _ ∧ _))

/-- Claim C8's invariant part read off the layout. -/
def Layout.OptionsInvariant (L : Layout) : Prop :=
  L.monitorSet.optionsInvariant L.options

instance (L : Layout) : Decidable L.OptionsInvariant :=
  inferInstanceAs (Decidable (L.monitorSet.optionsInvariant L.options))

/-! ## Concrete layouts for exercising the executable model -/

/-- All-zero options: every scale adjustment is exact, so the model
evaluates by `decide`. -/
def sampleOpts : Opts := { gaps := 0, focusRingWidth := 0, borderWidth := 0 }

/-- An output named `0` at scale 1. -/
def sampleOut : Output := { name := 0, scale := 1 }

/-- A second output, named `1`, at scale 1. -/
def sampleOut2 : Output := { name := 1, scale := 1 }

/-- A one-monitor layout: output `0` holding a single fresh workspace. -/
def sampleLayout : Layout :=
  { monitorSet := .normal
      [Monitor.mkNew sampleOut [Workspace.fresh sampleOut 0 sampleOpts] sampleOpts] 0 0
    isActive := true
    interactiveMove := none
    options := sampleOpts
    nextWsId := 1 }

/-- A tile for window 3 used by the interactive-move examples. -/
def sampleTile : Tile :=
  { wid := 3, moveOffset := (0, 0), pendingFullscreen := false, options := sampleOpts }

/-- Interactive-move data carrying `sampleTile` on `sampleOut`. -/
def sampleMovingData : IMoveData :=
  { tile := sampleTile
    output := sampleOut
    pointerPosWithinOutput := (0, 0)
    width := ColWidth.preset 0
    isFullWidth := false
    pointerRatioWithinWindow := (0, 0) }

/-- `sampleLayout` with an interactive move in the `Moving` state for
window 3. -/
def sampleLayoutMoving : Layout :=
  { sampleLayout with interactiveMove := some (.moving sampleMovingData) }

/-- Observation helper: the active column of the active workspace of the
monitor at index `i` (in the `Normal` state). -/
def Layout.activeColumnAt (L : Layout) (i : Nat) : Option Column :=
  match L.monitorSet with
  | .noOutputs _ => none
  | .normal monitors _ _ =>
      match monitors[i]? with
      | none => none
      | some mon =>
          match mon.workspaces[mon.activeWorkspaceIdx]? with
          | none => none
          | some ws => ws.columns[ws.activeColumnIdx]?

/-- A fullscreen single-tile column holding window 3. -/
def sampleColFS : Column :=
  { tiles := [sampleTile], activeTileIdx := 0, isFullscreen := true
    width := ColWidth.preset 0, isFullWidth := false }

/-- A named workspace on `sampleOut` whose active column is the fullscreen
`sampleColFS`. -/
def sampleWsFS : Workspace :=
  { id := 0
    name := some "web"
    originalOutput := 0
    curOutput := some 0
    columns := [sampleColFS]
    activeColumnIdx := 0
    scale := 1
    baseOptions := sampleOpts
    options := sampleOpts }

/-- A monitor whose active workspace is `sampleWsFS`, followed by a
trailing empty workspace. -/
def sampleMonFS : Monitor :=
  { output := sampleOut
    workspaces := [sampleWsFS, Workspace.fresh sampleOut 1 sampleOpts]
    activeWorkspaceIdx := 0
    workspaceSwitch := none
    previousWorkspaceId := none
    options := sampleOpts }

/-- A layout whose single monitor is `sampleMonFS`. -/
def sampleLayoutFS : Layout :=
  { monitorSet := .normal [sampleMonFS] 0 0
    isActive := true
    interactiveMove := none
    options := sampleOpts
    nextWsId := 2 }

/-- A layout with two monitors, one per output, each holding a single
fresh workspace. -/
def sampleLayout2 : Layout :=
  { monitorSet := .normal
      [Monitor.mkNew sampleOut [Workspace.fresh sampleOut 0 sampleOpts] sampleOpts,
        Monitor.mkNew sampleOut2 [Workspace.fresh sampleOut2 1 sampleOpts] sampleOpts] 0 0
    isActive := true
    interactiveMove := none
    options := sampleOpts
    nextWsId := 2 }

/-- `sampleLayout2` with the second monitor active. -/
def sampleLayoutC1 : Layout :=
  { monitorSet := .normal
      [Monitor.mkNew sampleOut [Workspace.fresh sampleOut 0 sampleOpts] sampleOpts,
        Monitor.mkNew sampleOut2 [Workspace.fresh sampleOut2 1 sampleOpts] sampleOpts] 0 1
    isActive := true
    interactiveMove := none
    options := sampleOpts
    nextWsId := 2 }

/-- `sampleLayoutFS` with an interactive move in the `Starting` state for
window 3. -/
def sampleLayoutStarting : Layout :=
  { sampleLayoutFS with interactiveMove := some (.starting 3 (0, 0) (0, 0)) }

/-- Observation helper: the active workspace index of the monitor at
index `i` (in the `Normal` state). -/
def Layout.activeWsIdxAt (L : Layout) (i : Nat) : Option Nat :=
  match L.monitorSet with
  | .noOutputs _ => none
  | .normal monitors _ _ => (monitors[i]?).map Monitor.activeWorkspaceIdx

/-- A plain (non-fullscreen) single-tile column holding window 3. -/
def sampleCol : Column :=
  { tiles := [sampleTile], activeTileIdx := 0, isFullscreen := false
    width := ColWidth.preset 0, isFullWidth := false }

/-- An unnamed workspace holding `sampleCol`. -/
def sampleWsWin : Workspace :=
  { id := 1
    name := none
    originalOutput := 0
    curOutput := some 0
    columns := [sampleCol]
    activeColumnIdx := 0
    scale := 1
    baseOptions := sampleOpts
    options := sampleOpts }

/-- A monitor in the middle of a workspace switch, still holding an orphan
empty workspace at index 0 (permitted while the switch is in progress),
the focused window workspace at index 1, and the trailing empty. -/
def sampleMonC9 : Monitor :=
  { output := sampleOut
    workspaces := [Workspace.fresh sampleOut 0 sampleOpts, sampleWsWin,
      Workspace.fresh sampleOut 2 sampleOpts]
    activeWorkspaceIdx := 1
    workspaceSwitch := some (.animation 0 1)
    previousWorkspaceId := none
    options := sampleOpts }

/-- A layout whose single monitor is `sampleMonC9`. -/
def sampleLayoutC9 : Layout :=
  { monitorSet := .normal [sampleMonC9] 0 0
    isActive := true
    interactiveMove := none
    options := sampleOpts
    nextWsId := 3 }

/-! # Lemmas

## Workspace clean-up (`cleanUpGo`) -/

theorem cleanUpGo_sublist (active lastIdx i : Nat) (l : List Workspace) :
    (cleanUpGo active lastIdx i l).1.Sublist l := by
  induction l generalizing i with
  | nil => simp [cleanUpGo]
  | cons ws rest ih =>
      simp only [cleanUpGo]
      split
      · exact (ih (i + 1)).cons₂ ws
      · exact (ih (i + 1)).cons ws

theorem cleanUpGo_removed_le (active lastIdx i : Nat) (l : List Workspace) :
    (cleanUpGo active lastIdx i l).2 ≤ active - i := by
  induction l generalizing i with
  | nil => simp [cleanUpGo]
  | cons ws rest ih =>
      simp only [cleanUpGo]
      split
      · exact (ih (i + 1)).trans (Nat.sub_le_sub_left (Nat.le_succ i) active)
      · split
        · rename_i hlt
          have h1 := ih (i + 1)
          omega
        · exact (ih (i + 1)).trans (Nat.sub_le_sub_left (Nat.le_succ i) active)

theorem cleanUpGo_removed_zero (active lastIdx i : Nat) (l : List Workspace)
    (h : active ≤ i) : (cleanUpGo active lastIdx i l).2 = 0 := by
  have := cleanUpGo_removed_le active lastIdx i l
  omega

theorem getLast?_cons_ne {α : Type _} (a : α) (l : List α) (h : l ≠ []) :
    (a :: l).getLast? = l.getLast? := by
  cases l with
  | nil => exact absurd rfl h
  | cons b m => exact List.getLast?_cons_cons

/-- The last element (at absolute index `lastIdx`) is kept and remains
last. -/
theorem cleanUpGo_getLast (active lastIdx i : Nat) (l : List Workspace)
    (hne : l ≠ []) (hlen : i + l.length = lastIdx + 1) :
    (cleanUpGo active lastIdx i l).1.getLast? = l.getLast? ∧
      (cleanUpGo active lastIdx i l).1 ≠ [] := by
  induction l generalizing i with
  | nil => exact absurd rfl hne
  | cons ws rest ih =>
      simp only [cleanUpGo]
      rcases rest with _ | ⟨ws2, rest2⟩
      · simp only [List.length_cons, List.length_nil] at hlen
        have hi : (i == lastIdx) = true := by
          simp only [beq_iff_eq]; omega
        simp [cleanUpGo, hi]
      · have hlen' : (i + 1) + (ws2 :: rest2).length = lastIdx + 1 := by
          simp only [List.length_cons] at hlen ⊢; omega
        obtain ⟨h1, h2⟩ := ih (i + 1) (by simp) hlen'
        split
        · refine ⟨?_, by simp⟩
          rw [getLast?_cons_ne ws _ h2, h1,
            getLast?_cons_ne ws (ws2 :: rest2) (by simp)]
        · exact ⟨h1.trans (getLast?_cons_ne ws (ws2 :: rest2) (by simp)).symm, h2⟩

/-- The active workspace (at absolute index `active`) keeps its identity:
in the kept list it sits at the old relative position minus the number of
workspaces removed before it. -/
theorem cleanUpGo_active (active lastIdx i : Nat) (l : List Workspace)
    (hge : i ≤ active) (hlt : active < i + l.length) :
    (cleanUpGo active lastIdx i l).1[active - i - (cleanUpGo active lastIdx i l).2]? =
      l[active - i]? := by
  induction l generalizing i with
  | nil => simp at hlt; omega
  | cons ws rest ih =>
      simp only [cleanUpGo]
      rcases Nat.eq_or_lt_of_le hge with heq | hlt'
      · subst heq
        have hz : (cleanUpGo i lastIdx (i + 1) rest).2 = 0 :=
          cleanUpGo_removed_zero _ _ _ _ (Nat.le_succ i)
        simp [hz]
      · have hge' : i + 1 ≤ active := hlt'
        have hlt'' : active < (i + 1) + rest.length := by
          simp only [List.length_cons] at hlt; omega
        have hrb := cleanUpGo_removed_le active lastIdx (i + 1) rest
        have ih' := ih (i + 1) hge' hlt''
        have hr : rest[active - (i + 1)]? = (ws :: rest)[active - i]? := by
          rw [show active - i = (active - (i + 1)) + 1 from by omega,
            List.getElem?_cons_succ]
        split
        · show (ws :: (cleanUpGo active lastIdx (i + 1) rest).1)[active - i -
            (cleanUpGo active lastIdx (i + 1) rest).2]? = (ws :: rest)[active - i]?
          rw [show active - i - (cleanUpGo active lastIdx (i + 1) rest).2 =
              (active - (i + 1) - (cleanUpGo active lastIdx (i + 1) rest).2) + 1 from
              by omega,
            List.getElem?_cons_succ, ih', hr]
        · show ((cleanUpGo active lastIdx (i + 1) rest).1)[active - i -
            ((cleanUpGo active lastIdx (i + 1) rest).2 + 1)]? = (ws :: rest)[active - i]?
          rw [show active - i - ((cleanUpGo active lastIdx (i + 1) rest).2 + 1) =
              active - (i + 1) - (cleanUpGo active lastIdx (i + 1) rest).2 from by omega,
            ih', hr]

/-- Every kept workspace either may exist on its own, or sits at the new
active position, or is the (new) last one. -/
theorem cleanUpGo_keepable (active lastIdx i : Nat) (l : List Workspace)
    (hlen : i + l.length = lastIdx + 1) :
    ∀ j, ∀ ws ∈ (cleanUpGo active lastIdx i l).1[j]?,
      ws.keepable = true ∨
        (i ≤ active ∧ j = active - i - (cleanUpGo active lastIdx i l).2) ∨
        j = (cleanUpGo active lastIdx i l).1.length - 1 := by
  induction l generalizing i with
  | nil => intro j ws h; simp [cleanUpGo] at h
  | cons w rest ih =>
      have hlen' : (i + 1) + rest.length = lastIdx + 1 ∨ rest = [] := by
        cases rest with
        | nil => exact Or.inr rfl
        | cons a b => left; simp only [List.length_cons] at hlen ⊢; omega
      intro j ws hws
      simp only [cleanUpGo] at hws ⊢
      have hrb := cleanUpGo_removed_le active lastIdx (i + 1) rest
      by_cases hc : (w.hasWindows || w.name.isSome || i == active || i == lastIdx) = true
      · rw [if_pos hc] at hws ⊢
        dsimp only at hws ⊢
        cases j with
        | zero =>
            simp only [List.getElem?_cons_zero, Option.mem_def, Option.some.injEq] at hws
            subst hws
            simp only [Bool.or_eq_true, beq_iff_eq] at hc
            rcases hc with ((h5 | h6) | h3) | h4
            · exact Or.inl (by simp [Workspace.keepable, h5])
            · exact Or.inl (by simp [Workspace.keepable, h6])
            · subst h3
              exact Or.inr (Or.inl ⟨le_refl i, by omega⟩)
            · have hil : i = lastIdx := h4
              have hrest : rest = [] := by
                rcases hlen' with h | h
                · have hz : rest.length = 0 := by omega
                  exact List.length_eq_zero.mp hz
                · exact h
              subst hrest
              right; right; simp [cleanUpGo]
        | succ j' =>
            simp only [List.getElem?_cons_succ] at hws
            have hlen'' : (i + 1) + rest.length = lastIdx + 1 := by
              rcases hlen' with h | h
              · exact h
              · subst h; simp [cleanUpGo] at hws
            rcases ih (i + 1) hlen'' j' ws hws with h | ⟨h1, h2⟩ | h
            · exact Or.inl h
            · right; left
              exact ⟨by omega, by omega⟩
            · right; right
              have hj : j' < (cleanUpGo active lastIdx (i + 1) rest).1.length := by
                have := List.getElem?_eq_some.mp hws
                exact this.1
              simp only [List.length_cons]
              omega
      · rw [if_neg hc] at hws ⊢
        dsimp only at hws ⊢
        have hlen'' : (i + 1) + rest.length = lastIdx + 1 := by
          rcases hlen' with h | h
          · exact h
          · subst h
            exfalso
            simp only [List.length_cons, List.length_nil] at hlen
            have : i = lastIdx := by omega
            subst this
            simp at hc
        rcases ih (i + 1) hlen'' j ws hws with h | ⟨h1, h2⟩ | h
        · exact Or.inl h
        · right; left
          constructor
          · omega
          · split
            · omega
            · omega
        · exact Or.inr (Or.inr h)

/-- When there is nothing to clean up, the pass is the identity. -/
theorem cleanUpGo_id (active lastIdx i : Nat) (l : List Workspace)
    (h : ∀ j, ∀ ws ∈ l[j]?, i + j ≠ active → i + j ≠ lastIdx → ws.keepable = true) :
    cleanUpGo active lastIdx i l = (l, 0) := by
  induction l generalizing i with
  | nil => simp [cleanUpGo]
  | cons w rest ih =>
      have hrest : cleanUpGo active lastIdx (i + 1) rest = (rest, 0) := by
        refine ih (i + 1) fun j ws hws h1 h2 => ?_
        exact h (j + 1) ws (by simpa using hws) (by omega) (by omega)
      simp only [cleanUpGo, hrest]
      by_cases hia : i = active
      · simp [hia]
      · by_cases hil : i = lastIdx
        · simp [hil]
        · have hk : w.keepable = true := h 0 w (by simp) (by omega) (by omega)
          have : (w.hasWindows || w.name.isSome) = true := hk
          simp [Workspace.keepable] at this
          rcases this with h | h <;> simp [h]

/-- The facts used about `Monitor.cleanUpWorkspaces`: the kept workspaces
are a sublist, the trailing workspace and the active workspace survive in
place, the active index stays in range, no orphan workspaces remain, and
all other monitor fields are untouched. -/
theorem cleanUpWorkspaces_spec (m : Monitor) (hne : m.workspaces ≠ [])
    (hact : m.activeWorkspaceIdx < m.workspaces.length) :
    m.cleanUpWorkspaces.workspaces.Sublist m.workspaces ∧
    m.cleanUpWorkspaces.workspaces.getLast? = m.workspaces.getLast? ∧
    m.cleanUpWorkspaces.workspaces ≠ [] ∧
    m.cleanUpWorkspaces.workspaces[m.cleanUpWorkspaces.activeWorkspaceIdx]? =
      m.workspaces[m.activeWorkspaceIdx]? ∧
    m.cleanUpWorkspaces.activeWorkspaceIdx < m.cleanUpWorkspaces.workspaces.length ∧
    (∀ j < m.cleanUpWorkspaces.workspaces.length - 1,
       j ≠ m.cleanUpWorkspaces.activeWorkspaceIdx →
       ∀ ws ∈ m.cleanUpWorkspaces.workspaces[j]?, ws.keepable = true) ∧
    m.cleanUpWorkspaces.output = m.output ∧
    m.cleanUpWorkspaces.options = m.options ∧
    m.cleanUpWorkspaces.workspaceSwitch = m.workspaceSwitch ∧
    m.cleanUpWorkspaces.activeWorkspaceIdx =
      m.activeWorkspaceIdx -
        (cleanUpGo m.activeWorkspaceIdx (m.workspaces.length - 1) 0 m.workspaces).2 := by
  have hlen : 0 + m.workspaces.length = (m.workspaces.length - 1) + 1 := by
    have : m.workspaces.length ≠ 0 := by
      simpa [List.length_eq_zero] using hne
    omega
  have hsub := cleanUpGo_sublist m.activeWorkspaceIdx (m.workspaces.length - 1) 0 m.workspaces
  have hlast := cleanUpGo_getLast m.activeWorkspaceIdx (m.workspaces.length - 1) 0
    m.workspaces hne hlen
  have hactp := cleanUpGo_active m.activeWorkspaceIdx (m.workspaces.length - 1) 0
    m.workspaces (Nat.zero_le _) (by omega)
  have hkeep := cleanUpGo_keepable m.activeWorkspaceIdx (m.workspaces.length - 1) 0
    m.workspaces hlen
  simp only [Nat.sub_zero] at hactp
  refine ⟨hsub, hlast.1, hlast.2, hactp, ?_, ?_, rfl, rfl, rfl, rfl⟩
  · have h1 : m.cleanUpWorkspaces.workspaces[m.cleanUpWorkspaces.activeWorkspaceIdx]? =
        some (m.workspaces[m.activeWorkspaceIdx]) := by
      have h2 : m.cleanUpWorkspaces.workspaces[m.cleanUpWorkspaces.activeWorkspaceIdx]? =
          m.workspaces[m.activeWorkspaceIdx]? := hactp
      rw [h2]
      exact List.getElem?_eq_getElem hact
    exact (List.getElem?_eq_some.mp h1).1
  · intro j hj hja ws hws
    rcases hkeep j ws hws with h | ⟨_, h⟩ | h
    · exact h
    · exact absurd h hja
    · exfalso
      have hlen2 : m.cleanUpWorkspaces.workspaces.length =
          (cleanUpGo m.activeWorkspaceIdx (m.workspaces.length - 1) 0 m.workspaces).1.length :=
        rfl
      omega

/-- Cleaning an orphan-free monitor is the identity. -/
theorem cleanUpWorkspaces_id (m : Monitor)
    (h : ∀ j < m.workspaces.length - 1, j ≠ m.activeWorkspaceIdx →
      ∀ ws ∈ m.workspaces[j]?, ws.keepable = true) :
    m.cleanUpWorkspaces = m := by
  have hgo : cleanUpGo m.activeWorkspaceIdx (m.workspaces.length - 1) 0 m.workspaces =
      (m.workspaces, 0) := by
    refine cleanUpGo_id _ _ _ _ fun j ws hws h1 h2 => ?_
    have hj : j < m.workspaces.length := (List.getElem?_eq_some.mp hws).1
    exact h j (by omega) (by omega) ws hws
  simp only [Monitor.cleanUpWorkspaces, hgo]
  rfl

/-! ## The collection loop of `Layout::add_output` (`addOutputGo`) -/

theorem getElem?_append_middle {α : Type _} (xs : List α) (y : α) (ys : List α) :
    (xs ++ y :: ys)[xs.length]? = some y := by
  induction xs with
  | nil => simp
  | cons a l ih => simpa using ih

theorem eraseIdx_append_middle {α : Type _} (xs : List α) (y : α) (ys : List α) :
    (xs ++ y :: ys).eraseIdx xs.length = xs ++ ys := by
  induction xs with
  | nil => rfl
  | cons a l ih => simpa [List.eraseIdx] using ih

/-- What the loop of `Layout::add_output` computes, in closed form: the
matching workspaces are removed, those of them with windows or a name are
collected (in reverse push order), the active index is pulled back by the
number of removals at or before it, and the switch is stopped exactly when
something was removed. -/
theorem addOutputGo_spec (oname : Nat) (xs ys : List Workspace) (s : CollectState)
    (h : s.wss = xs ++ ys) :
    addOutputGo oname xs.length s =
      { wss := xs.filter (fun w => !decide (w.originalOutput = oname)) ++ ys
        activeIdx := s.activeIdx -
          ((xs.take (s.activeIdx + 1)).filter fun w =>
            decide (w.originalOutput = oname)).length
        collected := s.collected ++
          (xs.filter fun w =>
            decide (w.originalOutput = oname) && (w.hasWindows || w.name.isSome)).reverse
        switch :=
          if xs.any (fun w => decide (w.originalOutput = oname)) then none else s.switch
        stopped := s.stopped ||
          (s.switch.isSome && xs.any fun w => decide (w.originalOutput = oname)) } := by
  induction xs using List.reverseRecOn generalizing ys s with
  | nil =>
      cases s with
      | mk wss activeIdx collected switch stopped =>
          simp only [List.length_nil, addOutputGo, List.filter_nil, List.nil_append,
            List.take_nil, List.length_nil, Nat.sub_zero, List.reverse_nil,
            List.append_nil, List.any_nil, if_neg (by simp : ¬False), Bool.and_false,
            Bool.or_false] at h ⊢
          simp [h]
  | append_singleton zs x ih =>
      have hlen : (zs ++ [x]).length = zs.length + 1 := by simp
      rw [hlen]
      have hwss : s.wss = zs ++ x :: ys := by
        rw [h, List.append_assoc, List.singleton_append]
      have hstep : addOutputGo oname (zs.length + 1) s =
          addOutputGo oname zs.length (addOutputStep oname s zs.length) := rfl
      rw [hstep]
      by_cases hm : x.originalOutput = oname
      · have hstepv : addOutputStep oname s zs.length =
            { wss := zs ++ ys
              activeIdx := if zs.length ≤ s.activeIdx then s.activeIdx - 1 else s.activeIdx
              collected :=
                if x.hasWindows || x.name.isSome then s.collected ++ [x] else s.collected
              switch := none
              stopped := s.stopped || s.switch.isSome } := by
          simp only [addOutputStep, hwss, getElem?_append_middle]
          rw [if_pos hm, eraseIdx_append_middle]
        rw [hstepv, ih _ _ rfl]
        simp only [CollectState.mk.injEq]
        refine ⟨?_, ?_, ?_, ?_, ?_⟩
        · rw [List.filter_append]
          simp [hm]
        · by_cases hle : zs.length ≤ s.activeIdx
          · rw [if_pos hle]
            have h1 : (zs.take (s.activeIdx - 1 + 1)) = zs :=
              List.take_of_length_le (by omega)
            have h2 : ((zs ++ [x]).take (s.activeIdx + 1)) = zs ++ [x] :=
              List.take_of_length_le (by simp; omega)
            rw [h1, h2, List.filter_append]
            simp only [List.length_append, List.filter_cons, List.filter_nil]
            rw [if_pos (by simpa using hm)]
            simp only [List.length_append, List.length_cons, List.length_nil]
            omega
          · rw [if_neg hle]
            have h2 : ((zs ++ [x]).take (s.activeIdx + 1)) = zs.take (s.activeIdx + 1) := by
              rw [List.take_append_eq_append_take]
              have : s.activeIdx + 1 - zs.length = 0 := by omega
              simp [this]
            rw [h2]
        · by_cases hk : (x.hasWindows || x.name.isSome) = true
          · rw [if_pos hk, List.filter_append, List.filter_cons]
            rw [if_pos (by simp [hm, hk])]
            simp [List.reverse_append]
          · rw [if_neg hk, List.filter_append, List.filter_cons]
            rw [if_neg (by simp [hm]; simpa using hk)]
            simp
        · have : (zs ++ [x]).any (fun w => decide (w.originalOutput = oname)) = true := by
            simp [hm]
          rw [this]
          simp [ite_self]
        · have : (zs ++ [x]).any (fun w => decide (w.originalOutput = oname)) = true := by
            simp [hm]
          rw [this]
          simp [Bool.or_assoc]
      · have hstepv : addOutputStep oname s zs.length = s := by
          simp only [addOutputStep, hwss, getElem?_append_middle]
          rw [if_neg hm]
        rw [hstepv, ih _ _ hwss]
        simp only [CollectState.mk.injEq]
        have hfx : ∀ j : Nat,
            (List.take j [x]).filter (fun w => decide (w.originalOutput = oname)) = [] := by
          intro j
          cases j with
          | zero => rfl
          | succ j' => simp [hm]
        refine ⟨?_, ?_, ?_, ?_, ?_⟩
        · rw [List.filter_append]
          simp [hm]
        · rw [List.take_append_eq_append_take, List.filter_append, hfx]
          simp
        · rw [List.filter_append, List.filter_cons]
          rw [if_neg (by simp [hm])]
          simp
        · rw [List.any_append]
          simp [hm]
        · rw [List.any_append]
          simp [hm]

/-! ## Shape-preserving workspace transformations -/

/-- Two workspaces agree on everything the invariants inspect (only the
arrangement inside columns may differ). -/
def WsShapeEq (a b : Workspace) : Prop :=
  a.id = b.id ∧ a.name = b.name ∧ a.originalOutput = b.originalOutput ∧
  a.curOutput = b.curOutput ∧ a.scale = b.scale ∧ a.baseOptions = b.baseOptions ∧
  a.options = b.options ∧ a.hasWindows = b.hasWindows ∧
  ∀ w, a.hasWindow w = b.hasWindow w

theorem WsShapeEq.keepable {a b : Workspace} (h : WsShapeEq a b) :
    a.keepable = b.keepable := by
  obtain ⟨_, h2, _, _, _, _, _, h8, _⟩ := h
  simp [Workspace.keepable, h2, h8]

theorem listModify_cons_succ {α : Type _} (a : α) (rest : List α) (i : Nat) (g : α → α) :
    listModify (a :: rest) (i + 1) g = a :: listModify rest i g := by
  unfold listModify
  cases hx : rest[i]? with
  | none => simp [hx]
  | some x => simp [hx, List.set]

theorem listModify_any {α : Type _} (l : List α) (i : Nat) (g : α → α) (p : α → Bool)
    (hg : ∀ x, p (g x) = p x) : (listModify l i g).any p = l.any p := by
  induction l generalizing i with
  | nil => rfl
  | cons a rest ih =>
      cases i with
      | zero => simp [listModify, List.set, hg]
      | succ i' => rw [listModify_cons_succ]; simp [List.any_cons, ih]

theorem listModify_length {α : Type _} (l : List α) (i : Nat) (g : α → α) :
    (listModify l i g).length = l.length := by
  unfold listModify
  cases hx : l[i]? with
  | none => rfl
  | some x => simp

theorem setFullscreenWin_shape (ws : Workspace) (wid : Nat) (b : Bool) :
    WsShapeEq (ws.setFullscreenWin wid b) ws := by
  refine ⟨rfl, rfl, rfl, rfl, rfl, rfl, rfl, ?_, ?_⟩
  · simp only [Workspace.hasWindows, Workspace.setFullscreenWin]
    cases ws.columns <;> rfl
  · intro w
    simp only [Workspace.hasWindow, Workspace.setFullscreenWin, List.any_map]
    congr 1
    funext c
    simp only [Function.comp_apply]
    split <;> rfl

theorem wsShapeEq_refl (ws : Workspace) : WsShapeEq ws ws :=
  ⟨rfl, rfl, rfl, rfl, rfl, rfl, rfl, rfl, fun _ => rfl⟩

theorem toggleFullscreenWin_shape (ws : Workspace) (wid : Nat) :
    WsShapeEq (ws.toggleFullscreenWin wid) ws := by
  refine ⟨rfl, rfl, rfl, rfl, rfl, rfl, rfl, ?_, ?_⟩
  · simp only [Workspace.hasWindows, Workspace.toggleFullscreenWin]
    cases ws.columns <;> rfl
  · intro w
    simp only [Workspace.hasWindow, Workspace.toggleFullscreenWin, List.any_map]
    congr 1
    funext c
    simp only [Function.comp_apply]
    split <;> rfl

theorem activateWindowIn_shape (ws : Workspace) (wid : Nat) :
    WsShapeEq (ws.activateWindowIn wid) ws := by
  unfold Workspace.activateWindowIn
  cases ws.columns.findIdx? (fun c => c.tiles.any fun t => t.wid == wid) with
  | none => exact wsShapeEq_refl ws
  | some colIdx =>
      refine ⟨rfl, rfl, rfl, rfl, rfl, rfl, rfl, ?_, ?_⟩
      · simp only [Workspace.hasWindows]
        cases ws.columns <;> rfl
      · intro w
        simp only [Workspace.hasWindow, List.any_map]
        congr 1
        funext c
        simp only [Function.comp_apply]
        split <;> rfl

theorem listModify_isEmpty {α : Type _} (l : List α) (i : Nat) (g : α → α) :
    (listModify l i g).isEmpty = l.isEmpty := by
  unfold listModify
  cases hx : l[i]? with
  | none => rfl
  | some x =>
      have : i < l.length := (List.getElem?_eq_some.mp hx).1
      cases l with
      | nil => simp at this
      | cons a rest => cases i <;> rfl

theorem updateTileFirst_shape (ws : Workspace) (wid : Nat) (f : Tile → Tile)
    (hf : ∀ t, (f t).wid = t.wid) : WsShapeEq (ws.updateTileFirst wid f) ws := by
  unfold Workspace.updateTileFirst
  cases ws.columns.findIdx? (fun c => c.tiles.any fun t => t.wid == wid) with
  | none => exact wsShapeEq_refl ws
  | some colIdx =>
      refine ⟨rfl, rfl, rfl, rfl, rfl, rfl, rfl, ?_, ?_⟩
      · simp only [Workspace.hasWindows]
        rw [listModify_isEmpty]
      · intro w
        simp only [Workspace.hasWindow]
        refine listModify_any _ _ _ _ fun c => ?_
        refine listModify_any _ _ _ _ fun t => ?_
        simp [hf t]

theorem updateFirstWsWith_length (wid : Nat) (f : Workspace → Workspace)
    (l : List Workspace) : (updateFirstWsWith wid f l).length = l.length := by
  induction l with
  | nil => rfl
  | cons ws rest ih =>
      simp only [updateFirstWsWith]
      split <;> simp [ih]

theorem updateFirstWsWith_getElem (wid : Nat) (f : Workspace → Workspace)
    (l : List Workspace) (j : Nat) :
    (updateFirstWsWith wid f l)[j]? = l[j]? ∨
      ∃ ws, l[j]? = some ws ∧ (updateFirstWsWith wid f l)[j]? = some (f ws) := by
  induction l generalizing j with
  | nil => left; rfl
  | cons ws rest ih =>
      simp only [updateFirstWsWith]
      split
      · cases j with
        | zero => right; exact ⟨ws, by simp, by simp⟩
        | succ j' => left; simp
      · cases j with
        | zero => left; simp
        | succ j' => simpa using ih j'

theorem updateFirstWsWith_any (wid : Nat) (f : Workspace → Workspace)
    (l : List Workspace) (p : Workspace → Bool) (hp : ∀ ws, p (f ws) = p ws) :
    (updateFirstWsWith wid f l).any p = l.any p := by
  induction l with
  | nil => rfl
  | cons ws rest ih =>
      simp only [updateFirstWsWith]
      split <;> simp [hp, ih]

theorem updateFirstMonWith_length (wid : Nat) (f : Workspace → Workspace)
    (l : List Monitor) : (updateFirstMonWith wid f l).length = l.length := by
  induction l with
  | nil => rfl
  | cons mon rest ih =>
      simp only [updateFirstMonWith]
      split <;> simp [ih]

theorem updateFirstMonWith_getElem (wid : Nat) (f : Workspace → Workspace)
    (l : List Monitor) (j : Nat) :
    (updateFirstMonWith wid f l)[j]? = l[j]? ∨
      ∃ m, l[j]? = some m ∧ (updateFirstMonWith wid f l)[j]? =
        some { m with workspaces := updateFirstWsWith wid f m.workspaces } := by
  induction l generalizing j with
  | nil => left; rfl
  | cons mon rest ih =>
      simp only [updateFirstMonWith]
      split
      · cases j with
        | zero => right; exact ⟨mon, by simp, by simp⟩
        | succ j' => left; simp
      · cases j with
        | zero => left; simp
        | succ j' => simpa using ih j'

theorem updateFirstWsWith_forall (wid : Nat) (f : Workspace → Workspace)
    (l : List Workspace) (P : Workspace → Prop)
    (hP : ∀ a b, WsShapeEq a b → P b → P a)
    (hf : ∀ ws, WsShapeEq (f ws) ws)
    (h : ∀ ws ∈ l, P ws) : ∀ ws ∈ updateFirstWsWith wid f l, P ws := by
  induction l with
  | nil => simp [updateFirstWsWith]
  | cons ws rest ih =>
      simp only [updateFirstWsWith]
      split
      · intro w hw
        rcases List.mem_cons.mp hw with h1 | h1
        · subst h1
          exact hP _ _ (hf ws) (h ws (by simp))
        · exact h w (by simp [h1])
      · intro w hw
        rcases List.mem_cons.mp hw with h1 | h1
        · subst h1; exact h w (by simp)
        · exact ih (fun a ha => h a (by simp [ha])) w h1

/-- Columns emptiness transfers along shape equality. -/
theorem WsShapeEq.columns_nil {a b : Workspace} (h : WsShapeEq a b)
    (hb : b.columns = []) : a.columns = [] := by
  obtain ⟨_, _, _, _, _, _, _, h8, _⟩ := h
  have : b.hasWindows = false := by simp [Workspace.hasWindows, hb]
  have ha : a.hasWindows = false := by rw [h8, this]
  simpa [Workspace.hasWindows, List.isEmpty_iff] using ha

/-- A shape-preserving pass over the first matching workspace keeps the
per-monitor invariant. -/
theorem monitor_invariant_shape (m : Monitor) (opts : Opts) (wid : Nat)
    (f : Workspace → Workspace) (hf : ∀ ws, WsShapeEq (f ws) ws)
    (h : m.invariant opts) :
    ({ m with workspaces := updateFirstWsWith wid f m.workspaces } : Monitor).invariant
      opts := by
  obtain ⟨h1, h2, h3, h4, h5, h6⟩ := h
  have hlen := updateFirstWsWith_length wid f m.workspaces
  refine ⟨?_, ?_, ?_, ?_, h5, ?_⟩
  · intro hnil
    rw [← List.length_eq_zero] at hnil
    rw [hlen] at hnil
    exact h1 (List.length_eq_zero.mp hnil)
  · simpa [hlen] using h2
  · intro last hlast
    rw [List.getLast?_eq_getElem?] at hlast
    simp only [hlen] at hlast
    rcases updateFirstWsWith_getElem wid f m.workspaces (m.workspaces.length - 1) with
      hsame | ⟨ws, hws, hws'⟩
    · rw [hsame] at hlast
      exact h3 last (by rw [List.getLast?_eq_getElem?]; exact hlast)
    · rw [hws'] at hlast
      simp only [Option.mem_def, Option.some.injEq] at hlast
      subst hlast
      obtain ⟨o1, o2, o3⟩ := h3 ws (by rw [List.getLast?_eq_getElem?]; exact hws)
      exact ⟨(hf ws).columns_nil o1, by rw [(hf ws).2.1]; exact o2,
        by rw [(hf ws).2.2.1]; exact o3⟩
  · intro hsw j hj hja ws hws
    simp only [hlen] at hj
    rcases updateFirstWsWith_getElem wid f m.workspaces j with hsame | ⟨w0, hw0, hw0'⟩
    · rw [hsame] at hws
      exact h4 hsw j hj hja ws hws
    · rw [hw0'] at hws
      simp only [Option.mem_def, Option.some.injEq] at hws
      subst hws
      rw [(hf w0).keepable]
      exact h4 hsw j hj hja w0 hw0
  · refine updateFirstWsWith_forall wid f m.workspaces _ ?_ hf h6
    intro x y hxy hy
    simpa only [hxy.2.2.2.2.1, hxy.2.2.2.2.2.1, hxy.2.2.2.2.2.2.1] using hy

theorem updateFirstMonWith_map_output (wid : Nat) (f : Workspace → Workspace)
    (l : List Monitor) :
    (updateFirstMonWith wid f l).map (fun m => m.output.name) =
      l.map fun m => m.output.name := by
  induction l with
  | nil => rfl
  | cons mon rest ih =>
      simp only [updateFirstMonWith]
      split <;> simp [ih]

theorem updateFirstMonWith_hasWindow (wid w : Nat) (f : Workspace → Workspace)
    (hf : ∀ ws, WsShapeEq (f ws) ws) (l : List Monitor) :
    ((updateFirstMonWith wid f l).any fun m =>
      m.workspaces.any fun ws => ws.hasWindow w) =
      l.any fun m => m.workspaces.any fun ws => ws.hasWindow w := by
  induction l with
  | nil => rfl
  | cons mon rest ih =>
      simp only [updateFirstMonWith]
      split
      · simp only [List.any_cons]
        rw [updateFirstWsWith_any wid f _ _ fun ws => (hf ws).2.2.2.2.2.2.2.2 w]
      · simp [List.any_cons, ih]

/-- A shape-preserving pass over the first workspace containing a window
keeps the full layout invariant. -/
theorem inv_applyToWindowWs (L : Layout) (wid : Nat) (f : Workspace → Workspace)
    (hf : ∀ ws, WsShapeEq (f ws) ws) (h : L.Inv) : (L.applyToWindowWs wid f).Inv := by
  obtain ⟨hcore, him⟩ := h
  unfold Layout.applyToWindowWs
  cases hms : L.monitorSet with
  | normal monitors p a =>
      rw [hms] at hcore him
      obtain ⟨c1, c2, c3, c4, c5, c6, c7⟩ := hcore
      have hlen := updateFirstMonWith_length wid f monitors
      constructor
      · refine ⟨?_, by simpa [hlen] using c2, by simpa [hlen] using c3, ?_, ?_, ?_, ?_⟩
        · intro hnil
          rw [← List.length_eq_zero, hlen, List.length_eq_zero] at hnil
          exact c1 hnil
        · rw [updateFirstMonWith_map_output]
          exact c4
        · intro m hm
          obtain ⟨j, hj⟩ := List.mem_iff_getElem?.mp hm
          rcases updateFirstMonWith_getElem wid f monitors j with hsame | ⟨m0, hm0, hm0'⟩
          · rw [hsame] at hj
            exact c5 m ((List.mem_iff_getElem?).mpr ⟨j, hj⟩)
          · rw [hm0'] at hj
            injection hj with hj
            subst hj
            exact monitor_invariant_shape m0 L.options wid f hf
              (c5 m0 ((List.mem_iff_getElem?).mpr ⟨j, hm0⟩))
        · intro i hi hip m hm ws hws
          simp only [hlen] at hi
          rcases updateFirstMonWith_getElem wid f monitors i with hsame | ⟨m0, hm0, hm0'⟩
          · rw [hsame] at hm
            exact c6 i hi hip m hm ws hws
          · rw [hm0'] at hm
            simp only [Option.mem_def, Option.some.injEq] at hm
            subst hm
            exact updateFirstWsWith_forall wid f m0.workspaces
              (fun ws => ws.originalOutput = m0.output.name)
              (fun x y hxy hy => by simpa only [hxy.2.2.1] using hy) hf
              (fun w hw => c6 i hi hip m0 hm0 w hw) ws hws
        · intro pm hpm ws hws hne m hm
          have hmm : m.output.name ∈ monitors.map fun mm => mm.output.name := by
            rw [← updateFirstMonWith_map_output wid f monitors]
            exact List.mem_map_of_mem _ hm
          rcases List.mem_map.mp hmm with ⟨m1, hm1, hm1e⟩
          rw [← hm1e]
          rcases updateFirstMonWith_getElem wid f monitors p with hsame | ⟨m0, hm0, hm0'⟩
          · rw [hsame] at hpm
            exact c7 pm hpm ws hws hne m1 hm1
          · rw [hm0'] at hpm
            simp only [Option.mem_def, Option.some.injEq] at hpm
            subst hpm
            simp only at hws hne
            exact updateFirstWsWith_forall wid f m0.workspaces
              (fun w => w.originalOutput ≠ m0.output.name →
                ∀ mm ∈ monitors, w.originalOutput ≠ mm.output.name)
              (fun x y hxy hy => by simpa only [hxy.2.2.1] using hy) hf
              (fun w hw => c7 m0 hm0 w hw) ws hws hne m1 hm1
      · dsimp only
        cases him' : L.interactiveMove with
        | none => trivial
        | some st =>
            cases st with
            | starting w pd pr =>
                rw [him'] at him
                simp only [imOkCore] at him ⊢
                simp only [MonitorSet.hasWindowMS] at him ⊢
                rw [updateFirstMonWith_hasWindow wid w f hf]
                exact him
            | moving mv => trivial
  | noOutputs wss =>
      rw [hms] at hcore him
      constructor
      · refine updateFirstWsWith_forall wid f wss _ ?_ hf hcore
        intro x y hxy hy
        simpa only [WsShapeEq.keepable hxy, hxy.2.2.2.2.1, hxy.2.2.2.2.2.1,
          hxy.2.2.2.2.2.2.1] using hy
      · cases him' : L.interactiveMove with
        | none => trivial
        | some st =>
            cases st with
            | starting w pd pr =>
                rw [him'] at him
                simp only [imOkCore] at him ⊢
                simp only [MonitorSet.hasWindowMS] at him ⊢
                rw [updateFirstWsWith_any wid f _ _ fun ws => (hf ws).2.2.2.2.2.2.2.2 w]
                exact him
            | moving mv => trivial

/-! ## Projections of the inductive invariant onto the claimed properties -/

theorem inv_origin (L : Layout) (h : L.Inv) : L.OriginInvariant := by
  obtain ⟨hcore, -⟩ := h
  unfold Layout.OriginInvariant
  cases hms : L.monitorSet with
  | normal monitors p a =>
      rw [hms] at hcore
      exact ⟨hcore.2.2.2.2.2.1, hcore.2.2.2.2.2.2⟩
  | noOutputs wss => trivial

theorem inv_cleanup (L : Layout) (h : L.Inv) : L.CleanupInvariant := by
  obtain ⟨hcore, -⟩ := h
  unfold Layout.CleanupInvariant
  cases hms : L.monitorSet with
  | normal monitors p a =>
      rw [hms] at hcore
      intro m hm
      have hmi := hcore.2.2.2.2.1 m hm
      exact ⟨hmi.2.2.2.1, fun last hl => ⟨(hmi.2.2.1 last hl).1, (hmi.2.2.1 last hl).2.1⟩⟩
  | noOutputs wss => trivial

theorem inv_options (L : Layout) (h : L.Inv) : L.OptionsInvariant := by
  obtain ⟨hcore, -⟩ := h
  unfold Layout.OptionsInvariant
  cases hms : L.monitorSet with
  | normal monitors p a =>
      rw [hms] at hcore
      intro m hm
      have hmi := hcore.2.2.2.2.1 m hm
      exact ⟨hmi.2.2.2.2.1, hmi.2.2.2.2.2⟩
  | noOutputs wss =>
      rw [hms] at hcore
      exact fun ws hws => ⟨(hcore ws hws).2.1, (hcore ws hws).2.2⟩

/-! ## `findIdx?` helpers -/

theorem findIdx?_go_spec {α : Type _} {p : α → Bool} :
    ∀ {l : List α} {i s : Nat}, List.findIdx? p l s = some i →
      s ≤ i ∧ i - s < l.length ∧ ∃ x, l[i - s]? = some x ∧ p x = true := by
  intro l
  induction l with
  | nil => intro i s h; simp [List.findIdx?] at h
  | cons a rest ih =>
      intro i s h
      rw [List.findIdx?_cons] at h
      by_cases hp : p a = true
      · rw [if_pos hp] at h
        injection h with h
        subst h
        exact ⟨le_refl s, by simp, a, by simp, hp⟩
      · rw [if_neg hp] at h
        obtain ⟨h1, h2, x, h3, h4⟩ := ih h
        refine ⟨by omega, by simp only [List.length_cons]; omega, x, ?_, h4⟩
        rw [show i - s = (i - (s + 1)) + 1 from by omega, List.getElem?_cons_succ]
        exact h3

theorem findIdx?_spec {α : Type _} {p : α → Bool} {l : List α} {i : Nat}
    (h : l.findIdx? p = some i) :
    i < l.length ∧ ∃ x, l[i]? = some x ∧ p x = true := by
  obtain ⟨h1, h2, x, h3, h4⟩ := findIdx?_go_spec h
  simp only [Nat.sub_zero] at h2 h3
  exact ⟨h2, x, h3, h4⟩

/-! ## Per-command invariant preservation: the easy commands -/

theorem inv_setFullscreen (L : Layout) (wid : Nat) (b : Bool) (h : L.Inv) :
    (L.setFullscreen wid b).Inv := by
  have happ := inv_applyToWindowWs L wid (fun ws => ws.setFullscreenWin wid b)
    (fun ws => setFullscreenWin_shape ws wid b) h
  unfold Layout.setFullscreen
  split
  all_goals dsimp only
  all_goals split
  all_goals first | exact h | exact happ

theorem inv_toggleFullscreen (L : Layout) (wid : Nat) (h : L.Inv) :
    (L.toggleFullscreen wid).Inv := by
  have happ := inv_applyToWindowWs L wid (fun ws => ws.toggleFullscreenWin wid)
    (fun ws => toggleFullscreenWin_shape ws wid) h
  unfold Layout.toggleFullscreen
  split
  all_goals dsimp only
  all_goals split
  all_goals first | exact h | exact happ

theorem inv_focusOutput (L : Layout) (oname : Nat) (h : L.Inv) :
    (L.focusOutput oname).Inv := by
  obtain ⟨hcore, him⟩ := h
  unfold Layout.focusOutput
  cases hms : L.monitorSet with
  | noOutputs wss =>
      dsimp only
      rw [hms] at hcore him
      exact ⟨by rw [hms]; exact hcore, by rw [hms]; exact him⟩
  | normal monitors p a =>
      dsimp only
      rw [hms] at hcore him
      cases hfi : monitors.findIdx? (fun mon => mon.output.name == oname) with
      | none =>
          exact ⟨hcore, him⟩
      | some idx =>
          obtain ⟨c1, c2, c3, c4, c5, c6, c7⟩ := hcore
          exact ⟨⟨c1, c2, (findIdx?_spec hfi).1, c4, c5, c6, c7⟩, him⟩

/-! ## `update_config` preservation -/

theorem updateConfigW_hasWindow (ws : Workspace) (opts : Opts) (w : Nat) :
    (ws.updateConfig opts).hasWindow w = ws.hasWindow w := by
  simp only [Workspace.hasWindow, Workspace.updateConfig, List.any_map]
  congr 1
  funext c
  simp only [Function.comp_apply, List.any_map]
  congr 1

theorem updateConfigW_hasWindows (ws : Workspace) (opts : Opts) :
    (ws.updateConfig opts).hasWindows = ws.hasWindows := by
  simp only [Workspace.hasWindows, Workspace.updateConfig]
  cases ws.columns <;> rfl

theorem any_congr' {α : Type _} {l : List α} {f g : α → Bool}
    (h : ∀ x ∈ l, f x = g x) : l.any f = l.any g := by
  induction l with
  | nil => rfl
  | cons a rest ih =>
      simp only [List.any_cons]
      rw [h a (by simp), ih fun x hx => h x (by simp [hx])]

theorem updateConfigW_keepable (ws : Workspace) (opts : Opts) :
    (ws.updateConfig opts).keepable = ws.keepable := by
  unfold Workspace.keepable
  rw [updateConfigW_hasWindows]
  rfl

theorem inv_updateConfig (L : Layout) (opts : Opts) (h : L.Inv) :
    (L.updateConfig opts).Inv := by
  obtain ⟨hcore, him⟩ := h
  -- The interactive-move rebinding leaves monitor set, options and the
  -- move-state *kind* unchanged.
  have hstep : ∀ L' : Layout, L'.monitorSet = L.monitorSet →
      (∀ wid pd pr, L'.interactiveMove = some (.starting wid pd pr) →
        L.interactiveMove = some (.starting wid pd pr)) →
      ((match L'.monitorSet with
        | .normal monitors p a =>
            { L' with
              monitorSet := .normal (monitors.map fun m => m.updateConfigM opts) p a
              options := opts }
        | .noOutputs wss =>
            { L' with
              monitorSet := .noOutputs (wss.map fun ws => ws.updateConfig opts)
              options := opts }) : Layout).Inv := by
    intro L' hms hst
    cases hm2 : L'.monitorSet with
    | normal monitors p a =>
        dsimp only
        rw [hms] at hm2
        rw [hm2] at hcore
        obtain ⟨c1, c2, c3, c4, c5, c6, c7⟩ := hcore
        constructor
        · refine ⟨by simpa using c1, by simpa using c2, by simpa using c3, ?_, ?_, ?_, ?_⟩
          · simpa [Monitor.updateConfigM, Function.comp] using c4
          · intro m' hm'
            rcases List.mem_map.mp hm' with ⟨m, hm, he⟩
            subst he
            obtain ⟨i1, i2, i3, i4, i5, i6⟩ := c5 m hm
            refine ⟨?_, by simpa [Monitor.updateConfigM] using i2, ?_, ?_, rfl, ?_⟩
            · simp only [Monitor.updateConfigM]
              intro hx
              exact i1 (List.map_eq_nil_iff.mp hx)
            · intro last hl
              simp only [Monitor.updateConfigM, List.getLast?_map] at hl
              simp only [Option.mem_def, Option.map_eq_some'] at hl
              obtain ⟨l0, hl0, he⟩ := hl
              subst he
              obtain ⟨o1, o2, o3⟩ := i3 l0 hl0
              refine ⟨?_, ?_, ?_⟩
              · simp [Workspace.updateConfig, o1]
              · simp [Workspace.updateConfig, o2]
              · simpa [Workspace.updateConfig] using o3
            · intro hsw j hj hja ws hws
              simp only [Monitor.updateConfigM] at hsw hj hja hws
              simp only [List.length_map] at hj
              simp only [List.getElem?_map] at hws
              simp only [Option.mem_def, Option.map_eq_some'] at hws
              obtain ⟨w0, hw0, he⟩ := hws
              subst he
              rw [updateConfigW_keepable]
              exact i4 hsw j hj hja w0 hw0
            · intro ws hws
              simp only [Monitor.updateConfigM] at hws
              rcases List.mem_map.mp hws with ⟨w0, hw0, he⟩
              subst he
              exact ⟨rfl, rfl⟩
          · intro i hi hip m hm ws hws
            simp only [List.length_map] at hi
            simp only [List.getElem?_map, Option.mem_def, Option.map_eq_some'] at hm
            obtain ⟨m0, hm0, he⟩ := hm
            subst he
            simp only [Monitor.updateConfigM] at hws ⊢
            rcases List.mem_map.mp hws with ⟨w0, hw0, he⟩
            subst he
            simpa [Workspace.updateConfig] using c6 i hi hip m0 hm0 w0 hw0
          · intro pm hpm ws hws hne m hm
            simp only [List.getElem?_map, Option.mem_def, Option.map_eq_some'] at hpm
            obtain ⟨p0, hp0, he⟩ := hpm
            subst he
            simp only [Monitor.updateConfigM] at hws hne
            rcases List.mem_map.mp hws with ⟨w0, hw0, he⟩
            subst he
            rcases List.mem_map.mp hm with ⟨m0, hm0, he⟩
            subst he
            simp only [Monitor.updateConfigM]
            simpa [Workspace.updateConfig] using c7 p0 hp0 w0 hw0
              (by simpa [Workspace.updateConfig] using hne) m0 hm0
        · cases hi2 : L'.interactiveMove with
          | none => simp only [imOkCore]
          | some st =>
              cases st with
              | moving mv => simp only [imOkCore]
              | starting wid pd pr =>
                  have hthis := hst wid pd pr hi2
                  rw [hthis] at him
                  rw [hm2] at him
                  simp only [imOkCore, MonitorSet.hasWindowMS] at him ⊢
                  rw [List.any_map]
                  refine (any_congr' fun m hm => ?_).trans him
                  simp only [Function.comp_apply, Monitor.updateConfigM, List.any_map]
                  refine any_congr' fun ws hws => ?_
                  simp only [Function.comp_apply]
                  exact updateConfigW_hasWindow ws opts wid
    | noOutputs wss =>
        dsimp only
        rw [hms] at hm2
        rw [hm2] at hcore
        constructor
        · intro ws hws
          rcases List.mem_map.mp hws with ⟨w0, hw0, he⟩
          subst he
          rw [updateConfigW_keepable]
          exact ⟨(hcore w0 hw0).1, rfl, rfl⟩
        · cases hi2 : L'.interactiveMove with
          | none => simp only [imOkCore]
          | some st =>
              cases st with
              | moving mv => simp only [imOkCore]
              | starting wid pd pr =>
                  have hthis := hst wid pd pr hi2
                  rw [hthis] at him
                  rw [hm2] at him
                  simp only [imOkCore, MonitorSet.hasWindowMS] at him ⊢
                  rw [List.any_map]
                  refine (any_congr' fun ws hws => ?_).trans him
                  simp only [Function.comp_apply]
                  exact updateConfigW_hasWindow ws opts wid
  unfold Layout.updateConfig
  cases hi : L.interactiveMove with
  | none => exact hstep L rfl (fun wid pd pr h' => h')
  | some st =>
      cases st with
      | starting wid pd pr =>
          exact hstep L rfl (fun wid pd pr h' => h')
      | moving mv =>
          dsimp only
          exact hstep
            { L with interactiveMove := some (.moving
                { mv with tile :=
                    { mv.tile with options := opts.adjustedForScale mv.output.scale } }) }
            rfl (fun wid pd pr h' => by simp at h')

/-! ## Pointwise replacement of one workspace (List.set) -/

/-- Replacing one workspace by a shape-equal one keeps the per-monitor
invariant. -/
theorem monitor_invariant_set (m : Monitor) (opts : Opts) (wsIdx : Nat) (ws' : Workspace)
    (hsh : ∀ ws0 ∈ m.workspaces[wsIdx]?, WsShapeEq ws' ws0)
    (h : m.invariant opts) :
    ({ m with workspaces := m.workspaces.set wsIdx ws' } : Monitor).invariant opts := by
  obtain ⟨h1, h2, h3, h4, h5, h6⟩ := h
  have hget : ∀ j : Nat, (m.workspaces.set wsIdx ws')[j]? = m.workspaces[j]? ∨
      ∃ ws0, m.workspaces[j]? = some ws0 ∧
        (m.workspaces.set wsIdx ws')[j]? = some ws' ∧ WsShapeEq ws' ws0 := by
    intro j
    rw [List.getElem?_set]
    by_cases hij : wsIdx = j
    · subst hij
      by_cases hlt : wsIdx < m.workspaces.length
      · rcases hw0 : m.workspaces[wsIdx]? with _ | ws0
        · exact absurd hw0 (by simp [List.getElem?_eq_getElem hlt])
        · right
          exact ⟨ws0, rfl, by simp [hlt], hsh ws0 (by simp [hw0])⟩
      · exact Or.inl (by
          rw [if_pos rfl, if_neg hlt]
          exact (List.getElem?_eq_none (by omega)).symm)
    · left; simp [hij]
  refine ⟨?_, by simpa using h2, ?_, ?_, h5, ?_⟩
  · intro hnil
    rw [← List.length_eq_zero, List.length_set, List.length_eq_zero] at hnil
    exact h1 hnil
  · intro last hl
    rw [List.getLast?_eq_getElem?] at hl
    simp only [List.length_set] at hl
    rcases hget (m.workspaces.length - 1) with hsame | ⟨ws0, hw0, hw0', hshp⟩
    · rw [hsame] at hl
      exact h3 last (by rw [List.getLast?_eq_getElem?]; exact hl)
    · rw [hw0'] at hl
      simp only [Option.mem_def, Option.some.injEq] at hl
      subst hl
      obtain ⟨o1, o2, o3⟩ := h3 ws0 (by rw [List.getLast?_eq_getElem?]; exact hw0)
      exact ⟨hshp.columns_nil o1, by rw [hshp.2.1]; exact o2, by rw [hshp.2.2.1]; exact o3⟩
  · intro hsw j hj hja ws hws
    simp only [List.length_set] at hj
    rcases hget j with hsame | ⟨ws0, hw0, hw0', hshp⟩
    · rw [hsame] at hws
      exact h4 hsw j hj hja ws hws
    · rw [hw0'] at hws
      simp only [Option.mem_def, Option.some.injEq] at hws
      subst hws
      rw [hshp.keepable]
      exact h4 hsw j hj hja ws0 hw0
  · intro ws hws
    obtain ⟨j, hj⟩ := List.mem_iff_getElem?.mp hws
    rcases hget j with hsame | ⟨ws0, hw0, hw0', hshp⟩
    · rw [hsame] at hj
      exact h6 ws (List.mem_iff_getElem?.mpr ⟨j, hj⟩)
    · rw [hw0'] at hj
      injection hj with hj
      subst hj
      obtain ⟨hb, ho⟩ := h6 ws0 (List.mem_iff_getElem?.mpr ⟨j, hw0⟩)
      exact ⟨by rw [hshp.2.2.2.2.2.1]; exact hb,
        by rw [hshp.2.2.2.2.2.2.1, hshp.2.2.2.2.1]; exact ho⟩

/-! ## `switch_workspace` and `activate_window` -/

theorem switchWorkspace_workspaces (m : Monitor) (idx : Nat) :
    (m.switchWorkspace idx).workspaces = m.workspaces := by
  unfold Monitor.switchWorkspace
  split <;> rfl

theorem switchWorkspace_output (m : Monitor) (idx : Nat) :
    (m.switchWorkspace idx).output = m.output := by
  unfold Monitor.switchWorkspace
  split <;> rfl

theorem switchWorkspace_options (m : Monitor) (idx : Nat) :
    (m.switchWorkspace idx).options = m.options := by
  unfold Monitor.switchWorkspace
  split <;> rfl

theorem switchWorkspace_invariant (m : Monitor) (opts : Opts) (idx : Nat)
    (h : m.invariant opts) : (m.switchWorkspace idx).invariant opts := by
  obtain ⟨h1, h2, h3, h4, h5, h6⟩ := h
  unfold Monitor.switchWorkspace
  split
  · exact ⟨h1, h2, h3, h4, h5, h6⟩
  · refine ⟨h1, ?_, h3, ?_, h5, h6⟩
    · have : m.workspaces.length ≠ 0 := by
        simpa [List.length_eq_zero] using h1
      simp only
      omega
    · intro hsw
      simp at hsw

/-- `activateWindowInMon` either leaves the monitor unchanged or focuses
the window's workspace (possibly starting a switch to it). -/
theorem activateWindowInMon_cases (m : Monitor) (wid : Nat) :
    m.activateWindowInMon wid = m ∨
    ∃ wsIdx ws, m.workspaces[wsIdx]? = some ws ∧
      (m.activateWindowInMon wid =
          { m with workspaces := m.workspaces.set wsIdx (ws.activateWindowIn wid) } ∨
        m.activateWindowInMon wid =
          ({ m with workspaces := m.workspaces.set wsIdx (ws.activateWindowIn wid) }
            : Monitor).switchWorkspace wsIdx) := by
  unfold Monitor.activateWindowInMon
  cases hfi : m.workspaces.findIdx? (fun ws => ws.hasWindow wid) with
  | none => left; rfl
  | some wsIdx =>
      dsimp only
      cases hw : m.workspaces[wsIdx]? with
      | none => left; rfl
      | some ws =>
          right
          refine ⟨wsIdx, ws, hw, ?_⟩
          dsimp only
          cases hsw : m.workspaceSwitch with
          | none => right; rfl
          | some sw =>
              cases sw with
              | animation x y => right; rfl
              | gesture cur =>
                  dsimp only
                  split
                  · left; rfl
                  · right; rfl

theorem activateWindowInMon_workspaces_pointwise (m : Monitor) (wid : Nat) :
    ∀ j : Nat, (m.activateWindowInMon wid).workspaces[j]? = m.workspaces[j]? ∨
      ∃ ws, m.workspaces[j]? = some ws ∧
        (m.activateWindowInMon wid).workspaces[j]? = some (ws.activateWindowIn wid) := by
  intro j
  rcases activateWindowInMon_cases m wid with he | ⟨wsIdx, ws, hw, he | he⟩
  · left; rw [he]
  all_goals
    rw [he]
  · rw [List.getElem?_set]
    by_cases hij : wsIdx = j
    · subst hij
      right
      exact ⟨ws, hw, by rw [if_pos rfl, if_pos (List.getElem?_eq_some.mp hw).1]⟩
    · left; rw [if_neg hij]
  · rw [switchWorkspace_workspaces]
    rw [List.getElem?_set]
    by_cases hij : wsIdx = j
    · subst hij
      right
      exact ⟨ws, hw, by rw [if_pos rfl, if_pos (List.getElem?_eq_some.mp hw).1]⟩
    · left; rw [if_neg hij]

theorem activateWindowInMon_output (m : Monitor) (wid : Nat) :
    (m.activateWindowInMon wid).output = m.output := by
  rcases activateWindowInMon_cases m wid with he | ⟨wsIdx, ws, hw, he | he⟩
  · rw [he]
  · rw [he]
  · rw [he, switchWorkspace_output]

theorem activateWindowInMon_invariant (m : Monitor) (opts : Opts) (wid : Nat)
    (h : m.invariant opts) : (m.activateWindowInMon wid).invariant opts := by
  rcases activateWindowInMon_cases m wid with he | ⟨wsIdx, ws, hw, he | he⟩
  · rw [he]; exact h
  all_goals
    have hbase := monitor_invariant_set m opts wsIdx (ws.activateWindowIn wid)
      (by
        intro ws0 hws0
        simp only [hw, Option.mem_def, Option.some.injEq] at hws0
        subst hws0
        exact activateWindowIn_shape ws wid) h
  · rw [he]; exact hbase
  · rw [he]; exact switchWorkspace_invariant _ opts wsIdx hbase

theorem any_set_shape {α : Type _} (l : List α) (i : Nat) (x' : α) (p : α → Bool)
    (hsh : ∀ x0 ∈ l[i]?, p x' = p x0) : (l.set i x').any p = l.any p := by
  induction l generalizing i with
  | nil => rfl
  | cons a rest ih =>
      cases i with
      | zero =>
          simp only [List.set]
          simp only [List.any_cons]
          rw [hsh a (by simp)]
      | succ i' =>
          simp only [List.set, List.any_cons]
          rw [ih i' fun x0 hx0 => hsh x0 (by simpa using hx0)]

theorem activateWindowInMon_hasWindow (m : Monitor) (wid w : Nat) :
    ((m.activateWindowInMon wid).workspaces.any fun ws => ws.hasWindow w) =
      m.workspaces.any fun ws => ws.hasWindow w := by
  rcases activateWindowInMon_cases m wid with he | ⟨wsIdx, ws, hw, he | he⟩
  · rw [he]
  · rw [he]
    exact any_set_shape _ _ _ _ fun ws0 hws0 => by
      simp only [hw, Option.mem_def, Option.some.injEq] at hws0
      subst hws0
      exact (activateWindowIn_shape ws wid).2.2.2.2.2.2.2.2 w
  · rw [he, switchWorkspace_workspaces]
    exact any_set_shape _ _ _ _ fun ws0 hws0 => by
      simp only [hw, Option.mem_def, Option.some.injEq] at hws0
      subst hws0
      exact (activateWindowIn_shape ws wid).2.2.2.2.2.2.2.2 w

theorem activateGo_length (wid base : Nat) (l : List Monitor) :
    (activateGo wid base l).1.length = l.length := by
  induction l generalizing base with
  | nil => rfl
  | cons mon rest ih =>
      simp only [activateGo]
      split <;> simp [ih]

theorem activateGo_getElem (wid base : Nat) (l : List Monitor) :
    ∀ j : Nat, (activateGo wid base l).1[j]? = l[j]? ∨
      ∃ m, l[j]? = some m ∧
        (activateGo wid base l).1[j]? = some (m.activateWindowInMon wid) := by
  induction l generalizing base with
  | nil => intro j; left; rfl
  | cons mon rest ih =>
      intro j
      simp only [activateGo]
      split
      · cases j with
        | zero => right; exact ⟨mon, by simp, by simp⟩
        | succ j' => simpa using ih (base + 1) j'
      · cases j with
        | zero => left; simp
        | succ j' => simpa using ih (base + 1) j'

theorem activateGo_found (wid base : Nat) (l : List Monitor) :
    ∀ k, (activateGo wid base l).2 = some k → base ≤ k ∧ k < base + l.length := by
  induction l generalizing base with
  | nil => intro k h; simp [activateGo] at h
  | cons mon rest ih =>
      intro k h
      simp only [activateGo] at h
      cases hrec : activateGo wid (base + 1) rest with
      | mk rest' found' =>
          rw [hrec] at h
          dsimp only at h
          split at h
          · dsimp only at h
            injection h with h
            cases hf : found' with
            | none =>
                rw [hf] at h
                simp only [Option.getD_none] at h
                simp only [List.length_cons]
                omega
            | some k' =>
                rw [hf] at h
                simp only [Option.getD_some] at h
                have hb := ih (base + 1) k' (by rw [hrec]; exact hf)
                simp only [List.length_cons]
                omega
          · have hb := ih (base + 1) k (by rw [hrec]; exact h)
            simp only [List.length_cons]
            omega

theorem activateGo_map_output (wid base : Nat) (l : List Monitor) :
    (activateGo wid base l).1.map (fun m => m.output.name) =
      l.map fun m => m.output.name := by
  induction l generalizing base with
  | nil => rfl
  | cons mon rest ih =>
      simp only [activateGo]
      split <;> simp [ih, activateWindowInMon_output]

theorem activateGo_hasWindow (wid base w : Nat) (l : List Monitor) :
    ((activateGo wid base l).1.any fun m => m.workspaces.any fun ws => ws.hasWindow w) =
      l.any fun m => m.workspaces.any fun ws => ws.hasWindow w := by
  induction l generalizing base with
  | nil => rfl
  | cons mon rest ih =>
      simp only [activateGo]
      split
      · simp only [List.any_cons, activateWindowInMon_hasWindow, ih]
      · simp only [List.any_cons, ih]

theorem inv_activateWindow (L : Layout) (wid : Nat) (h : L.Inv) :
    (L.activateWindow wid).Inv := by
  obtain ⟨hcore, him⟩ := h
  unfold Layout.activateWindow
  dsimp only
  split
  · exact ⟨hcore, him⟩
  · cases hms : L.monitorSet with
    | noOutputs wss =>
        dsimp only
        exact ⟨by rw [hms] at hcore; rw [hms]; exact hcore, by rw [hms] at him; rw [hms]; exact him⟩
    | normal monitors p a =>
        dsimp only
        rw [hms] at hcore him
        obtain ⟨c1, c2, c3, c4, c5, c6, c7⟩ := hcore
        cases hag : activateGo wid 0 monitors with
        | mk monitors' found =>
            dsimp only
            have hlen : monitors'.length = monitors.length := by
              rw [show monitors' = (activateGo wid 0 monitors).1 from by rw [hag]]
              exact activateGo_length wid 0 monitors
            have hpt : ∀ j : Nat, monitors'[j]? = monitors[j]? ∨
                ∃ m, monitors[j]? = some m ∧
                  monitors'[j]? = some (m.activateWindowInMon wid) := by
              intro j
              rw [show monitors' = (activateGo wid 0 monitors).1 from by rw [hag]]
              exact activateGo_getElem wid 0 monitors j
            constructor
            · refine ⟨?_, by omega, ?_, ?_, ?_, ?_, ?_⟩
              · intro hnil
                rw [← List.length_eq_zero, hlen, List.length_eq_zero] at hnil
                exact c1 hnil
              · cases hfo : found with
                | none => simpa [hlen] using c3
                | some k =>
                    have := activateGo_found wid 0 monitors k (by rw [hag, hfo])
                    simp only [Option.getD_some]
                    omega
              · rw [show monitors' = (activateGo wid 0 monitors).1 from by rw [hag]]
                rw [activateGo_map_output]
                exact c4
              · intro m hm
                obtain ⟨j, hj⟩ := List.mem_iff_getElem?.mp hm
                rcases hpt j with hsame | ⟨m0, hm0, hm0'⟩
                · rw [hsame] at hj
                  exact c5 m (List.mem_iff_getElem?.mpr ⟨j, hj⟩)
                · rw [hm0'] at hj
                  injection hj with hj
                  subst hj
                  exact activateWindowInMon_invariant m0 L.options wid
                    (c5 m0 (List.mem_iff_getElem?.mpr ⟨j, hm0⟩))
              · intro i hi hip m hm ws hws
                simp only [hlen] at hi
                rcases hpt i with hsame | ⟨m0, hm0, hm0'⟩
                · rw [hsame] at hm
                  exact c6 i hi hip m hm ws hws
                · rw [hm0'] at hm
                  simp only [Option.mem_def, Option.some.injEq] at hm
                  subst hm
                  obtain ⟨j, hj⟩ := List.mem_iff_getElem?.mp hws
                  rcases activateWindowInMon_workspaces_pointwise m0 wid j with
                    hsame2 | ⟨w0, hw0, hw0'⟩
                  · rw [hsame2] at hj
                    rw [activateWindowInMon_output]
                    exact c6 i hi hip m0 hm0 ws (List.mem_iff_getElem?.mpr ⟨j, hj⟩)
                  · rw [hw0'] at hj
                    injection hj with hj
                    subst hj
                    rw [activateWindowInMon_output]
                    have := c6 i hi hip m0 hm0 w0 (List.mem_iff_getElem?.mpr ⟨j, hw0⟩)
                    simpa [(activateWindowIn_shape w0 wid).2.2.1] using this
              · intro pm hpm ws hws hne m hm
                have hmm : m.output.name ∈ monitors.map fun mm => mm.output.name := by
                  rw [← activateGo_map_output wid 0 monitors]
                  rw [hag]
                  exact List.mem_map_of_mem _ hm
                rcases List.mem_map.mp hmm with ⟨m1, hm1, hm1e⟩
                rw [← hm1e]
                rcases hpt p with hsame | ⟨m0, hm0, hm0'⟩
                · rw [hsame] at hpm
                  exact c7 pm hpm ws hws hne m1 hm1
                · rw [hm0'] at hpm
                  simp only [Option.mem_def, Option.some.injEq] at hpm
                  subst hpm
                  obtain ⟨j, hj⟩ := List.mem_iff_getElem?.mp hws
                  rcases activateWindowInMon_workspaces_pointwise m0 wid j with
                    hsame2 | ⟨w0, hw0, hw0'⟩
                  · rw [hsame2] at hj
                    rw [activateWindowInMon_output] at hne
                    exact c7 m0 hm0 ws (List.mem_iff_getElem?.mpr ⟨j, hj⟩) hne m1 hm1
                  · rw [hw0'] at hj
                    injection hj with hj
                    subst hj
                    rw [activateWindowInMon_output] at hne
                    rw [(activateWindowIn_shape w0 wid).2.2.1] at hne ⊢
                    exact c7 m0 hm0 w0 (List.mem_iff_getElem?.mpr ⟨j, hw0⟩) hne m1 hm1
            · cases hi2 : L.interactiveMove with
              | none => simp only [imOkCore]
              | some st =>
                  cases st with
                  | moving mv => simp only [imOkCore]
                  | starting w pd pr =>
                      rw [hi2] at him
                      simp only [imOkCore, MonitorSet.hasWindowMS] at him ⊢
                      rw [show monitors' = (activateGo wid 0 monitors).1 from by rw [hag]]
                      rw [activateGo_hasWindow]
                      exact him

theorem set_self_of_getElem {α : Type _} (l : List α) (i : Nat) (x : α)
    (h : l[i]? = some x) : l.set i x = l := by
  induction l generalizing i with
  | nil => rfl
  | cons a rest ih =>
      cases i with
      | zero =>
          simp only [List.getElem?_cons_zero, Option.some.injEq] at h
          rw [h]
          rfl
      | succ i' =>
          simp only [List.getElem?_cons_succ] at h
          simp only [List.set]
          rw [ih i' h]

theorem invCore_set (monitors : List Monitor) (p a i : Nat) (m' : Monitor) (opts : Opts)
    (hcore : MonitorSet.invCore (.normal monitors p a) opts)
    (hi : ∀ m ∈ monitors[i]?,
        m'.invariant opts ∧ m'.output = m.output ∧
        ∀ ws ∈ m'.workspaces, ws.originalOutput = m.output.name ∨
          ∃ ws0 ∈ m.workspaces, ws.originalOutput = ws0.originalOutput) :
    MonitorSet.invCore (.normal (monitors.set i m') p a) opts := by
  cases hm : monitors[i]? with
  | none =>
      rw [List.set_eq_of_length_le (by simpa using List.getElem?_eq_none_iff.mp hm)]
      exact hcore
  | some m =>
      obtain ⟨hinv, hout, horig⟩ := hi m (by rw [hm]; rfl)
      obtain ⟨c1, c2, c3, c4, c5, c6, c7⟩ := hcore
      have hget : ∀ j : Nat, (monitors.set i m')[j]? =
          if i = j then some m' else monitors[j]? := by
        intro j
        rw [List.getElem?_set]
        by_cases hij : i = j
        · simp only [hij, if_pos rfl]
          have : j < monitors.length := by
            subst hij
            exact (List.getElem?_eq_some.mp hm).1
          rw [if_pos this]
        · rw [if_neg hij, if_neg hij]
      refine ⟨?_, by simpa using c2, by simpa using c3, ?_, ?_, ?_, ?_⟩
      · intro hnil
        rw [← List.length_eq_zero, List.length_set, List.length_eq_zero] at hnil
        exact c1 hnil
      · rw [List.map_set]
        have hx : (monitors.map fun mm => mm.output.name)[i]? = some m'.output.name := by
          rw [List.getElem?_map, hm, hout]
          rfl
        rw [set_self_of_getElem _ _ _ hx]
        exact c4
      · intro mm hmm
        obtain ⟨j, hj⟩ := List.mem_iff_getElem?.mp hmm
        rw [hget j] at hj
        by_cases hij : i = j
        · rw [if_pos hij] at hj
          injection hj with hj
          subst hj
          exact hinv
        · rw [if_neg hij] at hj
          exact c5 mm (List.mem_iff_getElem?.mpr ⟨j, hj⟩)
      · intro j hj hjp mm hmm ws hws
        simp only [List.length_set] at hj
        rw [hget j] at hmm
        by_cases hij : i = j
        · rw [if_pos hij] at hmm
          simp only [Option.mem_def, Option.some.injEq] at hmm
          subst hmm
          rcases horig ws hws with he | ⟨ws0, hws0, he⟩
          · rw [hout, he]
          · subst hij
            have := c6 i hj hjp m (by rw [hm]; rfl) ws0 hws0
            rw [hout, he, this]
        · rw [if_neg hij] at hmm
          exact c6 j hj hjp mm hmm ws hws
      · intro pm hpm ws hws hne mm hmm
        obtain ⟨j, hj⟩ := List.mem_iff_getElem?.mp hmm
        rw [hget j] at hj
        have hmm' : mm.output.name = m'.output.name ∨ mm ∈ monitors := by
          by_cases hij : i = j
          · rw [if_pos hij] at hj
            injection hj with hj
            subst hj
            exact Or.inl rfl
          · rw [if_neg hij] at hj
            exact Or.inr (List.mem_iff_getElem?.mpr ⟨j, hj⟩)
        rw [hget p] at hpm
        by_cases hip : i = p
        · rw [if_pos hip] at hpm
          simp only [Option.mem_def, Option.some.injEq] at hpm
          subst hpm
          rw [hout] at hne
          rcases horig ws hws with he | ⟨ws0, hws0, he⟩
          · exact absurd he hne
          · have hbase := c7 m (by rw [← hip, hm]; rfl) ws0 hws0 (by rw [← he]; exact hne)
            rw [he]
            rcases hmm' with he2 | hmem2
            · rw [he2, hout]
              exact hbase m (List.mem_iff_getElem?.mpr ⟨i, hm⟩)
            · exact hbase mm hmem2
        · rw [if_neg hip] at hpm
          have hbase := c7 pm hpm ws hws hne
          rcases hmm' with he2 | hmem2
          · rw [he2, hout]
            exact hbase m (List.mem_iff_getElem?.mpr ⟨i, hm⟩)
          · exact hbase mm hmem2

theorem hasWindow_hasWindows (ws : Workspace) (wid : Nat)
    (h : ws.hasWindow wid = true) : ws.hasWindows = true := by
  simp only [Workspace.hasWindow, List.any_eq_true] at h
  obtain ⟨c, hc, _⟩ := h
  simp only [Workspace.hasWindows, Bool.not_eq_true']
  cases hcs : ws.columns with
  | nil =>
      rw [hcs] at hc
      exact absurd hc (List.not_mem_nil c)
  | cons a t => rfl

theorem cleanUpGo_any (active lastIdx i : Nat) (l : List Workspace) (p : Workspace → Bool)
    (hp : ∀ ws, p ws = true → ws.hasWindows = true) :
    (cleanUpGo active lastIdx i l).1.any p = l.any p := by
  induction l generalizing i with
  | nil => rfl
  | cons ws rest ih =>
      simp only [cleanUpGo]
      cases hrec : cleanUpGo active lastIdx (i + 1) rest with
      | mk rest' rb =>
          have ih' : rest'.any p = rest.any p := by
            rw [show rest' = (cleanUpGo active lastIdx (i + 1) rest).1 from by rw [hrec]]
            exact ih (i + 1)
          dsimp only
          split
          · simp only [List.any_cons, ih']
          · rename_i hcond
            have hw : ws.hasWindows = false := by
              by_cases h : ws.hasWindows = true
              · exact absurd (by simp [h]) hcond
              · simpa using h
            have hpw : p ws = false := by
              by_cases h : p ws = true
              · rw [hp ws h] at hw
                exact absurd hw (by simp)
              · simpa using h
            dsimp only
            simp only [List.any_cons, hpw, Bool.false_or, ih']

theorem invariant_cleanUpWorkspaces (m : Monitor) (opts : Opts)
    (hne : m.workspaces ≠ [])
    (hact : m.activeWorkspaceIdx < m.workspaces.length)
    (hlast : ∀ last ∈ m.workspaces.getLast?,
       last.columns = [] ∧ last.name = none ∧ last.originalOutput = m.output.name)
    (hopts : m.options = opts)
    (hws : ∀ ws ∈ m.workspaces,
       ws.baseOptions = opts ∧ ws.options = opts.adjustedForScale ws.scale) :
    m.cleanUpWorkspaces.invariant opts := by
  obtain ⟨hsub, hlast', hne', _, hact', hkeep, hout, hopt', _, _⟩ :=
    cleanUpWorkspaces_spec m hne hact
  refine ⟨hne', hact', ?_, fun _ => hkeep, by rw [hopt']; exact hopts, ?_⟩
  · rw [hlast', hout]
    exact hlast
  · intro ws hws'
    exact hws ws (hsub.subset hws')

theorem cleanUpWorkspaces_hasWindow (m : Monitor) (w : Nat) :
    (m.cleanUpWorkspaces.workspaces.any fun ws => ws.hasWindow w) =
      m.workspaces.any fun ws => ws.hasWindow w := by
  show (cleanUpGo m.activeWorkspaceIdx (m.workspaces.length - 1) 0 m.workspaces).1.any _ = _
  exact cleanUpGo_any _ _ _ _ _ fun ws h => hasWindow_hasWindows ws w h

theorem cleanUpWorkspaces_mem (m : Monitor) (ws : Workspace)
    (h : ws ∈ m.cleanUpWorkspaces.workspaces) : ws ∈ m.workspaces :=
  (cleanUpGo_sublist m.activeWorkspaceIdx (m.workspaces.length - 1) 0 m.workspaces).subset h

theorem inv_insertNamed (L : Layout) (cfg : WsConfig) (monitors : List Monitor)
    (p a monIdx : Nat) (mon : Monitor)
    (hcore : MonitorSet.invCore (.normal monitors p a) L.options)
    (him : imOkCore (.normal monitors p a) L.interactiveMove)
    (hmon : monitors[monIdx]? = some mon) :
    Layout.Inv { L with
        monitorSet := .normal (monitors.set monIdx
          ({ mon with
              workspaces :=
                Workspace.freshNamed mon.output cfg.name L.nextWsId L.options ::
                  mon.workspaces
              activeWorkspaceIdx := mon.activeWorkspaceIdx + 1
              workspaceSwitch := none }).cleanUpWorkspaces) p a
        nextWsId := L.nextWsId + 1 } := by
  obtain ⟨m1, m2, m3, m4, m5, m6⟩ :=
    hcore.2.2.2.2.1 mon (List.mem_iff_getElem?.mpr ⟨monIdx, hmon⟩)
  have hne0 : (Workspace.freshNamed mon.output cfg.name L.nextWsId L.options ::
      mon.workspaces) ≠ [] := List.cons_ne_nil _ _
  have hact0 : mon.activeWorkspaceIdx + 1 <
      (Workspace.freshNamed mon.output cfg.name L.nextWsId L.options ::
        mon.workspaces).length := by
    simp only [List.length_cons]
    omega
  have hinv0 : ({ mon with
      workspaces :=
        Workspace.freshNamed mon.output cfg.name L.nextWsId L.options :: mon.workspaces
      activeWorkspaceIdx := mon.activeWorkspaceIdx + 1
      workspaceSwitch := none } : Monitor).cleanUpWorkspaces.invariant L.options := by
    refine invariant_cleanUpWorkspaces _ L.options hne0 hact0 ?_ m5 ?_
    · intro last hlast
      rw [getLast?_cons_ne _ _ m1] at hlast
      exact m3 last hlast
    · intro ws hws
      rcases List.mem_cons.mp hws with he | hmem
      · subst he
        exact ⟨rfl, rfl⟩
      · exact m6 ws hmem
  constructor
  · refine invCore_set monitors p a monIdx _ L.options hcore ?_
    intro m hm
    rw [hmon] at hm
    simp only [Option.mem_def, Option.some.injEq] at hm
    subst hm
    refine ⟨hinv0, (cleanUpWorkspaces_spec _ hne0 hact0).2.2.2.2.2.2.1, ?_⟩
    intro ws hws
    have hmem := cleanUpWorkspaces_mem _ ws hws
    rcases List.mem_cons.mp hmem with he | hmem2
    · subst he
      exact Or.inl rfl
    · exact Or.inr ⟨ws, hmem2, rfl⟩
  · cases hi : L.interactiveMove with
    | none => simp only [imOkCore]
    | some st =>
        cases st with
        | moving mv => simp only [imOkCore]
        | starting w pd pr =>
            rw [hi] at him
            simp only [imOkCore, MonitorSet.hasWindowMS] at him ⊢
            rw [any_set_shape]
            · exact him
            · intro m0 hm0
              rw [hmon] at hm0
              simp only [Option.mem_def, Option.some.injEq] at hm0
              subst hm0
              rw [cleanUpWorkspaces_hasWindow]
              dsimp only
              simp only [List.any_cons]
              have hf : (Workspace.freshNamed mon.output cfg.name L.nextWsId
                  L.options).hasWindow w = false := rfl
              rw [hf]
              simp only [Bool.false_or]

theorem inv_ensureNamedWorkspace (L : Layout) (cfg : WsConfig) (h : L.Inv) :
    (L.ensureNamedWorkspace cfg).Inv := by
  obtain ⟨hcore, him⟩ := h
  unfold Layout.ensureNamedWorkspace
  split
  · exact ⟨hcore, him⟩
  · cases hms : L.monitorSet with
    | noOutputs wss =>
        dsimp only
        rw [hms] at hcore him
        constructor
        · intro ws hws
          rcases List.mem_cons.mp hws with he | hmem
          · subst he
            exact ⟨rfl, rfl, rfl⟩
          · exact hcore ws hmem
        · cases hi : L.interactiveMove with
          | none => simp only [imOkCore]
          | some st =>
              cases st with
              | moving mv => simp only [imOkCore]
              | starting w pd pr =>
                  rw [hi] at him
                  simp only [imOkCore, MonitorSet.hasWindowMS] at him ⊢
                  simp only [List.any_cons]
                  have hf : (Workspace.freshNamedNoOutputs cfg.name L.nextWsId
                      L.options).hasWindow w = false := rfl
                  rw [hf]
                  simpa only [Bool.false_or] using him
    | normal monitors p a =>
        dsimp only
        rw [hms] at hcore him
        split
        · exact ⟨by rw [hms]; exact hcore, by rw [hms]; exact him⟩
        · rename_i mon hmon
          exact inv_insertNamed L cfg monitors p a _ mon hcore him hmon

theorem insertIdx_any_mono {α : Type _} (n : Nat) (x : α) (l : List α) (p : α → Bool)
    (h : l.any p = true) : (List.insertIdx n x l).any p = true := by
  induction l generalizing n with
  | nil => simp at h
  | cons a t ih =>
      cases n with
      | zero =>
          rw [List.insertIdx_zero]
          simp only [List.any_cons, Bool.or_eq_true] at h ⊢
          exact Or.inr h
      | succ n' =>
          rw [List.insertIdx_succ_cons]
          simp only [List.any_cons, Bool.or_eq_true] at h ⊢
          rcases h with h | h
          · exact Or.inl h
          · exact Or.inr (ih n' h)

theorem any_set_mono {α : Type _} (l : List α) (i : Nat) (x' : α) (p : α → Bool)
    (hmono : ∀ x ∈ l[i]?, p x = true → p x' = true)
    (h : l.any p = true) : (l.set i x').any p = true := by
  induction l generalizing i with
  | nil => simp at h
  | cons a t ih =>
      cases i with
      | zero =>
          simp only [List.set, List.any_cons, Bool.or_eq_true] at h ⊢
          rcases h with h | h
          · exact Or.inl (hmono a (by simp) h)
          · exact Or.inr h
      | succ i' =>
          simp only [List.set, List.any_cons, Bool.or_eq_true] at h ⊢
          rcases h with h | h
          · exact Or.inl h
          · exact Or.inr (ih i' (fun x hx => hmono x (by simpa using hx)) h)

theorem addWindow_shape (ws : Workspace) (out : Option Output) (wid : Nat)
    (activate : Bool) (width : ColWidth) (isFullWidth : Bool) :
    (ws.addWindow out wid activate width isFullWidth).name = ws.name ∧
    (ws.addWindow out wid activate width isFullWidth).id = ws.id ∧
    (ws.addWindow out wid activate width isFullWidth).scale = ws.scale ∧
    (ws.addWindow out wid activate width isFullWidth).baseOptions = ws.baseOptions ∧
    (ws.addWindow out wid activate width isFullWidth).options = ws.options ∧
    (ws.addWindow out wid activate width isFullWidth).hasWindows = true ∧
    (∀ w, ws.hasWindow w = true →
      (ws.addWindow out wid activate width isFullWidth).hasWindow w = true) ∧
    (ws.addWindow out wid activate width isFullWidth).originalOutput =
      (match out with | some o => o.name | none => ws.originalOutput) := by
  have hcols : ∀ col : Column,
      (List.insertIdx (if ws.columns.isEmpty then 0 else ws.activeColumnIdx + 1)
          col ws.columns).isEmpty = false ∧
      ∀ w, (ws.columns.any fun c => c.tiles.any fun t => t.wid == w) = true →
        ((List.insertIdx (if ws.columns.isEmpty then 0 else ws.activeColumnIdx + 1)
            col ws.columns).any fun c => c.tiles.any fun t => t.wid == w) = true := by
    intro col
    constructor
    · cases hc : ws.columns with
      | nil => simp [List.insertIdx_zero]
      | cons a t => simp [List.insertIdx_succ_cons]
    · intro w hw
      exact insertIdx_any_mono _ _ _ _ hw
  cases out with
  | none =>
      unfold Workspace.addWindow
      dsimp only
      refine ⟨rfl, rfl, rfl, rfl, rfl, ?_, fun w hw => (hcols _).2 w hw, rfl⟩
      unfold Workspace.hasWindows
      dsimp only
      rw [(hcols _).1]
      rfl
  | some o =>
      unfold Workspace.addWindow
      dsimp only
      refine ⟨rfl, rfl, rfl, rfl, rfl, ?_, fun w hw => (hcols _).2 w hw, rfl⟩
      unfold Workspace.hasWindows
      dsimp only
      rw [(hcols _).1]
      rfl

theorem keepable_of_hasWindows (ws : Workspace) (h : ws.hasWindows = true) :
    ws.keepable = true := by
  unfold Workspace.keepable
  rw [h]
  rfl

theorem monitor_addWindow_spec (m : Monitor) (opts : Opts) (wsIdx wid : Nat)
    (activate : Bool) (width : ColWidth) (isFullWidth : Bool) (freshId : Nat)
    (hbase : m.invariant opts) :
    (m.addWindow wsIdx wid activate width isFullWidth freshId).1.invariant opts ∧
    (m.addWindow wsIdx wid activate width isFullWidth freshId).1.output = m.output ∧
    (∀ ws ∈ (m.addWindow wsIdx wid activate width isFullWidth freshId).1.workspaces,
       ws.originalOutput = m.output.name ∨ ws ∈ m.workspaces) ∧
    ∀ w, (m.workspaces.any fun ws => ws.hasWindow w) = true →
      ((m.addWindow wsIdx wid activate width isFullWidth freshId).1.workspaces.any
        fun ws => ws.hasWindow w) = true := by
  unfold Monitor.addWindow
  cases hw : m.workspaces[wsIdx]? with
  | none =>
      dsimp only
      exact ⟨hbase, rfl, fun ws hws => Or.inr hws, fun w h => h⟩
  | some ws =>
      dsimp only
      obtain ⟨b1, b2, b3, b4, b5, b6⟩ := hbase
      obtain ⟨s1, s2, s3, s4, s5, s6, s7, s8⟩ :=
        addWindow_shape ws (some m.output) wid activate width isFullWidth
      have s8' : (ws.addWindow (some m.output) wid activate width isFullWidth).originalOutput =
          m.output.name := s8
      have hidx : wsIdx < m.workspaces.length := (List.getElem?_eq_some.mp hw).1
      have hmem : ws ∈ m.workspaces := List.mem_iff_getElem?.mpr ⟨wsIdx, hw⟩
      have hwsopt : ∀ ws0 ∈ (m.workspaces.set wsIdx
          (ws.addWindow (some m.output) wid activate width isFullWidth)),
          ws0.baseOptions = opts ∧ ws0.options = opts.adjustedForScale ws0.scale := by
        intro ws0 hws0
        rcases List.mem_or_eq_of_mem_set hws0 with hmem0 | he
        · exact b6 ws0 hmem0
        · subst he
          refine ⟨by rw [s4]; exact (b6 ws hmem).1, ?_⟩
          rw [s5, s3]
          exact (b6 ws hmem).2
      have hworig : ∀ ws0 ∈ (m.workspaces.set wsIdx
          (ws.addWindow (some m.output) wid activate width isFullWidth)),
          ws0.originalOutput = m.output.name ∨ ws0 ∈ m.workspaces := by
        intro ws0 hws0
        rcases List.mem_or_eq_of_mem_set hws0 with hmem0 | he
        · exact Or.inr hmem0
        · subst he
          exact Or.inl s8'
      have hwany : ∀ w, (m.workspaces.any fun ws0 => ws0.hasWindow w) = true →
          ((m.workspaces.set wsIdx
            (ws.addWindow (some m.output) wid activate width isFullWidth)).any
              fun ws0 => ws0.hasWindow w) = true := by
        intro w h
        refine any_set_mono _ _ _ _ ?_ h
        intro x hx
        rw [hw] at hx
        simp only [Option.mem_def, Option.some.injEq] at hx
        subst hx
        exact s7 w
      have hinvExt : wsIdx = m.workspaces.length - 1 → ({ m with
          workspaces :=
            m.workspaces.set wsIdx
                (ws.addWindow (some m.output) wid activate width isFullWidth) ++
              [Workspace.fresh m.output freshId m.options] } : Monitor).invariant opts := by
        intro hlast
        refine ⟨by simp, ?_, ?_, ?_, b5, ?_⟩
        · dsimp only
          simp only [List.length_append, List.length_set, List.length_cons,
            List.length_nil]
          omega
        · intro last hl
          dsimp only at hl ⊢
          rw [List.getLast?_concat] at hl
          simp only [Option.mem_def, Option.some.injEq] at hl
          subst hl
          exact ⟨rfl, rfl, rfl⟩
        · intro hsw i hi hia ws0 hws0
          dsimp only at hsw hi hia hws0
          simp only [List.length_append, List.length_set, List.length_cons,
            List.length_nil] at hi
          have hilt : i < m.workspaces.length := by omega
          rw [List.getElem?_append] at hws0
          rw [if_pos (by simpa using hilt)] at hws0
          by_cases hiw : i = wsIdx
          · subst hiw
            rw [List.getElem?_set] at hws0
            rw [if_pos rfl, if_pos hilt] at hws0
            simp only [Option.mem_def, Option.some.injEq] at hws0
            subst hws0
            exact keepable_of_hasWindows _ s6
          · rw [List.getElem?_set] at hws0
            rw [if_neg (fun he => hiw he.symm)] at hws0
            exact b4 hsw i (by omega) hia ws0 hws0
        · intro ws0 hws0
          dsimp only at hws0
          rcases List.mem_append.mp hws0 with hmem0 | hmem0
          · exact hwsopt ws0 hmem0
          · simp only [List.mem_singleton] at hmem0
            subst hmem0
            refine ⟨b5, ?_⟩
            show m.options.adjustedForScale m.output.scale =
              opts.adjustedForScale m.output.scale
            rw [b5]
      have horigExt : ∀ ws0 ∈ (m.workspaces.set wsIdx
          (ws.addWindow (some m.output) wid activate width isFullWidth) ++
          [Workspace.fresh m.output freshId m.options]),
          ws0.originalOutput = m.output.name ∨ ws0 ∈ m.workspaces := by
        intro ws0 hws0
        rcases List.mem_append.mp hws0 with hmem0 | hmem0
        · exact hworig ws0 hmem0
        · simp only [List.mem_singleton] at hmem0
          subst hmem0
          exact Or.inl rfl
      have hanyExt : ∀ w, (m.workspaces.any fun ws0 => ws0.hasWindow w) = true →
          ((m.workspaces.set wsIdx
            (ws.addWindow (some m.output) wid activate width isFullWidth) ++
            [Workspace.fresh m.output freshId m.options]).any
              fun ws0 => ws0.hasWindow w) = true := by
        intro w h
        rw [List.any_append]
        rw [hwany w h]
        rfl
      have hinvSet : ({ m with
          workspaces :=
            m.workspaces.set wsIdx
              (ws.addWindow (some m.output) wid activate width
                isFullWidth) } : Monitor).invariant opts ∨
          wsIdx = m.workspaces.length - 1 := by
        by_cases hlast : wsIdx = m.workspaces.length - 1
        · exact Or.inr hlast
        · refine Or.inl ⟨?_, by dsimp only; simpa using b2, ?_, ?_, b5, hwsopt⟩
          · intro hnil
            dsimp only at hnil
            rw [← List.length_eq_zero, List.length_set, List.length_eq_zero] at hnil
            exact b1 hnil
          · intro last hl
            dsimp only at hl ⊢
            rw [List.getLast?_eq_getElem?] at hl
            simp only [List.length_set] at hl
            rw [List.getElem?_set] at hl
            rw [if_neg hlast] at hl
            rw [← List.getLast?_eq_getElem?] at hl
            exact b3 last hl
          · intro hsw i hi hia ws0 hws0
            dsimp only at hsw hi hia hws0
            simp only [List.length_set] at hi
            by_cases hiw : i = wsIdx
            · subst hiw
              rw [List.getElem?_set] at hws0
              rw [if_pos rfl, if_pos hidx] at hws0
              simp only [Option.mem_def, Option.some.injEq] at hws0
              subst hws0
              exact keepable_of_hasWindows _ s6
            · rw [List.getElem?_set] at hws0
              rw [if_neg (fun he => hiw he.symm)] at hws0
              exact b4 hsw i hi hia ws0 hws0
      split
      · split
        · rename_i hl
          exact ⟨switchWorkspace_invariant _ opts wsIdx (hinvExt hl),
            by rw [switchWorkspace_output],
            by rw [switchWorkspace_workspaces]; exact horigExt,
            fun w h => by rw [switchWorkspace_workspaces]; exact hanyExt w h⟩
        · rename_i hl
          rcases hinvSet with hone | habs
          · exact ⟨switchWorkspace_invariant _ opts wsIdx hone,
              by rw [switchWorkspace_output],
              by rw [switchWorkspace_workspaces]; exact hworig,
              fun w h => by rw [switchWorkspace_workspaces]; exact hwany w h⟩
          · exact absurd habs hl
      · split
        · rename_i hl
          exact ⟨hinvExt hl, rfl, horigExt, hanyExt⟩
        · rename_i hl
          rcases hinvSet with hone | habs
          · exact ⟨hone, rfl, hworig, hwany⟩
          · exact absurd habs hl

theorem inv_set_addWindow (L : Layout) (monitors : List Monitor)
    (p a monIdx wsIdx wid : Nat) (act : Bool) (width : ColWidth) (isFullWidth : Bool)
    (mon : Monitor)
    (hcore : MonitorSet.invCore (.normal monitors p a) L.options)
    (him : imOkCore (.normal monitors p a) L.interactiveMove)
    (hmon : monitors[monIdx]? = some mon) :
    Layout.Inv { L with
      monitorSet := .normal
        (monitors.set monIdx (mon.addWindow wsIdx wid act width isFullWidth L.nextWsId).1)
        p a
      nextWsId := (mon.addWindow wsIdx wid act width isFullWidth L.nextWsId).2 } := by
  obtain ⟨hinv, hout, horig, hany⟩ :=
    monitor_addWindow_spec mon L.options wsIdx wid act width isFullWidth L.nextWsId
      (hcore.2.2.2.2.1 mon (List.mem_iff_getElem?.mpr ⟨monIdx, hmon⟩))
  constructor
  · refine invCore_set monitors p a monIdx _ L.options hcore ?_
    intro m hm
    rw [hmon] at hm
    simp only [Option.mem_def, Option.some.injEq] at hm
    subst hm
    exact ⟨hinv, hout, fun ws hws => (horig ws hws).imp id fun hm2 => ⟨ws, hm2, rfl⟩⟩
  · cases hi : L.interactiveMove with
    | none => simp only [imOkCore]
    | some st =>
        cases st with
        | moving mv => simp only [imOkCore]
        | starting w pd pr =>
            rw [hi] at him
            simp only [imOkCore, MonitorSet.hasWindowMS] at him ⊢
            refine any_set_mono _ _ _ _ ?_ him
            intro x hx hpx
            rw [hmon] at hx
            simp only [Option.mem_def, Option.some.injEq] at hx
            subst hx
            exact hany w hpx

theorem inv_addWindow (L : Layout) (wid : Nat) (width : ColWidth) (isFullWidth : Bool)
    (h : L.Inv) : (L.addWindow wid width isFullWidth).Inv := by
  obtain ⟨hcore, him⟩ := h
  unfold Layout.addWindow
  cases hms : L.monitorSet with
  | normal monitors p a =>
      dsimp only
      rw [hms] at hcore him
      cases hmon : monitors[a]? with
      | none =>
          dsimp only
          exact ⟨by rw [hms]; exact hcore, by rw [hms]; exact him⟩
      | some mon =>
          dsimp only
          exact inv_set_addWindow L monitors p a a mon.activeWorkspaceIdx wid _ width
            isFullWidth mon hcore him hmon
  | noOutputs wss =>
      dsimp only
      rw [hms] at hcore him
      cases wss with
      | cons ws rest =>
          dsimp only
          obtain ⟨s1, s2, s3, s4, s5, s6, s7, s8⟩ :=
            addWindow_shape ws none wid true width isFullWidth
          constructor
          · intro ws0 hws0
            rcases List.mem_cons.mp hws0 with he | hmem
            · subst he
              obtain ⟨h1, h2, h3⟩ := hcore ws (List.mem_cons_self ws rest)
              refine ⟨keepable_of_hasWindows _ s6, by rw [s4]; exact h2, ?_⟩
              rw [s5, s3]
              exact h3
            · exact hcore ws0 (List.mem_cons_of_mem ws hmem)
          · cases hi : L.interactiveMove with
            | none => simp only [imOkCore]
            | some st =>
                cases st with
                | moving mv => simp only [imOkCore]
                | starting w pd pr =>
                    rw [hi] at him
                    simp only [imOkCore, MonitorSet.hasWindowMS, List.any_cons,
                      Bool.or_eq_true] at him ⊢
                    rcases him with hh | hh
                    · exact Or.inl (s7 w hh)
                    · exact Or.inr hh
      | nil =>
          dsimp only
          obtain ⟨s1, s2, s3, s4, s5, s6, s7, s8⟩ :=
            addWindow_shape (Workspace.freshNoOutputs L.nextWsId L.options) none wid
              true width isFullWidth
          constructor
          · intro ws0 hws0
            simp only [List.mem_singleton] at hws0
            subst hws0
            refine ⟨keepable_of_hasWindows _ s6, by rw [s4]; rfl, ?_⟩
            rw [s5, s3]
            rfl
          · cases hi : L.interactiveMove with
            | none => simp only [imOkCore]
            | some st =>
                cases st with
                | moving mv => simp only [imOkCore]
                | starting w pd pr =>
                    rw [hi] at him
                    simp only [imOkCore, MonitorSet.hasWindowMS, List.any_nil] at him
                    exact absurd him (by simp)

theorem inv_addWindowOnOutput (L : Layout) (oname wid : Nat) (width : ColWidth)
    (isFullWidth : Bool) (h : L.Inv) : (L.addWindowOnOutput oname wid width isFullWidth).Inv := by
  obtain ⟨hcore, him⟩ := h
  unfold Layout.addWindowOnOutput
  cases hms : L.monitorSet with
  | noOutputs wss => exact ⟨hcore, him⟩
  | normal monitors p a =>
      dsimp only
      rw [hms] at hcore him
      cases hfind : monitors.findIdx? (fun mon => mon.output.name == oname) with
      | none =>
          dsimp only
          exact ⟨by rw [hms]; exact hcore, by rw [hms]; exact him⟩
      | some monIdx =>
          dsimp only
          cases hmon : monitors[monIdx]? with
          | none =>
              dsimp only
              exact ⟨by rw [hms]; exact hcore, by rw [hms]; exact him⟩
          | some mon =>
              dsimp only
              exact inv_set_addWindow L monitors p a monIdx mon.activeWorkspaceIdx wid _
                width isFullWidth mon hcore him hmon

theorem inv_addWindowToNamedWorkspace (L : Layout) (wsName : String) (wid : Nat)
    (width : ColWidth) (isFullWidth : Bool) (h : L.Inv) :
    (L.addWindowToNamedWorkspace wsName wid width isFullWidth).Inv := by
  obtain ⟨hcore, him⟩ := h
  unfold Layout.addWindowToNamedWorkspace
  cases hms : L.monitorSet with
  | normal monitors p a =>
      dsimp only
      rw [hms] at hcore him
      cases hfind : monitors.findIdx?
          (fun mon => (mon.findNamedWorkspaceIndex wsName).isSome) with
      | none =>
          dsimp only
          exact ⟨by rw [hms]; exact hcore, by rw [hms]; exact him⟩
      | some monIdx =>
          dsimp only
          cases hmon : monitors[monIdx]? with
          | none =>
              dsimp only
              exact ⟨by rw [hms]; exact hcore, by rw [hms]; exact him⟩
          | some mon =>
              dsimp only
              cases hwsi : mon.findNamedWorkspaceIndex wsName with
              | none =>
                  dsimp only
                  exact ⟨by rw [hms]; exact hcore, by rw [hms]; exact him⟩
              | some wsIdx =>
                  dsimp only
                  exact inv_set_addWindow L monitors p a monIdx wsIdx wid _
                    width isFullWidth mon hcore him hmon
  | noOutputs wss =>
      dsimp only
      rw [hms] at hcore him
      cases hfind : wss.findIdx?
          (fun ws => (ws.name.map fun n => eqIgnoreAsciiCase n wsName).getD false) with
      | none =>
          dsimp only
          exact ⟨by rw [hms]; exact hcore, by rw [hms]; exact him⟩
      | some idx =>
          dsimp only
          cases hws : wss[idx]? with
          | none =>
              dsimp only
              exact ⟨by rw [hms]; exact hcore, by rw [hms]; exact him⟩
          | some ws =>
              dsimp only
              obtain ⟨s1, s2, s3, s4, s5, s6, s7, s8⟩ :=
                addWindow_shape ws none wid true width isFullWidth
              constructor
              · intro ws0 hws0
                rcases List.mem_or_eq_of_mem_set hws0 with hmem | he
                · exact hcore ws0 hmem
                · subst he
                  obtain ⟨h1, h2, h3⟩ := hcore ws (List.mem_iff_getElem?.mpr ⟨idx, hws⟩)
                  refine ⟨keepable_of_hasWindows _ s6, by rw [s4]; exact h2, ?_⟩
                  rw [s5, s3]
                  exact h3
              · cases hi : L.interactiveMove with
                | none => simp only [imOkCore]
                | some st =>
                    cases st with
                    | moving mv => simp only [imOkCore]
                    | starting w pd pr =>
                        rw [hi] at him
                        simp only [imOkCore, MonitorSet.hasWindowMS] at him ⊢
                        refine any_set_mono _ _ _ _ ?_ him
                        intro x hx hpx
                        rw [hws] at hx
                        simp only [Option.mem_def, Option.some.injEq] at hx
                        subst hx
                        exact s7 w hpx

theorem removeTile_shape (ws : Workspace) (wid : Nat) (removed : RemovedTile)
    (ws' : Workspace) (h : ws.removeTile wid = some (removed, ws')) :
    ws'.name = ws.name ∧ ws'.id = ws.id ∧ ws'.originalOutput = ws.originalOutput ∧
    ws'.curOutput = ws.curOutput ∧ ws'.scale = ws.scale ∧
    ws'.baseOptions = ws.baseOptions ∧ ws'.options = ws.options ∧
    ∀ w, w ≠ wid → ws.hasWindow w = true → ws'.hasWindow w = true := by
  unfold Workspace.removeTile at h
  cases hcf : ws.columns.findIdx? (fun c => c.tiles.any fun t => t.wid == wid) with
  | none =>
      rw [hcf] at h
      exact absurd h (by simp)
  | some colIdx =>
      rw [hcf] at h
      dsimp only at h
      cases hcol : ws.columns[colIdx]? with
      | none =>
          rw [hcol] at h
          exact absurd h (by simp)
      | some col =>
          rw [hcol] at h
          dsimp only at h
          cases hft : col.tiles.find? (fun t => t.wid == wid) with
          | none =>
              rw [hft] at h
              exact absurd h (by simp)
          | some tile =>
              rw [hft] at h
              dsimp only at h
              injection h with h
              have hws' := congrArg Prod.snd h
              dsimp only at hws'
              subst hws'
              refine ⟨rfl, rfl, rfl, rfl, rfl, rfl, rfl, ?_⟩
              intro w hne hw
              have hcidx : colIdx < ws.columns.length := (List.getElem?_eq_some.mp hcol).1
              unfold Workspace.hasWindow at hw
              rw [List.any_eq_true] at hw
              obtain ⟨c, hc, hcw⟩ := hw
              have hkeep : ∀ t ∈ c.tiles, (t.wid == w) = true →
                  t ∈ c.tiles.filter fun t => !(t.wid == wid) := by
                intro t ht htw
                have htw' : t.wid = w := by simpa using htw
                rw [List.mem_filter]
                refine ⟨ht, ?_⟩
                simp only [Bool.not_eq_true', beq_eq_false_iff_ne]
                intro hwid
                exact hne (by rw [← htw', hwid])
              obtain ⟨j, hj⟩ := List.mem_iff_getElem?.mp hc
              show (if (col.tiles.filter fun t => !(t.wid == wid)).isEmpty then _ else _ :
                  List Column).any _ = true
              by_cases hre : (col.tiles.filter fun t => !(t.wid == wid)).isEmpty = true
              · rw [if_pos hre]
                have hjne : j ≠ colIdx := by
                  intro he
                  subst he
                  rw [hcol] at hj
                  injection hj with hj
                  subst hj
                  rw [List.any_eq_true] at hcw
                  obtain ⟨t, ht, htw⟩ := hcw
                  have hmt := hkeep t ht htw
                  rw [List.isEmpty_iff] at hre
                  rw [hre] at hmt
                  exact absurd hmt (List.not_mem_nil t)
                rw [List.any_eq_true]
                refine ⟨c, ?_, hcw⟩
                by_cases hjlt : j < colIdx
                · refine List.mem_iff_getElem?.mpr ⟨j, ?_⟩
                  rw [List.getElem?_eraseIdx]
                  rw [if_pos hjlt]
                  exact hj
                · refine List.mem_iff_getElem?.mpr ⟨j - 1, ?_⟩
                  rw [List.getElem?_eraseIdx]
                  rw [if_neg (by omega)]
                  rw [show j - 1 + 1 = j from by omega]
                  exact hj
              · rw [if_neg hre]
                rw [List.any_eq_true]
                by_cases hjc : j = colIdx
                · subst hjc
                  rw [hcol] at hj
                  injection hj with hj
                  subst hj
                  refine ⟨{ col with
                      tiles := col.tiles.filter fun t => !(t.wid == wid)
                      activeTileIdx := min col.activeTileIdx
                        ((col.tiles.filter fun t => !(t.wid == wid)).length - 1) }, ?_, ?_⟩
                  · exact List.mem_iff_getElem?.mpr ⟨j, List.getElem?_set_self hcidx⟩
                  · rw [List.any_eq_true] at hcw ⊢
                    obtain ⟨t, ht, htw⟩ := hcw
                    exact ⟨t, hkeep t ht htw, htw⟩
                · refine ⟨c, ?_, hcw⟩
                  refine List.mem_iff_getElem?.mpr ⟨j, ?_⟩
                  rw [List.getElem?_set_ne (fun he => hjc he.symm)]
                  exact hj

theorem keepable_of_not_drop (ws' : Workspace)
    (hdrop : ¬((!ws'.hasWindows && ws'.name.isNone) = true)) : ws'.keepable = true := by
  unfold Workspace.keepable
  cases hW : ws'.hasWindows with
  | true => rfl
  | false =>
      have hN : ws'.name.isNone = false := by
        by_cases hN : ws'.name.isNone = true
        · exact absurd (by rw [hW, hN]; rfl) hdrop
        · exact Bool.eq_false_iff.mpr hN
      cases hn : ws'.name with
      | none => rw [hn] at hN; simp at hN
      | some nm => simp [hW, hn]

theorem removeWindowFromParked_spec (wid : Nat) (opts : Opts) :
    ∀ wss : List Workspace,
      (∀ ws ∈ wss, ws.keepable = true ∧ ws.baseOptions = opts ∧
        ws.options = opts.adjustedForScale ws.scale) →
      (∀ ws1 ∈ (removeWindowFromParked wid wss).2,
         ws1.keepable = true ∧ ws1.baseOptions = opts ∧
           ws1.options = opts.adjustedForScale ws1.scale) ∧
      ∀ w, w ≠ wid → (wss.any fun ws => ws.hasWindow w) = true →
        ((removeWindowFromParked wid wss).2.any fun ws => ws.hasWindow w) = true := by
  intro wss
  induction wss with
  | nil =>
      intro h
      exact ⟨fun ws1 h1 => absurd h1 (List.not_mem_nil ws1), fun w _ hw => by simp at hw⟩
  | cons ws rest ih =>
      intro h
      simp only [removeWindowFromParked]
      split
      · rename_i hhw
        cases hrt : ws.removeTile wid with
        | none =>
            dsimp only
            exact ⟨h, fun w _ hw => hw⟩
        | some pr =>
            cases pr with
            | mk removed ws' =>
                dsimp only
                obtain ⟨t1, t2, t3, t4, t5, t6, t7, t8⟩ :=
                  removeTile_shape ws wid removed ws' hrt
                split
                · rename_i hdrop
                  refine ⟨fun ws1 h1 => h ws1 (List.mem_cons_of_mem ws h1), ?_⟩
                  intro w hwne hw
                  simp only [List.any_cons, Bool.or_eq_true] at hw
                  rcases hw with hw | hw
                  · exfalso
                    have hW2 := hasWindow_hasWindows ws' w (t8 w hwne hw)
                    simp only [Bool.and_eq_true, Bool.not_eq_true'] at hdrop
                    rw [hdrop.1] at hW2
                    exact absurd hW2 (by simp)
                  · exact hw
                · rename_i hdrop
                  constructor
                  · intro ws1 h1
                    rcases List.mem_cons.mp h1 with he | hm
                    · rw [he]
                      obtain ⟨k1, k2, k3⟩ := h ws (List.mem_cons_self ws rest)
                      refine ⟨keepable_of_not_drop ws' hdrop,
                        by rw [t6]; exact k2, ?_⟩
                      rw [t7, t5]
                      exact k3
                    · exact h ws1 (List.mem_cons_of_mem ws hm)
                  · intro w hwne hw
                    simp only [List.any_cons, Bool.or_eq_true] at hw ⊢
                    rcases hw with hw | hw
                    · exact Or.inl (t8 w hwne hw)
                    · exact Or.inr hw
      · rename_i hhw
        cases hrec : removeWindowFromParked wid rest with
        | mk r rest' =>
            dsimp only
            obtain ⟨ih1, ih2⟩ := ih fun ws1 h1 => h ws1 (List.mem_cons_of_mem ws h1)
            rw [hrec] at ih1 ih2
            constructor
            · intro ws1 h1
              rcases List.mem_cons.mp h1 with he | hm
              · rw [he]
                exact h ws (List.mem_cons_self ws rest)
              · exact ih1 ws1 hm
            · intro w hwne hw
              simp only [List.any_cons, Bool.or_eq_true] at hw ⊢
              rcases hw with hw | hw
              · exact Or.inl hw
              · exact Or.inr (ih2 w hwne hw)

theorem removeWindowFromMonitors_spec (wid : Nat) (opts : Opts) :
    ∀ l : List Monitor, (∀ m ∈ l, m.invariant opts) →
      (removeWindowFromMonitors wid l).2 = l ∨
      ∃ k m m', l[k]? = some m ∧
        (removeWindowFromMonitors wid l).2 = l.set k m' ∧
        m'.invariant opts ∧ m'.output = m.output ∧
        (∀ ws1 ∈ m'.workspaces, ∃ ws0 ∈ m.workspaces,
           ws1.originalOutput = ws0.originalOutput) ∧
        ∀ w, w ≠ wid → (m.workspaces.any fun ws => ws.hasWindow w) = true →
          (m'.workspaces.any fun ws => ws.hasWindow w) = true := by
  intro l
  induction l with
  | nil => intro h; exact Or.inl rfl
  | cons mon rest ih =>
      intro h
      simp only [removeWindowFromMonitors]
      cases hf : mon.workspaces.findIdx? (fun ws => ws.hasWindow wid) with
      | none =>
          dsimp only
          cases hrec : removeWindowFromMonitors wid rest with
          | mk r rest' =>
              dsimp only
              rcases ih (fun m hm => h m (List.mem_cons_of_mem mon hm)) with
                hsame | ⟨k, m, m', hk, hset, hrest⟩
              · rw [hrec] at hsame
                dsimp only at hsame
                rw [hsame]
                exact Or.inl rfl
              · rw [hrec] at hset
                dsimp only at hset
                refine Or.inr ⟨k + 1, m, m', by simpa using hk, ?_, hrest⟩
                rw [hset]
                rfl
      | some idx =>
          dsimp only
          cases hcol : mon.workspaces[idx]? with
          | none =>
              dsimp only
              exact Or.inl rfl
          | some ws =>
              dsimp only
              cases hrt : ws.removeTile wid with
              | none =>
                  dsimp only
                  exact Or.inl rfl
              | some pr =>
                  cases pr with
                  | mk removed ws' =>
                      dsimp only
                      obtain ⟨b1, b2, b3, b4, b5, b6⟩ := h mon (List.mem_cons_self mon rest)
                      obtain ⟨t1, t2, t3, t4, t5, t6, t7, t8⟩ :=
                        removeTile_shape ws wid removed ws' hrt
                      have hidx : idx < mon.workspaces.length :=
                        (List.getElem?_eq_some.mp hcol).1
                      have hwsw : ws.hasWindow wid = true := by
                        obtain ⟨hlt, x, hx, hpx⟩ := findIdx?_spec hf
                        rw [hcol] at hx
                        injection hx with hx
                        rw [← hx] at hpx
                        exact hpx
                      have hlastne : idx ≠ mon.workspaces.length - 1 := by
                        intro he
                        have hg : mon.workspaces.getLast? = some ws := by
                          rw [List.getLast?_eq_getElem?, ← he]
                          exact hcol
                        have hnil := (b3 ws hg).1
                        unfold Workspace.hasWindow at hwsw
                        rw [hnil] at hwsw
                        simp at hwsw
                      refine Or.inr ⟨0, mon, _, by simp, rfl, ?_⟩
                      split
                      · rename_i hcl
                        simp only [Bool.and_eq_true, Bool.not_eq_true',
                          beq_eq_false_iff_ne] at hcl
                        obtain ⟨⟨⟨⟨hW, hN⟩, hA⟩, hL⟩, hS⟩ := hcl
                        rw [Option.isNone_iff_eq_none] at hS
                        have hpt : ∀ j : Nat,
                            ((mon.workspaces.set idx ws').eraseIdx idx)[j]? =
                              if j < idx then mon.workspaces[j]?
                              else mon.workspaces[j + 1]? := by
                          intro j
                          rw [List.getElem?_eraseIdx]
                          by_cases hj : j < idx
                          · rw [if_pos hj, if_pos hj,
                              List.getElem?_set_ne (by omega)]
                          · rw [if_neg hj, if_neg hj,
                              List.getElem?_set_ne (by omega)]
                        have hlen2 : ((mon.workspaces.set idx ws').eraseIdx idx).length =
                            mon.workspaces.length - 1 := by
                          rw [List.length_eraseIdx, List.length_set, if_pos hidx]
                        have hge2 : 2 ≤ mon.workspaces.length := by omega
                        refine ⟨?_, ?_, ?_, ?_⟩
                        · refine ⟨?_, ?_, ?_, ?_, b5, ?_⟩
                          · intro hnil
                            rw [← List.length_eq_zero, hlen2] at hnil
                            omega
                          · dsimp only
                            rw [hlen2]
                            split <;> omega
                          · intro last hlst
                            dsimp only at hlst ⊢
                            rw [List.getLast?_eq_getElem?, hlen2, hpt _] at hlst
                            rw [if_neg (by omega)] at hlst
                            rw [show mon.workspaces.length - 1 - 1 + 1 =
                              mon.workspaces.length - 1 from by omega] at hlst
                            rw [← List.getLast?_eq_getElem?] at hlst
                            exact b3 last hlst
                          · intro hsw i hi hia ws1 hws1
                            dsimp only at hsw hi hia hws1
                            rw [hlen2] at hi
                            rw [hpt i] at hws1
                            by_cases hio : i < idx
                            · rw [if_pos hio] at hws1
                              refine b4 hsw i (by omega) ?_ ws1 hws1
                              by_cases ha : idx < mon.activeWorkspaceIdx
                              · omega
                              · rw [if_neg ha] at hia
                                exact hia
                            · rw [if_neg hio] at hws1
                              refine b4 hsw (i + 1) (by omega) ?_ ws1 hws1
                              by_cases ha : idx < mon.activeWorkspaceIdx
                              · rw [if_pos ha] at hia
                                omega
                              · omega
                          · intro ws1 hws1
                            dsimp only at hws1
                            obtain ⟨j, hj⟩ := List.mem_iff_getElem?.mp hws1
                            rw [hpt j] at hj
                            by_cases hjo : j < idx
                            · rw [if_pos hjo] at hj
                              exact b6 ws1 (List.mem_iff_getElem?.mpr ⟨j, hj⟩)
                            · rw [if_neg hjo] at hj
                              exact b6 ws1 (List.mem_iff_getElem?.mpr ⟨j + 1, hj⟩)
                        · rfl
                        · intro ws1 hws1
                          dsimp only at hws1
                          obtain ⟨j, hj⟩ := List.mem_iff_getElem?.mp hws1
                          rw [hpt j] at hj
                          by_cases hjo : j < idx
                          · rw [if_pos hjo] at hj
                            exact ⟨ws1, List.mem_iff_getElem?.mpr ⟨j, hj⟩, rfl⟩
                          · rw [if_neg hjo] at hj
                            exact ⟨ws1, List.mem_iff_getElem?.mpr ⟨j + 1, hj⟩, rfl⟩
                        · intro w hwne hw
                          dsimp only
                          rw [List.any_eq_true] at hw
                          obtain ⟨x, hx, hpx⟩ := hw
                          obtain ⟨j, hj⟩ := List.mem_iff_getElem?.mp hx
                          have hjne : j ≠ idx := by
                            intro he
                            subst he
                            rw [hcol] at hj
                            injection hj with hj
                            rw [← hj] at hpx
                            have hh := hasWindow_hasWindows ws' w (t8 w hwne hpx)
                            rw [hW] at hh
                            exact absurd hh (by simp)
                          rw [List.any_eq_true]
                          refine ⟨x, ?_, hpx⟩
                          by_cases hjo : j < idx
                          · refine List.mem_iff_getElem?.mpr ⟨j, ?_⟩
                            rw [hpt j, if_pos hjo]
                            exact hj
                          · refine List.mem_iff_getElem?.mpr ⟨j - 1, ?_⟩
                            rw [hpt (j - 1), if_neg (by omega)]
                            rw [show j - 1 + 1 = j from by omega]
                            exact hj
                      · rename_i hcl
                        refine ⟨?_, rfl, ?_, ?_⟩
                        · refine ⟨?_, by dsimp only; simpa using b2, ?_, ?_, b5, ?_⟩
                          · intro hnil
                            dsimp only at hnil
                            rw [← List.length_eq_zero, List.length_set,
                              List.length_eq_zero] at hnil
                            exact b1 hnil
                          · intro last hlst
                            dsimp only at hlst ⊢
                            rw [List.getLast?_eq_getElem?, List.length_set] at hlst
                            rw [List.getElem?_set_ne hlastne] at hlst
                            rw [← List.getLast?_eq_getElem?] at hlst
                            exact b3 last hlst
                          · intro hsw i hi hia ws1 hws1
                            dsimp only at hsw hi hia hws1
                            rw [List.length_set] at hi
                            by_cases hii : i = idx
                            · subst hii
                              rw [List.getElem?_set_self hidx] at hws1
                              simp only [Option.mem_def, Option.some.injEq] at hws1
                              rw [← hws1]
                              refine keepable_of_not_drop ws' ?_
                              intro hdrop
                              refine hcl ?_
                              have h1 : (i == mon.activeWorkspaceIdx) = false := by
                                simp only [beq_eq_false_iff_ne]
                                exact hia
                              have h2 : (i == mon.workspaces.length - 1) = false := by
                                simp only [beq_eq_false_iff_ne]
                                exact hlastne
                              have h3 : mon.workspaceSwitch.isNone = true := by
                                rw [hsw]
                                rfl
                              rw [hdrop, h1, h2, h3]
                              rfl
                            · rw [List.getElem?_set_ne (fun he => hii he.symm)] at hws1
                              exact b4 hsw i hi hia ws1 hws1
                          · intro ws1 hws1
                            dsimp only at hws1
                            rcases List.mem_or_eq_of_mem_set hws1 with hm1 | he1
                            · exact b6 ws1 hm1
                            · rw [he1]
                              obtain ⟨k2, k3⟩ := b6 ws (List.mem_iff_getElem?.mpr ⟨idx, hcol⟩)
                              refine ⟨by rw [t6]; exact k2, ?_⟩
                              rw [t7, t5]
                              exact k3
                        · intro ws1 hws1
                          dsimp only at hws1
                          rcases List.mem_or_eq_of_mem_set hws1 with hm1 | he1
                          · exact ⟨ws1, hm1, rfl⟩
                          · rw [he1]
                            exact ⟨ws, List.mem_iff_getElem?.mpr ⟨idx, hcol⟩, t3⟩
                        · intro w hwne hw
                          dsimp only
                          refine any_set_mono _ _ _ _ ?_ hw
                          intro x hx hpx
                          rw [hcol] at hx
                          simp only [Option.mem_def, Option.some.injEq] at hx
                          rw [← hx] at hpx
                          exact t8 w hwne hpx

theorem inv_removeWindowMain (L : Layout) (wid : Nat) (h : L.Inv)
    (hnw : ∀ w pd pr, L.interactiveMove = some (.starting w pd pr) → w ≠ wid) :
    (L.removeWindowMain wid).2.Inv := by
  obtain ⟨hcore, him⟩ := h
  unfold Layout.removeWindowMain
  cases hms : L.monitorSet with
  | normal monitors p a =>
      dsimp only
      rw [hms] at hcore him
      cases hrm : removeWindowFromMonitors wid monitors with
      | mk r monitors2 =>
          dsimp only
          rcases removeWindowFromMonitors_spec wid L.options monitors hcore.2.2.2.2.1 with
            hsame | ⟨k, m, m', hk, hset, hinv, hout, horig, hany⟩
          · rw [hrm] at hsame
            dsimp only at hsame
            constructor
            · rw [hsame]
              exact hcore
            · cases hi : L.interactiveMove with
              | none => simp only [imOkCore]
              | some st =>
                  cases st with
                  | moving mv => simp only [imOkCore]
                  | starting w pd pr =>
                      rw [hi] at him
                      simp only [imOkCore, MonitorSet.hasWindowMS] at him ⊢
                      rw [hsame]
                      exact him
          · rw [hrm] at hset
            dsimp only at hset
            constructor
            · rw [hset]
              refine invCore_set monitors p a k m' L.options hcore ?_
              intro m0 hm0
              rw [hk] at hm0
              simp only [Option.mem_def, Option.some.injEq] at hm0
              subst hm0
              exact ⟨hinv, hout, fun ws hws => Or.inr (horig ws hws)⟩
            · cases hi : L.interactiveMove with
              | none => simp only [imOkCore]
              | some st =>
                  cases st with
                  | moving mv => simp only [imOkCore]
                  | starting w pd pr =>
                      rw [hi] at him
                      simp only [imOkCore, MonitorSet.hasWindowMS] at him ⊢
                      rw [hset]
                      refine any_set_mono _ _ _ _ ?_ him
                      intro x hx hpx
                      rw [hk] at hx
                      simp only [Option.mem_def, Option.some.injEq] at hx
                      subst hx
                      exact hany w (hnw w pd pr hi) hpx
  | noOutputs wss =>
      dsimp only
      rw [hms] at hcore him
      cases hrm : removeWindowFromParked wid wss with
      | mk r wss2 =>
          dsimp only
          obtain ⟨ih1, ih2⟩ := removeWindowFromParked_spec wid L.options wss hcore
          rw [hrm] at ih1 ih2
          constructor
          · exact ih1
          · cases hi : L.interactiveMove with
            | none => simp only [imOkCore]
            | some st =>
                cases st with
                | moving mv => simp only [imOkCore]
                | starting w pd pr =>
                    rw [hi] at him
                    simp only [imOkCore, MonitorSet.hasWindowMS] at him ⊢
                    exact ih2 w (hnw w pd pr hi) him

theorem inv_interactiveMoveEndStarting (L : Layout) (wid : Nat) (h : L.Inv) :
    (L.interactiveMoveEndStarting wid).Inv := by
  have h1 := inv_applyToWindowWs L wid
    (fun ws => ws.updateTileFirst wid fun t => { t with moveOffset := (0, 0) })
    (fun ws => updateTileFirst_shape ws wid _ fun t => rfl) h
  exact ⟨h1.1, trivial⟩

theorem inv_removeWindow (L : Layout) (wid : Nat) (h : L.Inv) :
    (L.removeWindow wid).2.Inv := by
  unfold Layout.removeWindow
  cases hi : L.interactiveMove with
  | none =>
      dsimp only
      refine inv_removeWindowMain L wid h ?_
      intro w pd pr he
      rw [hi] at he
      exact Option.noConfusion he
  | some st =>
      cases st with
      | starting windowId pd0 pr0 =>
          dsimp only
          split
          · rename_i heq
            refine inv_removeWindowMain _ wid (inv_interactiveMoveEndStarting L wid h) ?_
            intro w pd pr he
            exact Option.noConfusion he
          · rename_i heq
            refine inv_removeWindowMain L wid h ?_
            intro w pd pr he
            rw [hi] at he
            injection he with he2
            injection he2 with h1 h2 h3
            intro hwwid
            exact heq (by rw [h1, hwwid])
      | moving mv =>
          dsimp only
          split
          · dsimp only
            exact ⟨h.1, trivial⟩
          · rename_i heq
            refine inv_removeWindowMain L wid h ?_
            intro w pd pr he
            rw [hi] at he
            exact absurd he (by simp)

theorem applyToWindowWs_hasWindowMS (L : Layout) (wid w : Nat)
    (f : Workspace → Workspace) (hf : ∀ ws, WsShapeEq (f ws) ws) :
    (L.applyToWindowWs wid f).monitorSet.hasWindowMS w =
      L.monitorSet.hasWindowMS w := by
  unfold Layout.applyToWindowWs
  cases hms : L.monitorSet with
  | normal monitors p a =>
      dsimp only
      simp only [MonitorSet.hasWindowMS]
      exact updateFirstMonWith_hasWindow wid w f hf monitors
  | noOutputs wss =>
      dsimp only
      simp only [MonitorSet.hasWindowMS]
      exact updateFirstWsWith_any wid f wss _ fun ws => (hf ws).2.2.2.2.2.2.2.2 w

theorem inv_interactiveMoveUpdate (L : Layout) (wid : Nat) (delta : ℚ × ℚ)
    (out : Output) (pointerPos : ℚ × ℚ) (h : L.Inv) :
    (L.interactiveMoveUpdate wid delta out pointerPos).Inv := by
  unfold Layout.interactiveMoveUpdate
  cases hi : L.interactiveMove with
  | none => exact h
  | some st =>
      cases st with
      | starting windowId pd0 ratio =>
          dsimp only
          split
          · exact h
          · rename_i hne
            have hwide : windowId = wid := not_ne_iff.mp hne
            have hhw : L.monitorSet.hasWindowMS wid = true := by
              have him := h.2
              rw [hi] at him
              simp only [imOkCore] at him
              rw [← hwide]
              exact him
            have hshape : ∀ ws : Workspace, WsShapeEq
                (ws.updateTileFirst wid fun t =>
                  { t with moveOffset :=
                      ((pd0.1 + delta.1) *
                        RubberBand.band { stiffness := 1, limit := 1 / 2 }
                          (((pd0.1 + delta.1) * (pd0.1 + delta.1) +
                            (pd0.2 + delta.2) * (pd0.2 + delta.2)) /
                            interactiveMoveStartThreshold),
                       (pd0.2 + delta.2) *
                        RubberBand.band { stiffness := 1, limit := 1 / 2 }
                          (((pd0.1 + delta.1) * (pd0.1 + delta.1) +
                            (pd0.2 + delta.2) * (pd0.2 + delta.2)) /
                            interactiveMoveStartThreshold)) }) ws :=
              fun ws => updateTileFirst_shape ws wid _ fun t => rfl
            have hL1 : Layout.Inv { L.updateFirstTile wid fun t =>
                { t with moveOffset :=
                    ((pd0.1 + delta.1) *
                      RubberBand.band { stiffness := 1, limit := 1 / 2 }
                        (((pd0.1 + delta.1) * (pd0.1 + delta.1) +
                          (pd0.2 + delta.2) * (pd0.2 + delta.2)) /
                          interactiveMoveStartThreshold),
                     (pd0.2 + delta.2) *
                      RubberBand.band { stiffness := 1, limit := 1 / 2 }
                        (((pd0.1 + delta.1) * (pd0.1 + delta.1) +
                          (pd0.2 + delta.2) * (pd0.2 + delta.2)) /
                          interactiveMoveStartThreshold)) } with
                interactiveMove :=
                  some (.starting wid (pd0.1 + delta.1, pd0.2 + delta.2) ratio) } := by
              constructor
              · exact (inv_applyToWindowWs L wid _ hshape h).1
              · simp only [imOkCore]
                unfold Layout.updateFirstTile
                rw [applyToWindowWs_hasWindowMS L wid wid _ hshape]
                exact hhw
            split
            · exact hL1
            · cases hrw : Layout.removeWindow { L.updateFirstTile wid fun t =>
                  { t with moveOffset :=
                      ((pd0.1 + delta.1) *
                        RubberBand.band { stiffness := 1, limit := 1 / 2 }
                          (((pd0.1 + delta.1) * (pd0.1 + delta.1) +
                            (pd0.2 + delta.2) * (pd0.2 + delta.2)) /
                            interactiveMoveStartThreshold),
                       (pd0.2 + delta.2) *
                        RubberBand.band { stiffness := 1, limit := 1 / 2 }
                          (((pd0.1 + delta.1) * (pd0.1 + delta.1) +
                            (pd0.2 + delta.2) * (pd0.2 + delta.2)) /
                            interactiveMoveStartThreshold)) } with
                  interactiveMove :=
                    some (.starting wid (pd0.1 + delta.1, pd0.2 + delta.2) ratio) } wid with
              | mk r L2 =>
                  cases r with
                  | none => exact hL1
                  | some removed =>
                      dsimp only
                      have hL2 : L2.Inv := by
                        have := inv_removeWindow _ wid hL1
                        rw [hrw] at this
                        exact this
                      exact ⟨hL2.1, trivial⟩
      | moving mv =>
          dsimp only
          split
          · exact h
          · rename_i hne
            split
            · rename_i hout
              dsimp only
              exact ⟨(inv_focusOutput L out.name h).1, trivial⟩
            · dsimp only
              exact ⟨h.1, trivial⟩

theorem length_filter_not {α : Type _} (l : List α) (p : α → Bool) :
    (l.filter fun x => !(p x)).length + (l.filter p).length = l.length := by
  induction l with
  | nil => rfl
  | cons a t ih =>
      cases hp : p a <;> simp [List.filter_cons, hp] <;> omega

theorem length_filter_lt_of_mem {α : Type _} (l : List α) (p : α → Bool) (x : α)
    (hx : x ∈ l) (hp : p x = false) : (l.filter p).length < l.length := by
  induction l with
  | nil => exact absurd hx (List.not_mem_nil x)
  | cons a t ih =>
      rcases List.mem_cons.mp hx with he | hm
      · subst he
        have := List.length_filter_le p t
        simp [List.filter_cons, hp]
        omega
      · cases hpa : p a
        · have := List.length_filter_le p t
          simp [List.filter_cons, hpa]
          omega
        · have := ih hm
          simp [List.filter_cons, hpa]
          omega

theorem filter_getLast {α : Type _} (p : α → Bool) :
    ∀ (l : List α) (x : α), l.getLast? = some x → p x = true →
      (l.filter p).getLast? = some x := by
  intro l
  induction l with
  | nil => intro x h _; simp at h
  | cons a t ih =>
      intro x h hp
      cases t with
      | nil =>
          simp only [List.getLast?_singleton, Option.some.injEq] at h
          subst h
          simp only [List.filter_cons, hp]
          rfl
      | cons b t2 =>
          rw [getLast?_cons_ne a (b :: t2) (by simp)] at h
          have hrec := ih x h hp
          have hne : (b :: t2).filter p ≠ [] := by
            intro hnil
            rw [hnil] at hrec
            simp at hrec
          rw [List.filter_cons]
          cases hpa : p a
          · rw [if_neg (by simp)]
            exact hrec
          · rw [if_pos rfl]
            rw [getLast?_cons_ne a _ hne]
            exact hrec

theorem filter_getElem?_exists {α : Type _} (p : α → Bool) :
    ∀ (l : List α) (j2 : Nat) (w : α), (l.filter p)[j2]? = some w →
      ∃ j, l[j]? = some w ∧ p w = true ∧ ((l.take j).filter p).length = j2 := by
  intro l
  induction l with
  | nil => intro j2 w h; simp at h
  | cons a t ih =>
      intro j2 w h
      cases hpa : p a
      · rw [List.filter_cons, hpa, if_neg (by simp)] at h
        obtain ⟨j, hj, hpw, hcnt⟩ := ih j2 w h
        refine ⟨j + 1, by simpa using hj, hpw, ?_⟩
        rw [List.take_succ_cons, List.filter_cons, hpa, if_neg (by simp)]
        exact hcnt
      · rw [List.filter_cons, hpa, if_pos rfl] at h
        cases j2 with
        | zero =>
            simp only [List.getElem?_cons_zero, Option.some.injEq] at h
            subst h
            exact ⟨0, by simp, hpa, by simp⟩
        | succ j2 =>
            simp only [List.getElem?_cons_succ] at h
            obtain ⟨j, hj, hpw, hcnt⟩ := ih j2 w h
            refine ⟨j + 1, by simpa using hj, hpw, ?_⟩
            rw [List.take_succ_cons, List.filter_cons, hpa, if_pos rfl,
              List.length_cons]
            omega

theorem setOutput_some_shape (ws : Workspace) (o : Output) :
    (ws.setOutput (some o)).name = ws.name ∧
    (ws.setOutput (some o)).id = ws.id ∧
    (ws.setOutput (some o)).originalOutput = ws.originalOutput ∧
    (ws.setOutput (some o)).columns = ws.columns ∧
    (ws.setOutput (some o)).scale = o.scale ∧
    (ws.setOutput (some o)).baseOptions = ws.baseOptions ∧
    (ws.setOutput (some o)).options = ws.baseOptions.adjustedForScale o.scale ∧
    (ws.setOutput (some o)).hasWindows = ws.hasWindows ∧
    (ws.setOutput (some o)).keepable = ws.keepable ∧
    ∀ w, (ws.setOutput (some o)).hasWindow w = ws.hasWindow w := by
  refine ⟨rfl, rfl, rfl, rfl, rfl, rfl, rfl, rfl, rfl, fun w => rfl⟩

theorem addOutput_primary_core (primary : Monitor) (opts : Opts) (oname : Nat)
    (hbase : primary.invariant opts) (hone : primary.output.name ≠ oname) :
    (primary.workspaces.filter fun w => !decide (w.originalOutput = oname)) ≠ [] ∧
    primary.activeWorkspaceIdx -
      ((primary.workspaces.take (primary.activeWorkspaceIdx + 1)).filter fun w =>
        decide (w.originalOutput = oname)).length <
      (primary.workspaces.filter fun w => !decide (w.originalOutput = oname)).length ∧
    (∀ last ∈ (primary.workspaces.filter fun w =>
        !decide (w.originalOutput = oname)).getLast?,
      last.columns = [] ∧ last.name = none ∧ last.originalOutput = primary.output.name) ∧
    ∀ ws1 ∈ (primary.workspaces.filter fun w => !decide (w.originalOutput = oname)),
      ws1.baseOptions = opts ∧ ws1.options = opts.adjustedForScale ws1.scale := by
  obtain ⟨b1, b2, b3, b4, b5, b6⟩ := hbase
  have hn : 0 < primary.workspaces.length := List.length_pos.mpr b1
  obtain ⟨last, hlastget⟩ : ∃ last, primary.workspaces.getLast? = some last := by
    rw [List.getLast?_eq_getElem?]
    exact ⟨_, List.getElem?_eq_getElem (by omega)⟩
  obtain ⟨hl1, hl2, hl3⟩ := b3 last hlastget
  have hkeeplast : (!decide (last.originalOutput = oname)) = true := by
    simp [hl3, hone]
  have hfltlast : (primary.workspaces.filter fun w =>
      !decide (w.originalOutput = oname)).getLast? = some last :=
    filter_getLast _ _ last hlastget hkeeplast
  have hfltne : (primary.workspaces.filter fun w =>
      !decide (w.originalOutput = oname)) ≠ [] := by
    intro hnil
    rw [hnil] at hfltlast
    simp at hfltlast
  have hlastmem : last ∈ primary.workspaces := by
    rw [List.getLast?_eq_getElem?] at hlastget
    exact List.mem_iff_getElem?.mpr ⟨_, hlastget⟩
  have hpml : decide (last.originalOutput = oname) = false := by
    simp [hl3, hone]
  refine ⟨hfltne, ?_, ?_, ?_⟩
  · have h1 := length_filter_not primary.workspaces
      fun w => decide (w.originalOutput = oname)
    by_cases hc : primary.activeWorkspaceIdx = primary.workspaces.length - 1
    · have htake : primary.workspaces.take (primary.activeWorkspaceIdx + 1) =
          primary.workspaces := List.take_of_length_le (by omega)
      rw [htake]
      have h2 := length_filter_lt_of_mem primary.workspaces
        (fun w => decide (w.originalOutput = oname)) last hlastmem hpml
      omega
    · have hsplit := congrArg
        (fun l2 => (l2.filter fun w => decide (w.originalOutput = oname)).length)
        (List.take_append_drop (primary.activeWorkspaceIdx + 1) primary.workspaces)
      simp only [List.filter_append, List.length_append] at hsplit
      have hlastdrop : last ∈ primary.workspaces.drop (primary.activeWorkspaceIdx + 1) := by
        refine List.mem_iff_getElem?.mpr
          ⟨primary.workspaces.length - 1 - (primary.activeWorkspaceIdx + 1), ?_⟩
        rw [List.getElem?_drop]
        rw [show primary.activeWorkspaceIdx + 1 +
          (primary.workspaces.length - 1 - (primary.activeWorkspaceIdx + 1)) =
          primary.workspaces.length - 1 from by omega]
        rw [← List.getLast?_eq_getElem?]
        exact hlastget
      have h2 := length_filter_lt_of_mem _
        (fun w => decide (w.originalOutput = oname)) last hlastdrop hpml
      rw [List.length_drop] at h2
      have h3 := List.length_filter_le
        (fun w => decide (w.originalOutput = oname))
        (primary.workspaces.take (primary.activeWorkspaceIdx + 1))
      rw [List.length_take] at h3
      have h4 : min (primary.activeWorkspaceIdx + 1) primary.workspaces.length =
          primary.activeWorkspaceIdx + 1 := by omega
      rw [h4] at h3
      omega
  · intro last2 hlast2
    rw [hfltlast] at hlast2
    simp only [Option.mem_def, Option.some.injEq] at hlast2
    subst hlast2
    exact ⟨hl1, hl2, hl3⟩
  · intro ws1 hws1
    exact b6 ws1 (List.mem_filter.mp hws1).1

theorem addOutput_primary_invariant (primary : Monitor) (opts : Opts) (oname : Nat)
    (hbase : primary.invariant opts) (hone : primary.output.name ≠ oname)
    (hstop : primary.workspaceSwitch = none ∨
      ¬(primary.workspaces.any fun w => decide (w.originalOutput = oname)) = true) :
    ({ primary with
        workspaces := primary.workspaces.filter fun w => !decide (w.originalOutput = oname)
        activeWorkspaceIdx := primary.activeWorkspaceIdx -
          ((primary.workspaces.take (primary.activeWorkspaceIdx + 1)).filter fun w =>
            decide (w.originalOutput = oname)).length
        workspaceSwitch :=
          if primary.workspaces.any (fun w => decide (w.originalOutput = oname)) then none
          else primary.workspaceSwitch } : Monitor).invariant opts := by
  obtain ⟨hc1, hc2, hc3, hc4⟩ := addOutput_primary_core primary opts oname hbase hone
  obtain ⟨b1, b2, b3, b4, b5, b6⟩ := hbase
  refine ⟨hc1, hc2, hc3, ?_, b5, hc4⟩
  intro hsw j2 hj2 hja ws1 hws1
  dsimp only at hsw hj2 hja hws1
  have hswor : primary.workspaceSwitch = none := by
    rcases hstop with hs | hs
    · exact hs
    · rw [if_neg hs] at hsw
      exact hsw
  obtain ⟨j, hj, hpw1, hcnt⟩ := filter_getElem?_exists _ primary.workspaces j2 ws1 hws1
  have hjlt : j < primary.workspaces.length := (List.getElem?_eq_some.mp hj).1
  by_cases hkeep : ws1.keepable = true
  · exact hkeep
  exfalso
  by_cases hja2 : j = primary.activeWorkspaceIdx
  · rw [hja2] at hj
    refine hja ?_
    rw [← hcnt, hja2]
    have htakes : primary.workspaces.take (primary.activeWorkspaceIdx + 1) =
        primary.workspaces.take primary.activeWorkspaceIdx ++ [ws1] := by
      rw [List.take_succ, hj]
      rfl
    rw [htakes, List.filter_append, List.length_append]
    have hpmw : decide (ws1.originalOutput = oname) = false := by
      simp only [Bool.not_eq_true'] at hpw1
      exact hpw1
    have h5 : ([ws1].filter fun w => decide (w.originalOutput = oname)).length = 0 := by
      simp [List.filter_cons, hpmw]
    rw [h5]
    have h6 := length_filter_not (primary.workspaces.take primary.activeWorkspaceIdx)
      fun w => decide (w.originalOutput = oname)
    rw [List.length_take] at h6
    have h7 : min primary.activeWorkspaceIdx primary.workspaces.length =
        primary.activeWorkspaceIdx := by omega
    rw [h7] at h6
    omega
  · by_cases hjl : j = primary.workspaces.length - 1
    · subst hjl
      have hws1last : primary.workspaces.getLast? = some ws1 := by
        rw [List.getLast?_eq_getElem?]
        exact hj
      have hdropone : primary.workspaces.drop (primary.workspaces.length - 1) = [ws1] := by
        have hdl : (primary.workspaces.drop (primary.workspaces.length - 1)).length = 1 := by
          rw [List.length_drop]
          omega
        cases hd : primary.workspaces.drop (primary.workspaces.length - 1) with
        | nil => rw [hd] at hdl; simp at hdl
        | cons x t =>
            have hx : x = ws1 := by
              have h9 : primary.workspaces[primary.workspaces.length - 1 + 0]? =
                  (x :: t)[0]? := by
                rw [← List.getElem?_drop, hd]
              rw [Nat.add_zero, hj] at h9
              simp only [List.getElem?_cons_zero] at h9
              injection h9 with h9
              exact h9.symm
            have ht : t = [] := by
              rw [hd] at hdl
              simp only [List.length_cons] at hdl
              rw [← List.length_eq_zero]
              omega
            rw [hx, ht]
      have hdecomp : primary.workspaces =
          primary.workspaces.take (primary.workspaces.length - 1) ++ [ws1] := by
        conv =>
          lhs
          rw [← List.take_append_drop (primary.workspaces.length - 1) primary.workspaces]
        rw [hdropone]
      have hlenflt : (primary.workspaces.filter fun w =>
          !decide (w.originalOutput = oname)).length = j2 + 1 := by
        conv =>
          lhs
          rw [hdecomp]
        rw [List.filter_append, List.length_append, hcnt]
        have h8 : ([ws1].filter fun w => !decide (w.originalOutput = oname)).length = 1 := by
          simp [List.filter_cons, hpw1]
        omega
      omega
    · have hkp := b4 hswor j (by omega) hja2 ws1 hj
      exact hkeep hkp

theorem addOutput_newMon_invariant (o : Output) (opts : Opts)
    (collected : List Workspace) (freshId : Nat)
    (hcol : ∀ w ∈ collected, w.keepable = true ∧ w.baseOptions = opts) :
    (Monitor.mkNew o ((collected ++ [Workspace.fresh o freshId opts]).map
      fun ws => ws.setOutput (some o)) opts).invariant opts := by
  have hwseq : (Monitor.mkNew o ((collected ++ [Workspace.fresh o freshId opts]).map
      fun ws => ws.setOutput (some o)) opts).workspaces =
      (collected ++ [Workspace.fresh o freshId opts]).map
        (fun ws => ws.setOutput (some o)) := rfl
  have hacteq : (Monitor.mkNew o ((collected ++ [Workspace.fresh o freshId opts]).map
      fun ws => ws.setOutput (some o)) opts).activeWorkspaceIdx = 0 := rfl
  refine ⟨?_, ?_, ?_, ?_, rfl, ?_⟩
  · rw [hwseq]
    simp
  · rw [hwseq, hacteq]
    simp
  · intro last hlast
    show last.columns = [] ∧ last.name = none ∧ last.originalOutput = o.name
    rw [hwseq] at hlast
    rw [List.getLast?_map, List.getLast?_concat] at hlast
    rw [show Option.map (fun ws => ws.setOutput (some o))
      (some (Workspace.fresh o freshId opts)) =
      some ((Workspace.fresh o freshId opts).setOutput (some o)) from rfl] at hlast
    simp only [Option.mem_def, Option.some.injEq] at hlast
    subst hlast
    exact ⟨rfl, rfl, rfl⟩
  · intro _ i hi hia ws1 hws1
    show ws1.keepable = true
    rw [hwseq] at hws1
    rw [List.getElem?_map] at hws1
    have hi2 : i < collected.length := by
      rw [hwseq] at hi
      simp only [List.length_map, List.length_append, List.length_cons,
        List.length_nil] at hi
      omega
    rw [List.getElem?_append] at hws1
    rw [if_pos hi2] at hws1
    cases hcg : collected[i]? with
    | none =>
        rw [hcg] at hws1
        simp at hws1
    | some w0 =>
        rw [hcg] at hws1
        rw [show Option.map (fun ws => ws.setOutput (some o)) (some w0) =
          some (w0.setOutput (some o)) from rfl] at hws1
        simp only [Option.mem_def, Option.some.injEq] at hws1
        subst hws1
        rw [(setOutput_some_shape w0 o).2.2.2.2.2.2.2.2.1]
        exact (hcol w0 (List.mem_iff_getElem?.mpr ⟨i, hcg⟩)).1
  · intro ws1 hws1
    rw [hwseq] at hws1
    rcases List.mem_map.mp hws1 with ⟨w0, hw0, he⟩
    obtain ⟨s1, s2, s3, s4, s5, s6, s7, s8, s9, s10⟩ := setOutput_some_shape w0 o
    have hbo : w0.baseOptions = opts := by
      rcases List.mem_append.mp hw0 with hm | hm
      · exact (hcol w0 hm).2
      · simp only [List.mem_singleton] at hm
        subst hm
        rfl
    constructor
    · rw [← he, s6]
      exact hbo
    · rw [← he, s7, s5, hbo]

theorem inv_addOutput_assemble (L : Layout) (o : Output) (monitors : List Monitor)
    (primaryIdx activeMonitorIdx : Nat) (primary primary2 : Monitor)
    (hcore : MonitorSet.invCore (.normal monitors primaryIdx activeMonitorIdx) L.options)
    (him : imOkCore (.normal monitors primaryIdx activeMonitorIdx) L.interactiveMove)
    (hvalid : (monitors.any fun m => m.output.name == o.name) = false)
    (hpm : monitors[primaryIdx]? = some primary)
    (hp2inv : primary2.invariant L.options)
    (hp2out : primary2.output = primary.output)
    (hp2ws : ∀ ws1 ∈ primary2.workspaces,
      ws1 ∈ primary.workspaces.filter fun w => !decide (w.originalOutput = o.name))
    (hp2any : ∀ w, ((primary.workspaces.filter fun w2 =>
        !decide (w2.originalOutput = o.name)).any fun ws => ws.hasWindow w) = true →
      (primary2.workspaces.any fun ws => ws.hasWindow w) = true) :
    Layout.Inv { L with
      monitorSet := .normal ((monitors.set primaryIdx primary2) ++
        [Monitor.mkNew o
          (((primary.workspaces.filter fun w =>
              decide (w.originalOutput = o.name) &&
                (w.hasWindows || w.name.isSome)) ++
            [Workspace.fresh o L.nextWsId L.options]).map
            fun ws => ws.setOutput (some o)) L.options])
        primaryIdx activeMonitorIdx
      nextWsId := L.nextWsId + 1 } := by
  obtain ⟨c1, c2, c3, c4, c5, c6, c7⟩ := hcore
  have houts : ∀ m ∈ monitors, m.output.name ≠ o.name := by
    intro m hm
    have := List.any_eq_false.mp hvalid m hm
    simpa using this
  have hpmem : primary ∈ monitors := List.mem_iff_getElem?.mpr ⟨primaryIdx, hpm⟩
  obtain ⟨b1, b2, b3, b4, b5, b6⟩ := c5 primary hpmem
  have hColProp : ∀ w ∈ (primary.workspaces.filter fun w =>
      decide (w.originalOutput = o.name) && (w.hasWindows || w.name.isSome)),
      w.keepable = true ∧ w.baseOptions = L.options := by
    intro w hw
    obtain ⟨hmem, hcond⟩ := List.mem_filter.mp hw
    rw [Bool.and_eq_true] at hcond
    exact ⟨hcond.2, (b6 w hmem).1⟩
  have hnewinv := addOutput_newMon_invariant o L.options _ L.nextWsId hColProp
  have hplt : primaryIdx < monitors.length := (List.getElem?_eq_some.mp hpm).1
  have hsetp : (monitors.set primaryIdx primary2)[primaryIdx]? = some primary2 :=
    List.getElem?_set_self (by simpa using hplt)
  constructor
  · refine ⟨by simp, ?_, ?_, ?_, ?_, ?_, ?_⟩
    · simp only [List.length_append, List.length_set, List.length_cons, List.length_nil]
      omega
    · simp only [List.length_append, List.length_set, List.length_cons, List.length_nil]
      omega
    · rw [List.map_append, List.map_set]
      have hx : (monitors.map fun mm => mm.output.name)[primaryIdx]? =
          some primary2.output.name := by
        rw [List.getElem?_map, hpm, hp2out]
        rfl
      rw [set_self_of_getElem _ _ _ hx]
      rw [List.nodup_append]
      refine ⟨c4, List.nodup_singleton _, ?_⟩
      rw [show (List.map (fun m => m.output.name)
        [Monitor.mkNew o
          (((primary.workspaces.filter fun w =>
              decide (w.originalOutput = o.name) &&
                (w.hasWindows || w.name.isSome)) ++
            [Workspace.fresh o L.nextWsId L.options]).map
            fun ws => ws.setOutput (some o)) L.options]) = [o.name] from rfl]
      rw [List.disjoint_singleton]
      intro hmem
      rcases List.mem_map.mp hmem with ⟨m, hm, he⟩
      exact houts m hm he
    · intro m hm
      rcases List.mem_append.mp hm with hm2 | hm2
      · rcases List.mem_or_eq_of_mem_set hm2 with hm3 | he
        · exact c5 m hm3
        · rw [he]
          exact hp2inv
      · simp only [List.mem_singleton] at hm2
        rw [hm2]
        exact hnewinv
    · intro i hi hip m hm ws hws
      simp only [List.length_append, List.length_set, List.length_cons,
        List.length_nil] at hi
      by_cases hil : i < monitors.length
      · rw [List.getElem?_append, if_pos (by simpa using hil)] at hm
        rw [List.getElem?_set_ne (fun he => hip he.symm)] at hm
        exact c6 i hil hip m hm ws hws
      · have hieq : i = monitors.length := by omega
        rw [List.getElem?_append, if_neg (by simp; omega)] at hm
        rw [hieq] at hm
        simp only [List.length_set, Nat.sub_self, List.getElem?_cons_zero,
          Option.mem_def, Option.some.injEq] at hm
        rw [← hm] at hws ⊢
        rcases List.mem_map.mp hws with ⟨w0, hw0, he⟩
        rw [← he, (setOutput_some_shape w0 o).2.2.1]
        rcases List.mem_append.mp hw0 with hw2 | hw2
        · obtain ⟨_, hcond⟩ := List.mem_filter.mp hw2
          rw [Bool.and_eq_true] at hcond
          have := of_decide_eq_true hcond.1
          exact this
        · simp only [List.mem_singleton] at hw2
          rw [hw2]
          rfl
    · intro pm2 hpm2 ws hws hne m hm
      rw [List.getElem?_append, if_pos (by simpa using hplt), hsetp] at hpm2
      simp only [Option.mem_def, Option.some.injEq] at hpm2
      subst hpm2
      have hmemf := hp2ws ws hws
      obtain ⟨hmemP, hnotm⟩ := List.mem_filter.mp hmemf
      have hnoto : ws.originalOutput ≠ o.name := by
        simpa using hnotm
      rw [hp2out] at hne
      rcases List.mem_append.mp hm with hm2 | hm2
      · have hout2 : m.output.name ∈ monitors.map fun mm => mm.output.name := by
          rcases List.mem_or_eq_of_mem_set hm2 with hm3 | he
          · exact List.mem_map_of_mem _ hm3
          · rw [he, hp2out]
            exact List.mem_map_of_mem _ hpmem
        rcases List.mem_map.mp hout2 with ⟨m1, hm1, he1⟩
        rw [← he1]
        exact c7 primary (by rw [hpm]; rfl) ws hmemP hne m1 hm1
      · simp only [List.mem_singleton] at hm2
        rw [hm2]
        exact hnoto
  · cases hi : L.interactiveMove with
    | none => simp only [imOkCore]
    | some st =>
        cases st with
        | moving mv => simp only [imOkCore]
        | starting w pd pr =>
            rw [hi] at him
            simp only [imOkCore, MonitorSet.hasWindowMS] at him ⊢
            rw [List.any_eq_true] at him
            obtain ⟨mon0, hmem0, hp0⟩ := him
            obtain ⟨j, hj⟩ := List.mem_iff_getElem?.mp hmem0
            rw [List.any_append, Bool.or_eq_true]
            by_cases hjp : j = primaryIdx
            · subst hjp
              rw [hpm] at hj
              injection hj with hj
              subst hj
              rw [List.any_eq_true] at hp0
              obtain ⟨ws0, hws0, hws0w⟩ := hp0
              by_cases hm0 : decide (ws0.originalOutput = o.name) = true
              · right
                rw [List.any_eq_true]
                refine ⟨Monitor.mkNew o _ L.options, List.mem_singleton_self _, ?_⟩
                rw [show (Monitor.mkNew o
                    (((primary.workspaces.filter fun w2 =>
                        decide (w2.originalOutput = o.name) &&
                          (w2.hasWindows || w2.name.isSome)) ++
                      [Workspace.fresh o L.nextWsId L.options]).map
                      fun ws => ws.setOutput (some o)) L.options).workspaces =
                    ((primary.workspaces.filter fun w2 =>
                        decide (w2.originalOutput = o.name) &&
                          (w2.hasWindows || w2.name.isSome)) ++
                      [Workspace.fresh o L.nextWsId L.options]).map
                      (fun ws => ws.setOutput (some o)) from rfl]
                rw [List.any_eq_true]
                refine ⟨ws0.setOutput (some o), ?_, ?_⟩
                · refine List.mem_map_of_mem _ ?_
                  refine List.mem_append.mpr (Or.inl ?_)
                  rw [List.mem_filter]
                  refine ⟨hws0, ?_⟩
                  rw [Bool.and_eq_true]
                  refine ⟨hm0, ?_⟩
                  rw [hasWindow_hasWindows ws0 w hws0w]
                  rfl
                · rw [(setOutput_some_shape ws0 o).2.2.2.2.2.2.2.2.2 w]
                  exact hws0w
              · left
                rw [List.any_eq_true]
                refine ⟨primary2, List.mem_iff_getElem?.mpr ⟨_, hsetp⟩, ?_⟩
                refine hp2any w ?_
                rw [List.any_eq_true]
                refine ⟨ws0, ?_, hws0w⟩
                rw [List.mem_filter]
                refine ⟨hws0, ?_⟩
                simp only [Bool.not_eq_true']
                exact Bool.eq_false_iff.mpr hm0
            · left
              rw [List.any_eq_true]
              refine ⟨mon0, ?_, hp0⟩
              refine List.mem_iff_getElem?.mpr ⟨j, ?_⟩
              rw [List.getElem?_set_ne (fun he => hjp he.symm)]
              exact hj

theorem inv_addOutput (L : Layout) (o : Output) (hvalid : L.hasOutput o.name = false)
    (h : L.Inv) : (L.addOutput o).Inv := by
  obtain ⟨hcore, him⟩ := h
  unfold Layout.addOutput
  cases hms : L.monitorSet with
  | noOutputs wss =>
      dsimp only
      rw [hms] at hcore him
      have hnew := addOutput_newMon_invariant o L.options wss L.nextWsId
        fun w hw => ⟨(hcore w hw).1, (hcore w hw).2.1⟩
      constructor
      · refine ⟨by simp, by simp, by simp, by simp, ?_, ?_, ?_⟩
        · intro m hm
          simp only [List.mem_singleton] at hm
          rw [hm]
          exact hnew
        · intro i hi hip m hm ws hws
          simp only [List.length_cons, List.length_nil] at hi
          exact absurd (by omega) hip
        · intro p hp ws hws hne m hm
          simp only [List.getElem?_cons_zero, Option.mem_def, Option.some.injEq] at hp
          simp only [List.mem_singleton] at hm
          subst hp
          rw [hm]
          exact hne
      · cases hi : L.interactiveMove with
        | none => simp only [imOkCore]
        | some st =>
            cases st with
            | moving mv => simp only [imOkCore]
            | starting w pd pr =>
                rw [hi] at him
                simp only [imOkCore, MonitorSet.hasWindowMS] at him ⊢
                simp only [List.any_cons, List.any_nil, Bool.or_false]
                rw [show (Monitor.mkNew o
                    ((wss ++ [Workspace.fresh o L.nextWsId L.options]).map
                      fun ws => ws.setOutput (some o)) L.options).workspaces =
                    (wss ++ [Workspace.fresh o L.nextWsId L.options]).map
                      (fun ws => ws.setOutput (some o)) from rfl]
                rw [List.any_eq_true] at him ⊢
                obtain ⟨ws0, hws0, hpw⟩ := him
                refine ⟨ws0.setOutput (some o), ?_, ?_⟩
                · exact List.mem_map_of_mem _ (List.mem_append.mpr (Or.inl hws0))
                · rw [(setOutput_some_shape ws0 o).2.2.2.2.2.2.2.2.2 w]
                  exact hpw
  | normal monitors primaryIdx activeMonitorIdx =>
      dsimp only
      rw [hms] at hcore him
      have hvalid2 : (monitors.any fun m => m.output.name == o.name) = false := by
        unfold Layout.hasOutput at hvalid
        rw [hms] at hvalid
        exact hvalid
      cases hpm : monitors[primaryIdx]? with
      | none =>
          dsimp only
          exact ⟨by rw [hms]; exact hcore, by rw [hms]; exact him⟩
      | some primary =>
          dsimp only
          have hs := addOutputGo_spec o.name primary.workspaces []
            { wss := primary.workspaces
              activeIdx := primary.activeWorkspaceIdx
              collected := []
              switch := primary.workspaceSwitch
              stopped := false } (by rw [List.append_nil])
          rw [hs]
          dsimp only
          simp only [List.append_nil, List.nil_append, Bool.false_or,
            List.reverse_reverse]
          have hpone : primary.output.name ≠ o.name := by
            have := List.any_eq_false.mp hvalid2 primary
              (List.mem_iff_getElem?.mpr ⟨primaryIdx, hpm⟩)
            simpa using this
          have hpinv := hcore.2.2.2.2.1 primary
            (List.mem_iff_getElem?.mpr ⟨primaryIdx, hpm⟩)
          obtain ⟨hcc1, hcc2, hcc3, hcc4⟩ :=
            addOutput_primary_core primary L.options o.name hpinv hpone
          split
          · rename_i hstop
            refine inv_addOutput_assemble L o monitors primaryIdx activeMonitorIdx
              primary _ hcore him hvalid2 hpm ?_ ?_ ?_ ?_
            · refine invariant_cleanUpWorkspaces _ L.options hcc1 hcc2 hcc3
                hpinv.2.2.2.2.1 hcc4
            · rfl
            · intro ws1 hws1
              exact cleanUpWorkspaces_mem _ ws1 hws1
            · intro w hw
              rw [cleanUpWorkspaces_hasWindow]
              exact hw
          · rename_i hstop
            have hstop2 : primary.workspaceSwitch = none ∨
                ¬(primary.workspaces.any fun w =>
                  decide (w.originalOutput = o.name)) = true := by
              cases hsw : primary.workspaceSwitch with
              | none => exact Or.inl rfl
              | some sw =>
                  right
                  intro hany
                  refine hstop ?_
                  rw [hsw, hany]
                  rfl
            refine inv_addOutput_assemble L o monitors primaryIdx activeMonitorIdx
              primary _ hcore him hvalid2 hpm ?_ ?_ ?_ ?_
            · exact addOutput_primary_invariant primary L.options o.name hpinv hpone hstop2
            · rfl
            · intro ws1 hws1
              exact hws1
            · intro w hw
              exact hw

theorem setOutput_none_shape (ws : Workspace) :
    (ws.setOutput none).name = ws.name ∧
    (ws.setOutput none).id = ws.id ∧
    (ws.setOutput none).originalOutput = ws.originalOutput ∧
    (ws.setOutput none).columns = ws.columns ∧
    (ws.setOutput none).scale = ws.scale ∧
    (ws.setOutput none).baseOptions = ws.baseOptions ∧
    (ws.setOutput none).options = ws.options ∧
    (ws.setOutput none).hasWindows = ws.hasWindows ∧
    (ws.setOutput none).keepable = ws.keepable ∧
    ∀ w, (ws.setOutput none).hasWindow w = ws.hasWindow w :=
  ⟨rfl, rfl, rfl, rfl, rfl, rfl, rfl, rfl, rfl, fun w => rfl⟩

theorem dropLast_any (l : List Workspace) (w : Nat)
    (hlast : ∀ x ∈ l.getLast?, x.columns = [])
    (h : (l.any fun ws => ws.hasWindow w) = true) :
    (l.dropLast.any fun ws => ws.hasWindow w) = true := by
  rw [List.any_eq_true] at h ⊢
  obtain ⟨ws0, hmem, hw0⟩ := h
  obtain ⟨k, hk⟩ := List.mem_iff_getElem?.mp hmem
  have hklt : k < l.length := (List.getElem?_eq_some.mp hk).1
  have hkne : k ≠ l.length - 1 := by
    intro he
    have hg : l.getLast? = some ws0 := by
      rw [List.getLast?_eq_getElem?, ← he]
      exact hk
    have hc := hlast ws0 hg
    unfold Workspace.hasWindow at hw0
    rw [hc] at hw0
    simp at hw0
  refine ⟨ws0, ?_, hw0⟩
  refine List.mem_iff_getElem?.mpr ⟨k, ?_⟩
  rw [List.getElem?_dropLast, if_pos (by omega)]
  exact hk

theorem removeOutput_primary_base (pb : Monitor) (opts : Opts) (ws2l : List Workspace)
    (lastB : Workspace)
    (hpb : pb.invariant opts)
    (hws2 : ∀ ws ∈ ws2l, ws.keepable = true ∧ ws.baseOptions = opts ∧
      ws.options = opts.adjustedForScale ws.scale)
    (hlastB : pb.workspaces.getLast? = some lastB) :
    (pb.workspaces.dropLast ++ ws2l ++ [lastB]) ≠ [] ∧
    ((pb.workspaces.dropLast ++ ws2l ++ [lastB]).getLast? = some lastB) ∧
    (lastB.columns = [] ∧ lastB.name = none ∧ lastB.originalOutput = pb.output.name) ∧
    (∀ ws1 ∈ pb.workspaces.dropLast ++ ws2l ++ [lastB],
       ws1.baseOptions = opts ∧ ws1.options = opts.adjustedForScale ws1.scale) ∧
    (∀ j2 < (pb.workspaces.dropLast ++ ws2l ++ [lastB]).length - 1,
       j2 ≥ pb.workspaces.length - 1 →
       ∀ ws1 ∈ (pb.workspaces.dropLast ++ ws2l ++ [lastB])[j2]?, ws1.keepable = true) ∧
    (∀ j2 < pb.workspaces.length - 1,
       (pb.workspaces.dropLast ++ ws2l ++ [lastB])[j2]? = pb.workspaces[j2]?) := by
  obtain ⟨p1, p2, p3, p4, p5, p6⟩ := hpb
  refine ⟨by simp, ?_, p3 lastB hlastB, ?_, ?_, ?_⟩
  · exact List.getLast?_concat _
  · intro ws1 hws1
    rcases List.mem_append.mp hws1 with hw2 | hw2
    · rcases List.mem_append.mp hw2 with hw3 | hw3
      · exact p6 ws1 ((List.dropLast_sublist _).subset hw3)
      · exact ⟨(hws2 ws1 hw3).2.1, (hws2 ws1 hw3).2.2⟩
    · simp only [List.mem_singleton] at hw2
      rw [hw2]
      refine p6 lastB ?_
      rw [List.getLast?_eq_getElem?] at hlastB
      exact List.mem_iff_getElem?.mpr ⟨_, hlastB⟩
  · intro j2 hj2 hge ws1 hws1
    simp only [List.length_append, List.length_dropLast, List.length_cons,
      List.length_nil] at hj2
    rw [List.getElem?_append] at hws1
    rw [if_pos (by simp only [List.length_append, List.length_dropLast]; omega)] at hws1
    rw [List.getElem?_append] at hws1
    rw [if_neg (by rw [List.length_dropLast]; omega)] at hws1
    rw [List.length_dropLast] at hws1
    exact (hws2 ws1 (List.mem_iff_getElem?.mpr ⟨_, hws1⟩)).1
  · intro j2 hj2
    rw [List.getElem?_append]
    rw [if_pos (by simp only [List.length_append, List.length_dropLast]; omega)]
    rw [List.getElem?_append]
    rw [if_pos (by rw [List.length_dropLast]; omega)]
    rw [List.getElem?_dropLast, if_pos hj2]

theorem removeOutput_primary_invariant_notlast (pb : Monitor) (opts : Opts)
    (ws2l : List Workspace) (lastB : Workspace)
    (hpb : pb.invariant opts)
    (hws2 : ∀ ws ∈ ws2l, ws.keepable = true ∧ ws.baseOptions = opts ∧
      ws.options = opts.adjustedForScale ws.scale)
    (hlastB : pb.workspaces.getLast? = some lastB)
    (ha0 : pb.activeWorkspaceIdx ≠ pb.workspaces.length - 1) :
    ({ pb with workspaces := pb.workspaces.dropLast ++ ws2l ++ [lastB] } :
      Monitor).invariant opts := by
  obtain ⟨hb1, hb2, hb3, hb4, hb5, hb6⟩ :=
    removeOutput_primary_base pb opts ws2l lastB hpb hws2 hlastB
  obtain ⟨p1, p2, p3, p4, p5, p6⟩ := hpb
  refine ⟨hb1, ?_, ?_, ?_, p5, hb4⟩
  · dsimp only
    simp only [List.length_append, List.length_dropLast, List.length_cons,
      List.length_nil]
    omega
  · intro last2 hlast2
    dsimp only at hlast2 ⊢
    rw [hb2] at hlast2
    simp only [Option.mem_def, Option.some.injEq] at hlast2
    rw [← hlast2]
    exact hb3
  · intro hsw j2 hj2 hja ws1 hws1
    dsimp only at hsw hj2 hja hws1
    by_cases hjm : j2 < pb.workspaces.length - 1
    · rw [hb6 j2 hjm] at hws1
      exact p4 hsw j2 hjm hja ws1 hws1
    · exact hb5 j2 hj2 (by omega) ws1 hws1

theorem removeOutput_primary_invariant_last (pb : Monitor) (opts : Opts)
    (ws2l : List Workspace) (lastB : Workspace)
    (hpb : pb.invariant opts)
    (hws2 : ∀ ws ∈ ws2l, ws.keepable = true ∧ ws.baseOptions = opts ∧
      ws.options = opts.adjustedForScale ws.scale)
    (hlastB : pb.workspaces.getLast? = some lastB)
    (ha0 : pb.activeWorkspaceIdx = pb.workspaces.length - 1) :
    ({ pb with
        workspaces := pb.workspaces.dropLast ++ ws2l ++ [lastB]
        activeWorkspaceIdx :=
          (pb.workspaces.dropLast ++ ws2l ++ [lastB]).length - 1 } :
      Monitor).invariant opts := by
  obtain ⟨hb1, hb2, hb3, hb4, hb5, hb6⟩ :=
    removeOutput_primary_base pb opts ws2l lastB hpb hws2 hlastB
  obtain ⟨p1, p2, p3, p4, p5, p6⟩ := hpb
  refine ⟨hb1, ?_, ?_, ?_, p5, hb4⟩
  · dsimp only
    simp only [List.length_append, List.length_dropLast, List.length_cons,
      List.length_nil]
    omega
  · intro last2 hlast2
    dsimp only at hlast2 ⊢
    rw [hb2] at hlast2
    simp only [Option.mem_def, Option.some.injEq] at hlast2
    rw [← hlast2]
    exact hb3
  · intro hsw j2 hj2 hja ws1 hws1
    dsimp only at hsw hj2 hja hws1
    by_cases hjm : j2 < pb.workspaces.length - 1
    · rw [hb6 j2 hjm] at hws1
      exact p4 hsw j2 hjm (by omega) ws1 hws1
    · exact hb5 j2 hj2 (by omega) ws1 hws1

theorem removeOutput_assemble (L : Layout) (monitors : List Monitor)
    (pIdx aIdx idx p2 a2 jb : Nat) (monitor primaryB prim2 : Monitor)
    (hcore : MonitorSet.invCore (.normal monitors pIdx aIdx) L.options)
    (him : imOkCore (.normal monitors pIdx aIdx) L.interactiveMove)
    (hmon : monitors[idx]? = some monitor)
    (hjbget : monitors[jb]? = some primaryB) (hjbne : jb ≠ idx)
    (hjbeq1 : idx = pIdx → jb ≠ pIdx) (hjbeq2 : idx ≠ pIdx → jb = pIdx)
    (hp2get : (monitors.eraseIdx idx)[p2]? = some primaryB)
    (hp2e : (if idx ≤ pIdx then pIdx - 1 else pIdx) = p2)
    (ha2e : (if idx ≤ aIdx then aIdx - 1 else aIdx) = a2)
    (hprim2 : prim2.invariant L.options)
    (hprim2out : prim2.output = primaryB.output)
    (hprim2ws : ∀ ws ∈ prim2.workspaces,
        ws ∈ primaryB.workspaces ∨
          ∃ ws0 ∈ monitor.workspaces, ws.originalOutput = ws0.originalOutput)
    (hprim2any : ∀ w,
        ((primaryB.workspaces.any fun ws => ws.hasWindow w) = true →
          (prim2.workspaces.any fun ws => ws.hasWindow w) = true) ∧
        ((monitor.workspaces.any fun ws => ws.hasWindow w) = true →
          (prim2.workspaces.any fun ws => ws.hasWindow w) = true)) :
    Layout.Inv { L with
      monitorSet := .normal ((monitors.eraseIdx idx).set p2 prim2) p2 a2 } := by
  obtain ⟨c1, c2, c3, c4, c5, c6, c7⟩ := hcore
  have hidx : idx < monitors.length := (List.getElem?_eq_some.mp hmon).1
  have hjblt : jb < monitors.length := (List.getElem?_eq_some.mp hjbget).1
  have hp2lt : p2 < (monitors.eraseIdx idx).length := (List.getElem?_eq_some.mp hp2get).1
  have hlen' : (monitors.eraseIdx idx).length = monitors.length - 1 := by
    rw [List.length_eraseIdx, if_pos hidx]
  have hpbmem : primaryB ∈ monitors := List.mem_iff_getElem?.mpr ⟨jb, hjbget⟩
  have hmonmem : monitor ∈ monitors := List.mem_iff_getElem?.mpr ⟨idx, hmon⟩
  have hsetp2 : ((monitors.eraseIdx idx).set p2 prim2)[p2]? = some prim2 :=
    List.getElem?_set_self (by simpa using hp2lt)
  have horig : ∀ k : Nat, k ≠ p2 →
      ((monitors.eraseIdx idx).set p2 prim2)[k]? =
        if k < idx then monitors[k]? else monitors[k + 1]? := by
    intro k hk
    rw [List.getElem?_set_ne (fun he => hk he.symm), List.getElem?_eraseIdx]
  have houtne : ∀ (kor : Nat) (m2 : Monitor), kor ≠ idx → monitors[kor]? = some m2 →
      m2.output.name ≠ monitor.output.name := by
    intro kor m2 hkor hm2 heq
    have h1 : (monitors.map fun m => m.output.name)[kor]? = some m2.output.name := by
      rw [List.getElem?_map, hm2]
      rfl
    have h2 : (monitors.map fun m => m.output.name)[idx]? = some monitor.output.name := by
      rw [List.getElem?_map, hmon]
      rfl
    have h3 : (monitors.map fun m => m.output.name)[kor]? =
        (monitors.map fun m => m.output.name)[idx]? := by
      rw [h1, h2, heq]
    have hkorlt : kor < (monitors.map fun m => m.output.name).length := by
      simpa using (List.getElem?_eq_some.mp hm2).1
    exact hkor (List.getElem?_inj hkorlt c4 h3)
  have hpbne : primaryB.output.name ≠ monitor.output.name :=
    houtne jb primaryB hjbne hjbget
  constructor
  · refine ⟨?_, ?_, ?_, ?_, ?_, ?_, ?_⟩
    · intro hnil
      rw [← List.length_eq_zero, List.length_set] at hnil
      omega
    · simpa using hp2lt
    · simp only [List.length_set]
      by_cases hle : idx ≤ aIdx
      · rw [if_pos hle] at ha2e
        omega
      · rw [if_neg hle] at ha2e
        omega
    · rw [List.map_set]
      have hx : ((monitors.eraseIdx idx).map fun mm => mm.output.name)[p2]? =
          some prim2.output.name := by
        rw [List.getElem?_map, hp2get, hprim2out]
        rfl
      rw [set_self_of_getElem _ _ _ hx]
      exact ((List.eraseIdx_sublist monitors idx).map _).nodup c4
    · intro m hm
      rcases List.mem_or_eq_of_mem_set hm with hm2 | he
      · exact c5 m ((List.eraseIdx_sublist monitors idx).subset hm2)
      · rw [he]
        exact hprim2
    · intro i hi hip m hm ws hws
      simp only [List.length_set] at hi
      rw [horig i hip] at hm
      by_cases hii : i < idx
      · rw [if_pos hii] at hm
        refine c6 i (by omega) ?_ m hm ws hws
        intro he
        by_cases hle : idx ≤ pIdx
        · rw [if_pos hle] at hp2e
          omega
        · rw [if_neg hle] at hp2e
          omega
      · rw [if_neg hii] at hm
        refine c6 (i + 1) (by omega) ?_ m hm ws hws
        intro he
        by_cases hle : idx ≤ pIdx
        · rw [if_pos hle] at hp2e
          omega
        · rw [if_neg hle] at hp2e
          omega
    · intro pm hpm ws hws hne m hm
      rw [hsetp2] at hpm
      simp only [Option.mem_def, Option.some.injEq] at hpm
      subst hpm
      rw [hprim2out] at hne
      have hmono : ∀ m2 ∈ monitors, ws.originalOutput ≠ m2.output.name → True := fun _ _ _ => trivial
      have hm2cases : m = prim2 ∨ ∃ kor, kor ≠ idx ∧ monitors[kor]? = some m := by
        rcases List.mem_or_eq_of_mem_set hm with hm2 | he
        · obtain ⟨k, hk⟩ := List.mem_iff_getElem?.mp hm2
          rw [List.getElem?_eraseIdx] at hk
          by_cases hki : k < idx
          · rw [if_pos hki] at hk
            exact Or.inr ⟨k, by omega, hk⟩
          · rw [if_neg hki] at hk
            exact Or.inr ⟨k + 1, by omega, hk⟩
        · exact Or.inl he
      rcases hprim2ws ws hws with hmem | ⟨ws0, hws0, heq⟩
      · have hforall : ∀ m2 ∈ monitors, ws.originalOutput ≠ m2.output.name := by
          by_cases hip : idx = pIdx
          · exfalso
            have := c6 jb hjblt (hjbeq1 hip) primaryB (by rw [hjbget]; rfl) ws hmem
            exact hne this
          · have hjp := hjbeq2 hip
            subst hjp
            exact c7 primaryB (by rw [hjbget]; rfl) ws hmem hne
        rcases hm2cases with he | ⟨kor, hkor, hkget⟩
        · rw [he, hprim2out]
          exact hforall primaryB hpbmem
        · exact hforall m (List.mem_iff_getElem?.mpr ⟨kor, hkget⟩)
      · rw [heq] at hne ⊢
        by_cases ho : ws0.originalOutput = monitor.output.name
        · rw [ho] at hne ⊢
          rcases hm2cases with he | ⟨kor, hkor, hkget⟩
          · rw [he, hprim2out]
            exact fun hh => hpbne hh.symm
          · exact fun hh => houtne kor m hkor hkget hh.symm
        · have hforall : ∀ m2 ∈ monitors, ws0.originalOutput ≠ m2.output.name := by
            by_cases hip : idx = pIdx
            · refine c7 monitor ?_ ws0 hws0 ?_
              · rw [← hip, hmon]
                rfl
              · exact ho
            · exfalso
              have := c6 idx hidx hip monitor (by rw [hmon]; rfl) ws0 hws0
              exact ho this
          rcases hm2cases with he | ⟨kor, hkor, hkget⟩
          · rw [he, hprim2out]
            exact hforall primaryB hpbmem
          · exact hforall m (List.mem_iff_getElem?.mpr ⟨kor, hkget⟩)
  · cases hi : L.interactiveMove with
    | none => simp only [imOkCore]
    | some st =>
        cases st with
        | moving mv => simp only [imOkCore]
        | starting w pd pr =>
            rw [hi] at him
            simp only [imOkCore, MonitorSet.hasWindowMS] at him ⊢
            rw [List.any_eq_true] at him ⊢
            obtain ⟨mon0, hmem0, hp0⟩ := him
            obtain ⟨j, hj⟩ := List.mem_iff_getElem?.mp hmem0
            by_cases hji : j = idx
            · rw [hji, hmon] at hj
              injection hj with hj
              subst hj
              exact ⟨prim2, List.mem_iff_getElem?.mpr ⟨p2, hsetp2⟩,
                (hprim2any w).2 hp0⟩
            · have hk : ∃ k : Nat, (monitors.eraseIdx idx)[k]? = some mon0 := by
                by_cases hjlt : j < idx
                · exact ⟨j, by rw [List.getElem?_eraseIdx, if_pos hjlt]; exact hj⟩
                · refine ⟨j - 1, ?_⟩
                  rw [List.getElem?_eraseIdx, if_neg (by omega)]
                  rw [show j - 1 + 1 = j from by omega]
                  exact hj
              obtain ⟨k, hk⟩ := hk
              by_cases hkp : k = p2
              · rw [hkp, hp2get] at hk
                injection hk with hk
                subst hk
                exact ⟨prim2, List.mem_iff_getElem?.mpr ⟨p2, hsetp2⟩,
                  (hprim2any w).1 hp0⟩
              · refine ⟨mon0, ?_, hp0⟩
                refine List.mem_iff_getElem?.mpr ⟨k, ?_⟩
                rw [List.getElem?_set_ne (fun he => hkp he.symm)]
                exact hk

theorem inv_removeOutput (L : Layout) (oname : Nat) (h : L.Inv) :
    (L.removeOutput oname).Inv := by
  obtain ⟨hcore, him⟩ := h
  unfold Layout.removeOutput
  cases hms : L.monitorSet with
  | noOutputs wss => exact ⟨hcore, him⟩
  | normal monitors pIdx aIdx =>
      dsimp only
      rw [hms] at hcore him
      cases hf : monitors.findIdx? (fun mon => mon.output.name == oname) with
      | none =>
          dsimp only
          exact ⟨by rw [hms]; exact hcore, by rw [hms]; exact him⟩
      | some idx =>
          dsimp only
          cases hmon : monitors[idx]? with
          | none =>
              dsimp only
              exact ⟨by rw [hms]; exact hcore, by rw [hms]; exact him⟩
          | some monitor =>
              dsimp only
              have hidx : idx < monitors.length := (List.getElem?_eq_some.mp hmon).1
              have hmonmem : monitor ∈ monitors := List.mem_iff_getElem?.mpr ⟨idx, hmon⟩
              obtain ⟨m1, m2, m3, m4, m5, m6⟩ := hcore.2.2.2.2.1 monitor hmonmem
              have hwss : ∀ ws1 ∈ ((monitor.workspaces.map fun ws =>
                  ws.setOutput none).filter fun ws => ws.hasWindows || ws.name.isSome),
                  ws1.keepable = true ∧ ws1.baseOptions = L.options ∧
                    ws1.options = L.options.adjustedForScale ws1.scale ∧
                    ∃ ws0 ∈ monitor.workspaces, ws1 = ws0.setOutput none := by
                intro ws1 h1
                obtain ⟨hm2, hcond⟩ := List.mem_filter.mp h1
                rcases List.mem_map.mp hm2 with ⟨ws0, hws0, he⟩
                obtain ⟨k2, k3⟩ := m6 ws0 hws0
                obtain ⟨n1, n2, n3, n4, n5, n6, n7, n8, n9, n10⟩ := setOutput_none_shape ws0
                refine ⟨?_, ?_, ?_, ws0, hws0, he.symm⟩
                · rw [← he]
                  unfold Workspace.keepable
                  rw [← he] at hcond
                  exact hcond
                · rw [← he, n6]
                  exact k2
                · rw [← he, n7, n5]
                  exact k3
              split
              · rename_i hemp
                rw [List.isEmpty_iff] at hemp
                have hlen1 : monitors.length = 1 := by
                  have := congrArg List.length hemp
                  rw [List.length_eraseIdx, if_pos hidx] at this
                  simp only [List.length_nil] at this
                  omega
                constructor
                · intro ws1 h1
                  obtain ⟨k1, k2, k3, _⟩ := hwss ws1 h1
                  exact ⟨k1, k2, k3⟩
                · cases hi : L.interactiveMove with
                  | none => simp only [imOkCore]
                  | some st =>
                      cases st with
                      | moving mv => simp only [imOkCore]
                      | starting w pd pr =>
                          rw [hi] at him
                          simp only [imOkCore, MonitorSet.hasWindowMS] at him ⊢
                          rw [List.any_eq_true] at him ⊢
                          obtain ⟨mon0, hmem0, hp0⟩ := him
                          obtain ⟨j, hj⟩ := List.mem_iff_getElem?.mp hmem0
                          have hjlt : j < monitors.length := (List.getElem?_eq_some.mp hj).1
                          have hj0 : j = idx := by omega
                          rw [hj0, hmon] at hj
                          injection hj with hj
                          subst hj
                          rw [List.any_eq_true] at hp0
                          obtain ⟨ws0, hws0, hw0⟩ := hp0
                          refine ⟨ws0.setOutput none, ?_, ?_⟩
                          · rw [List.mem_filter]
                            refine ⟨List.mem_map_of_mem _ hws0, ?_⟩
                            have hhw : (ws0.setOutput none).hasWindows = true := by
                              rw [(setOutput_none_shape ws0).2.2.2.2.2.2.2.1]
                              exact hasWindow_hasWindows ws0 w hw0
                            rw [hhw]
                            rfl
                          · rw [(setOutput_none_shape ws0).2.2.2.2.2.2.2.2.2 w]
                            exact hw0
              · rename_i hemp
                generalize hp2e : (if idx ≤ pIdx then pIdx - 1 else pIdx) = p2
                generalize ha2e : (if idx ≤ aIdx then aIdx - 1 else aIdx) = a2
                cases hpm2 : (monitors.eraseIdx idx)[p2]? with
                | none =>
                    dsimp only
                    exact ⟨by rw [hms]; exact hcore, by rw [hms]; exact him⟩
                | some primaryB =>
                    dsimp only
                    have hp2lt : p2 < (monitors.eraseIdx idx).length :=
                      (List.getElem?_eq_some.mp hpm2).1
                    have hjbx : ∃ jb : Nat, monitors[jb]? = some primaryB ∧ jb ≠ idx ∧
                        (idx = pIdx → jb ≠ pIdx) ∧ (idx ≠ pIdx → jb = pIdx) := by
                      have hget := hpm2
                      rw [List.getElem?_eraseIdx] at hget
                      by_cases hpi : p2 < idx
                      · rw [if_pos hpi] at hget
                        refine ⟨p2, hget, by omega, by omega, ?_⟩
                        intro hip
                        by_cases hle : idx ≤ pIdx
                        · rw [if_pos hle] at hp2e
                          omega
                        · rw [if_neg hle] at hp2e
                          omega
                      · rw [if_neg hpi] at hget
                        refine ⟨p2 + 1, hget, by omega, ?_, ?_⟩
                        · intro hip
                          by_cases hle : idx ≤ pIdx
                          · rw [if_pos hle] at hp2e
                            omega
                          · rw [if_neg hle] at hp2e
                            omega
                        · intro hip
                          by_cases hle : idx ≤ pIdx
                          · rw [if_pos hle] at hp2e
                            omega
                          · rw [if_neg hle] at hp2e
                            omega
                    obtain ⟨jb, hjbget, hjbne, hjbeq1, hjbeq2⟩ := hjbx
                    have hpbmem : primaryB ∈ monitors :=
                      List.mem_iff_getElem?.mpr ⟨jb, hjbget⟩
                    have hpbinv := hcore.2.2.2.2.1 primaryB hpbmem
                    obtain ⟨q1, q2, q3, q4, q5, q6⟩ := hpbinv
                    obtain ⟨lastB, hlastB⟩ : ∃ x, primaryB.workspaces.getLast? = some x := by
                      rw [List.getLast?_eq_getElem?]
                      have : 0 < primaryB.workspaces.length := List.length_pos.mpr q1
                      exact ⟨_, List.getElem?_eq_getElem (by omega)⟩
                    rw [show primaryB.workspaces.getLast?.toList = [lastB] from by
                      rw [hlastB]; rfl]
                    have hws2l : ∀ ws ∈ (((monitor.workspaces.map fun ws =>
                        ws.setOutput none).filter fun ws =>
                          ws.hasWindows || ws.name.isSome).map fun ws =>
                            ws.setOutput (some primaryB.output)),
                        ws.keepable = true ∧ ws.baseOptions = L.options ∧
                          ws.options = L.options.adjustedForScale ws.scale ∧
                          ∃ ws0 ∈ monitor.workspaces,
                            ws.originalOutput = ws0.originalOutput := by
                      intro ws hmem
                      rcases List.mem_map.mp hmem with ⟨ws1, hws1, he⟩
                      obtain ⟨k1, k2, k3, ws0, hws0, heq⟩ := hwss ws1 hws1
                      obtain ⟨s1, s2, s3, s4, s5, s6, s7, s8, s9, s10⟩ :=
                        setOutput_some_shape ws1 primaryB.output
                      refine ⟨?_, ?_, ?_, ws0, hws0, ?_⟩
                      · rw [← he, s9]
                        exact k1
                      · rw [← he, s6]
                        exact k2
                      · rw [← he, s7, s5, k2]
                      · rw [← he, s3, heq]
                        rfl
                    have hws2lany : ∀ w, (monitor.workspaces.any fun ws =>
                        ws.hasWindow w) = true →
                        ((((monitor.workspaces.map fun ws =>
                          ws.setOutput none).filter fun ws =>
                            ws.hasWindows || ws.name.isSome).map fun ws =>
                              ws.setOutput (some primaryB.output)).any fun ws =>
                                ws.hasWindow w) = true := by
                      intro w hw
                      rw [List.any_eq_true] at hw ⊢
                      obtain ⟨ws0, hws0, hw0⟩ := hw
                      refine ⟨(ws0.setOutput none).setOutput (some primaryB.output), ?_, ?_⟩
                      · refine List.mem_map_of_mem _ ?_
                        rw [List.mem_filter]
                        refine ⟨List.mem_map_of_mem _ hws0, ?_⟩
                        have hhw : (ws0.setOutput none).hasWindows = true := by
                          rw [(setOutput_none_shape ws0).2.2.2.2.2.2.2.1]
                          exact hasWindow_hasWindows ws0 w hw0
                        rw [hhw]
                        rfl
                      · rw [(setOutput_some_shape (ws0.setOutput none)
                          primaryB.output).2.2.2.2.2.2.2.2.2 w]
                        rw [(setOutput_none_shape ws0).2.2.2.2.2.2.2.2.2 w]
                        exact hw0
                    split
                    · rename_i hfoc
                      refine removeOutput_assemble L monitors pIdx aIdx idx p2 a2 jb
                        monitor primaryB _ hcore him hmon hjbget hjbne hjbeq1 hjbeq2
                        hpm2 hp2e ha2e ?_ rfl ?_ ?_
                      · exact removeOutput_primary_invariant_last primaryB L.options _
                          lastB ⟨q1, q2, q3, q4, q5, q6⟩
                          (fun ws hws => ⟨(hws2l ws hws).1, (hws2l ws hws).2.1,
                            (hws2l ws hws).2.2.1⟩) hlastB hfoc
                      · intro ws hws
                        dsimp only at hws
                        rcases List.mem_append.mp hws with hw2 | hw2
                        · rcases List.mem_append.mp hw2 with hw3 | hw3
                          · exact Or.inl ((List.dropLast_sublist _).subset hw3)
                          · exact Or.inr (hws2l ws hw3).2.2.2
                        · simp only [List.mem_singleton] at hw2
                          rw [hw2]
                          refine Or.inl ?_
                          rw [List.getLast?_eq_getElem?] at hlastB
                          exact List.mem_iff_getElem?.mpr ⟨_, hlastB⟩
                      · intro w
                        constructor
                        · intro hw
                          dsimp only
                          rw [List.any_append, List.any_append]
                          have := dropLast_any primaryB.workspaces w
                            (fun x hx => (q3 x hx).1) hw
                          rw [this]
                          rfl
                        · intro hw
                          dsimp only
                          rw [List.any_append, List.any_append]
                          rw [hws2lany w hw]
                          simp
                    · rename_i hfoc
                      have hfoc2 : primaryB.activeWorkspaceIdx ≠
                          primaryB.workspaces.length - 1 := hfoc
                      refine removeOutput_assemble L monitors pIdx aIdx idx p2 a2 jb
                        monitor primaryB _ hcore him hmon hjbget hjbne hjbeq1 hjbeq2
                        hpm2 hp2e ha2e ?_ rfl ?_ ?_
                      · exact removeOutput_primary_invariant_notlast primaryB L.options _
                          lastB ⟨q1, q2, q3, q4, q5, q6⟩
                          (fun ws hws => ⟨(hws2l ws hws).1, (hws2l ws hws).2.1,
                            (hws2l ws hws).2.2.1⟩) hlastB hfoc2
                      · intro ws hws
                        dsimp only at hws
                        rcases List.mem_append.mp hws with hw2 | hw2
                        · rcases List.mem_append.mp hw2 with hw3 | hw3
                          · exact Or.inl ((List.dropLast_sublist _).subset hw3)
                          · exact Or.inr (hws2l ws hw3).2.2.2
                        · simp only [List.mem_singleton] at hw2
                          rw [hw2]
                          refine Or.inl ?_
                          rw [List.getLast?_eq_getElem?] at hlastB
                          exact List.mem_iff_getElem?.mpr ⟨_, hlastB⟩
                      · intro w
                        constructor
                        · intro hw
                          dsimp only
                          rw [List.any_append, List.any_append]
                          have := dropLast_any primaryB.workspaces w
                            (fun x hx => (q3 x hx).1) hw
                          rw [this]
                          rfl
                        · intro hw
                          dsimp only
                          rw [List.any_append, List.any_append]
                          rw [hws2lany w hw]
                          simp

/-! # The master invariant-preservation theorem and the claims -/

theorem inv_preserved (L : Layout) (op : Op) (hv : OpValid L op) (h : L.Inv) :
    (L.applyOp op).Inv := by
  cases op with
  | addOutput o => exact inv_addOutput L o hv h
  | removeOutput oname => exact inv_removeOutput L oname h
  | addWindow wid width ifw => exact inv_addWindow L wid width ifw h
  | addWindowOnOutput oname wid width ifw =>
      exact inv_addWindowOnOutput L oname wid width ifw h
  | addWindowToNamedWorkspace n wid width ifw =>
      exact inv_addWindowToNamedWorkspace L n wid width ifw h
  | removeWindow wid => exact inv_removeWindow L wid h
  | activateWindow wid => exact inv_activateWindow L wid h
  | focusOutput oname => exact inv_focusOutput L oname h
  | setFullscreen wid b => exact inv_setFullscreen L wid b h
  | toggleFullscreen wid => exact inv_toggleFullscreen L wid h
  | ensureNamedWorkspace cfg => exact inv_ensureNamedWorkspace L cfg h
  | updateConfig opts => exact inv_updateConfig L opts h
  | interactiveMoveUpdate wid delta out pos =>
      exact inv_interactiveMoveUpdate L wid delta out pos h

/-- C2: after every command applied to a layout satisfying the structural
invariant, when the monitor set is `Normal`: every workspace held by a
secondary (non-primary) monitor has an original-output matching that
monitor, and every workspace of the primary monitor whose original-output
does not match the primary has no monitor in the current set matching its
original-output. -/
theorem C2_originInvariant (L : Layout) (op : Op) (h : L.Inv) (hv : OpValid L op) :
    (L.applyOp op).OriginInvariant :=
  inv_origin _ (inv_preserved L op hv h)

theorem C2_originInvariant_witness :
    sampleLayout.Inv ∧ OpValid sampleLayout (Op.addWindow 7 (ColWidth.preset 0) false) ∧
      (sampleLayout.applyOp (Op.addWindow 7 (ColWidth.preset 0) false)).OriginInvariant :=
  ⟨by decide, by decide,
    C2_originInvariant sampleLayout (Op.addWindow 7 (ColWidth.preset 0) false)
      (by decide) (by decide)⟩

/-- C7: after every command applied to a layout satisfying the structural
invariant, for every monitor with no workspace switch in progress no
workspace in its list is simultaneously unnamed, empty, and neither the
active nor the last workspace; and the last workspace of every monitor is
unnamed and empty. -/
theorem C7_cleanupInvariant (L : Layout) (op : Op) (h : L.Inv) (hv : OpValid L op) :
    (L.applyOp op).CleanupInvariant :=
  inv_cleanup _ (inv_preserved L op hv h)

theorem C7_cleanupInvariant_witness :
    sampleLayout.Inv ∧ OpValid sampleLayout (Op.addWindow 8 (ColWidth.preset 0) true) ∧
      (sampleLayout.applyOp (Op.addWindow 8 (ColWidth.preset 0) true)).CleanupInvariant :=
  ⟨by decide, by decide,
    C7_cleanupInvariant sampleLayout (Op.addWindow 8 (ColWidth.preset 0) true)
      (by decide) (by decide)⟩

/-- C8: after every command applied to a layout satisfying the structural
invariant, every monitor's options equal the layout's shared snapshot and
every workspace's effective options equal the base snapshot adjusted for
the workspace's fractional scale; `updateConfig` replaces the shared
snapshot and re-derives every copy (the moving tile included), so the same
holds after it. -/
theorem C8_optionsInvariant (L : Layout) (op : Op) (h : L.Inv) (hv : OpValid L op) :
    (L.applyOp op).OptionsInvariant :=
  inv_options _ (inv_preserved L op hv h)

theorem C8_optionsInvariant_witness :
    sampleLayout.Inv ∧
      OpValid sampleLayout (Op.updateConfig { gaps := 0, focusRingWidth := 0, borderWidth := 0 }) ∧
      (sampleLayout.applyOp
        (Op.updateConfig { gaps := 0, focusRingWidth := 0, borderWidth := 0 })).OptionsInvariant :=
  ⟨by decide, by decide,
    C8_optionsInvariant sampleLayout
      (Op.updateConfig { gaps := 0, focusRingWidth := 0, borderWidth := 0 })
      (by decide) (by decide)⟩

/-- C6: if an interactive move is in the `Moving` state for window `w`,
then `activateWindow w`, `setFullscreen w _`, and `toggleFullscreen w`
return the layout unchanged, and `removeWindow w` returns the moving tile
as a `RemovedTile` with its saved column width and full-width flag and
clears the interactive-move state without touching any workspace. -/
theorem C6_movingWindowNoOps (L : Layout) (mv : IMoveData) (w : Nat) (b : Bool)
    (hmv : L.interactiveMove = some (.moving mv)) (hw : mv.tile.wid = w) :
    L.activateWindow w = L ∧ L.setFullscreen w b = L ∧ L.toggleFullscreen w = L ∧
      L.removeWindow w =
        (some { tile := mv.tile, width := mv.width, isFullWidth := mv.isFullWidth },
          { L with interactiveMove := none }) := by
  refine ⟨?_, ?_, ?_, ?_⟩
  · unfold Layout.activateWindow
    rw [hmv]
    dsimp only
    rw [hw, if_pos (by simp)]
  · unfold Layout.setFullscreen
    rw [hmv]
    dsimp only
    rw [hw, if_pos (by simp)]
  · unfold Layout.toggleFullscreen
    rw [hmv]
    dsimp only
    rw [hw, if_pos (by simp)]
  · unfold Layout.removeWindow
    rw [hmv]
    dsimp only
    rw [if_pos hw]

theorem C6_movingWindowNoOps_witness :
    sampleLayoutMoving.interactiveMove = some (.moving sampleMovingData) ∧
      sampleMovingData.tile.wid = 3 ∧
      (sampleLayoutMoving.activateWindow 3 = sampleLayoutMoving ∧
        sampleLayoutMoving.setFullscreen 3 true = sampleLayoutMoving ∧
        sampleLayoutMoving.toggleFullscreen 3 = sampleLayoutMoving ∧
        sampleLayoutMoving.removeWindow 3 =
          (some { tile := sampleMovingData.tile, width := sampleMovingData.width,
                  isFullWidth := sampleMovingData.isFullWidth },
            { sampleLayoutMoving with interactiveMove := none })) :=
  ⟨rfl, rfl, C6_movingWindowNoOps sampleLayoutMoving sampleMovingData 3 true rfl rfl⟩

/-- Inserting at an index strictly above `i` does not change the element
at `i`. -/
theorem getElem?_insertIdx_lt {α : Type _} (l : List α) (x : α) (n i : Nat) (h : i < n) :
    (List.insertIdx n x l)[i]? = l[i]? := by
  induction l generalizing n i with
  | nil =>
      match n, h with
      | n + 1, _ => simp [List.insertIdx]
  | cons a t ih =>
      match n, h with
      | n + 1, h =>
          rw [List.insertIdx_succ_cons]
          match i with
          | 0 => simp
          | i + 1 =>
              rw [List.getElem?_cons_succ, List.getElem?_cons_succ]
              exact ih n i (Nat.lt_of_succ_lt_succ h)

/-- `Workspace.addWindow` with `activate = false` keeps the active column
index and the active column element. -/
theorem addWindow_activeColumn (ws : Workspace) (out : Option Output) (wid : Nat)
    (width : ColWidth) (ifw : Bool) (col : Column)
    (hcol : ws.columns[ws.activeColumnIdx]? = some col) :
    (ws.addWindow out wid false width ifw).activeColumnIdx = ws.activeColumnIdx ∧
      (ws.addWindow out wid false width ifw).columns[ws.activeColumnIdx]? = some col := by
  have hne : ws.columns.isEmpty = false := by
    rcases hc : ws.columns with _ | ⟨c, rest⟩
    · rw [hc] at hcol; simp at hcol
    · rfl
  have hkey : ∀ c : Column,
      (List.insertIdx (if ws.columns.isEmpty then 0 else ws.activeColumnIdx + 1) c
        ws.columns)[ws.activeColumnIdx]? = some col := by
    intro c
    rw [hne, if_neg Bool.false_ne_true,
      getElem?_insertIdx_lt ws.columns c (ws.activeColumnIdx + 1) ws.activeColumnIdx
        (Nat.lt_succ_self _)]
    exact hcol
  cases out with
  | none =>
      unfold Workspace.addWindow
      dsimp only
      exact ⟨by simp, hkey _⟩
  | some o =>
      unfold Workspace.addWindow
      dsimp only
      exact ⟨by simp, hkey _⟩

/-- `Monitor.addWindow` with `activate = false` keeps the active workspace
index, and the target workspace keeps its active column element. -/
theorem monitor_addWindow_activeColumn (mon : Monitor) (wsIdx wid : Nat)
    (width : ColWidth) (ifw : Bool) (freshId : Nat) (ws : Workspace) (col : Column)
    (hws : mon.workspaces[wsIdx]? = some ws)
    (hcol : ws.columns[ws.activeColumnIdx]? = some col) :
    (mon.addWindow wsIdx wid false width ifw freshId).1.activeWorkspaceIdx
        = mon.activeWorkspaceIdx ∧
      ∃ ws2, (mon.addWindow wsIdx wid false width ifw freshId).1.workspaces[wsIdx]?
          = some ws2 ∧
        ws2.activeColumnIdx = ws.activeColumnIdx ∧
        ws2.columns[ws.activeColumnIdx]? = some col := by
  have hlt : wsIdx < mon.workspaces.length := by
    by_contra hge
    rw [List.getElem?_eq_none (Nat.le_of_not_lt hge)] at hws
    exact Option.noConfusion hws
  obtain ⟨hai, hwcol⟩ := addWindow_activeColumn ws (some mon.output) wid width ifw col hcol
  unfold Monitor.addWindow
  rw [hws]
  dsimp only
  by_cases hlast : wsIdx = mon.workspaces.length - 1
  · rw [if_pos hlast]
    dsimp only
    rw [if_neg Bool.false_ne_true]
    refine ⟨rfl, ws.addWindow (some mon.output) wid false width ifw, ?_, hai, hwcol⟩
    rw [List.getElem?_append, if_pos (by simpa using hlt), List.getElem?_set_self hlt]
  · rw [if_neg hlast]
    dsimp only
    rw [if_neg Bool.false_ne_true]
    refine ⟨rfl, ws.addWindow (some mon.output) wid false width ifw, ?_, hai, hwcol⟩
    rw [List.getElem?_set_self hlt]

/-- A monitor whose active workspace's active column element is fullscreen
reports `activeColumnIsFullscreen`. -/
theorem activeColumnIsFullscreen_true (mon : Monitor) (ws : Workspace) (col : Column)
    (hws : mon.workspaces[mon.activeWorkspaceIdx]? = some ws)
    (hcol : ws.columns[ws.activeColumnIdx]? = some col)
    (hfs : col.isFullscreen = true) :
    mon.activeColumnIsFullscreen = true := by
  have hne : ws.columns.isEmpty = false := by
    rcases hc : ws.columns with _ | ⟨c, rest⟩
    · rw [hc] at hcol; simp at hcol
    · rfl
  unfold Monitor.activeColumnIsFullscreen
  rw [hws]
  dsimp only
  rw [hne, hcol]
  simp [hfs]

/-- Replacing the monitor at `a` by the result of a non-activating
`addWindow` on the workspace at `wsIdx = activeWorkspaceIdx` keeps the
fullscreen column as the active column observed at `a`. -/
theorem activeColumnAt_set_addWindow (L : Layout) (monitors : List Monitor)
    (p a wsIdx wid : Nat) (width : ColWidth) (ifw : Bool) (freshId : Nat)
    (mon : Monitor) (ws : Workspace) (col : Column)
    (hmon : monitors[a]? = some mon)
    (hact : wsIdx = mon.activeWorkspaceIdx)
    (hws : mon.workspaces[wsIdx]? = some ws)
    (hcol : ws.columns[ws.activeColumnIdx]? = some col)
    (next2 : Nat) :
    Layout.activeColumnAt
      { L with
        monitorSet := .normal
          (monitors.set a (mon.addWindow wsIdx wid false width ifw freshId).1) p a
        nextWsId := next2 } a = some col := by
  have halt : a < monitors.length := by
    by_contra hge
    rw [List.getElem?_eq_none (Nat.le_of_not_lt hge)] at hmon
    exact Option.noConfusion hmon
  obtain ⟨hactIdx, ws2, hws2, hacol, hcol2⟩ :=
    monitor_addWindow_activeColumn mon wsIdx wid width ifw freshId ws col hws hcol
  unfold Layout.activeColumnAt
  dsimp only
  rw [List.getElem?_set_self halt]
  dsimp only
  rw [hactIdx, ← hact, hws2]
  dsimp only
  rw [hacol]
  exact hcol2

/-- C10: for every layout whose target workspace's active column is
fullscreen, adding a new window via `addWindow`, via `addWindowOnOutput`
on the active monitor, or via `addWindowToNamedWorkspace` when that
workspace is active on the active monitor, does not activate the new
window: the fullscreen column remains the active column. -/
theorem C10_fullscreenNoSteal (L : Layout) (monitors : List Monitor) (p a : Nat)
    (mon : Monitor) (ws : Workspace) (col : Column)
    (oname wid : Nat) (width : ColWidth) (ifw : Bool) (wsName : String)
    (hms : L.monitorSet = .normal monitors p a)
    (hmon : monitors[a]? = some mon)
    (hws : mon.workspaces[mon.activeWorkspaceIdx]? = some ws)
    (hcol : ws.columns[ws.activeColumnIdx]? = some col)
    (hfs : col.isFullscreen = true)
    (hfind : monitors.findIdx? (fun m2 => m2.output.name == oname) = some a)
    (hfind2 : monitors.findIdx? (fun m2 => (m2.findNamedWorkspaceIndex wsName).isSome)
        = some a)
    (hnamed : mon.findNamedWorkspaceIndex wsName = some mon.activeWorkspaceIdx) :
    (L.addWindow wid width ifw).activeColumnAt a = some col ∧
      (L.addWindowOnOutput oname wid width ifw).activeColumnAt a = some col ∧
      (L.addWindowToNamedWorkspace wsName wid width ifw).activeColumnAt a = some col := by
  have hfsm := activeColumnIsFullscreen_true mon ws col hws hcol hfs
  have hne : ws.columns.isEmpty = false := by
    rcases hc : ws.columns with _ | ⟨c, rest⟩
    · rw [hc] at hcol; simp at hcol
    · rfl
  refine ⟨?_, ?_, ?_⟩
  · unfold Layout.addWindow
    rw [hms]
    dsimp only
    rw [hmon]
    dsimp only
    rw [hfsm]
    simp only [Bool.not_true]
    exact activeColumnAt_set_addWindow L monitors p a mon.activeWorkspaceIdx wid width ifw
      L.nextWsId mon ws col hmon rfl hws hcol _
  · unfold Layout.addWindowOnOutput
    rw [hms]
    dsimp only
    rw [hfind]
    dsimp only
    rw [hmon]
    dsimp only
    rw [hfsm]
    simp only [beq_self_eq_true, Bool.true_and, Bool.and_true, Bool.not_true]
    exact activeColumnAt_set_addWindow L monitors p a mon.activeWorkspaceIdx wid width ifw
      L.nextWsId mon ws col hmon rfl hws hcol _
  · unfold Layout.addWindowToNamedWorkspace
    rw [hms]
    dsimp only
    rw [hfind2]
    dsimp only
    rw [hmon]
    dsimp only
    rw [hnamed]
    dsimp only
    rw [hws]
    dsimp only
    rw [hne, hcol]
    rw [show Option.map Column.isFullscreen (some col) = some col.isFullscreen from rfl]
    simp only [beq_self_eq_true, Bool.true_and, Bool.and_true, Bool.not_false,
      Option.getD_some, Bool.not_true, Bool.false_and, hfs]
    exact activeColumnAt_set_addWindow L monitors p a mon.activeWorkspaceIdx wid width ifw
      L.nextWsId mon ws col hmon rfl hws hcol _

theorem C10_fullscreenNoSteal_witness :
    sampleLayoutFS.monitorSet = .normal [sampleMonFS] 0 0 ∧
      [sampleMonFS][0]? = some sampleMonFS ∧
      sampleMonFS.workspaces[sampleMonFS.activeWorkspaceIdx]? = some sampleWsFS ∧
      sampleWsFS.columns[sampleWsFS.activeColumnIdx]? = some sampleColFS ∧
      sampleColFS.isFullscreen = true ∧
      [sampleMonFS].findIdx? (fun m2 => m2.output.name == 0) = some 0 ∧
      [sampleMonFS].findIdx? (fun m2 => (m2.findNamedWorkspaceIndex "web").isSome)
        = some 0 ∧
      sampleMonFS.findNamedWorkspaceIndex "web" = some sampleMonFS.activeWorkspaceIdx ∧
      ((sampleLayoutFS.addWindow 9 (ColWidth.preset 0) false).activeColumnAt 0
          = some sampleColFS ∧
        (sampleLayoutFS.addWindowOnOutput 0 9 (ColWidth.preset 0) false).activeColumnAt 0
          = some sampleColFS ∧
        (sampleLayoutFS.addWindowToNamedWorkspace "web" 9
            (ColWidth.preset 0) false).activeColumnAt 0 = some sampleColFS) :=
  ⟨rfl, rfl, rfl, rfl, rfl, by decide,
    by simp [sampleMonFS, sampleWsFS, Monitor.findNamedWorkspaceIndex, eqIgnoreAsciiCase,
      List.findIdx?_cons],
    by simp [sampleMonFS, sampleWsFS, Monitor.findNamedWorkspaceIndex, eqIgnoreAsciiCase,
      List.findIdx?_cons],
    C10_fullscreenNoSteal sampleLayoutFS [sampleMonFS] 0 0 sampleMonFS sampleWsFS
      sampleColFS 0 9 (ColWidth.preset 0) false "web"
      rfl rfl rfl rfl rfl (by decide)
      (by simp [sampleMonFS, sampleWsFS, Monitor.findNamedWorkspaceIndex, eqIgnoreAsciiCase,
        List.findIdx?_cons])
      (by simp [sampleMonFS, sampleWsFS, Monitor.findNamedWorkspaceIndex, eqIgnoreAsciiCase,
        List.findIdx?_cons])⟩

/-- C9 (amended): when the requested name is free, `ensureNamedWorkspace`
inserts the named workspace at position 0 of the selected monitor and
advances that monitor's active workspace index by exactly one — provided
the monitor holds no removable (unnamed, empty, non-active, non-last)
workspace, which the cleanup invariant guarantees whenever no workspace
switch is in progress; when the name is already used the call changes
nothing.  (The unamended claim fails when a workspace switch was in
progress: the insertion stops the switch and the following clean-up can
drop an orphan empty workspace below the active index, so the net advance
of the active index is less than one.) -/
theorem C9_ensureNamed_amended (L : Layout) (monitors : List Monitor) (p a monIdx : Nat)
    (mon : Monitor) (cfg : WsConfig)
    (hms : L.monitorSet = .normal monitors p a)
    (hsel : (match cfg.openOnOutput with
        | some oname => (monitors.findIdx? fun m => m.output.name == oname).getD p
        | none => a) = monIdx)
    (hmon : monitors[monIdx]? = some mon)
    (hkeep : ∀ j, j < mon.workspaces.length - 1 → j ≠ mon.activeWorkspaceIdx →
      ∀ ws ∈ mon.workspaces[j]?, ws.keepable = true) :
    (L.hasWorkspaceNamed cfg.name = true → L.ensureNamedWorkspace cfg = L) ∧
      (L.hasWorkspaceNamed cfg.name = false →
        L.ensureNamedWorkspace cfg =
          { L with
            monitorSet := .normal
              (monitors.set monIdx
                { mon with
                  workspaces :=
                    Workspace.freshNamed mon.output cfg.name L.nextWsId L.options
                      :: mon.workspaces
                  activeWorkspaceIdx := mon.activeWorkspaceIdx + 1
                  workspaceSwitch := none }) p a
            nextWsId := L.nextWsId + 1 }) := by
  constructor
  · intro hex
    unfold Layout.ensureNamedWorkspace
    rw [hex, if_pos rfl]
  · intro hnew
    unfold Layout.ensureNamedWorkspace
    rw [hnew, if_neg Bool.false_ne_true, hms]
    dsimp only
    rw [hsel, hmon]
    dsimp only
    have hid : ({ mon with
        workspaces :=
          Workspace.freshNamed mon.output cfg.name L.nextWsId L.options :: mon.workspaces
        activeWorkspaceIdx := mon.activeWorkspaceIdx + 1
        workspaceSwitch := none } : Monitor).cleanUpWorkspaces =
        { mon with
          workspaces :=
            Workspace.freshNamed mon.output cfg.name L.nextWsId L.options :: mon.workspaces
          activeWorkspaceIdx := mon.activeWorkspaceIdx + 1
          workspaceSwitch := none } := by
      refine cleanUpWorkspaces_id _ ?_
      intro j hj hja ws hws
      have hja2 : j ≠ mon.activeWorkspaceIdx + 1 := hja
      simp only [List.length_cons, Nat.add_sub_cancel] at hj
      cases j with
      | zero =>
          rw [List.getElem?_cons_zero] at hws
          simp only [Option.mem_def, Option.some.injEq] at hws
          subst hws
          rfl
      | succ j =>
          rw [List.getElem?_cons_succ] at hws
          exact hkeep j (by omega) (by omega) ws hws
    rw [hid]

theorem C9_ensureNamed_amended_witness :
    sampleLayout.monitorSet = .normal
        [Monitor.mkNew sampleOut [Workspace.fresh sampleOut 0 sampleOpts] sampleOpts] 0 0 ∧
      (match ({ name := "web", openOnOutput := none } : WsConfig).openOnOutput with
        | some oname =>
            ([Monitor.mkNew sampleOut [Workspace.fresh sampleOut 0 sampleOpts]
              sampleOpts].findIdx? fun m => m.output.name == oname).getD 0
        | none => 0) = 0 ∧
      [Monitor.mkNew sampleOut [Workspace.fresh sampleOut 0 sampleOpts] sampleOpts][0]?
        = some (Monitor.mkNew sampleOut [Workspace.fresh sampleOut 0 sampleOpts]
            sampleOpts) ∧
      (∀ j, j < (Monitor.mkNew sampleOut [Workspace.fresh sampleOut 0 sampleOpts]
            sampleOpts).workspaces.length - 1 →
        j ≠ (Monitor.mkNew sampleOut [Workspace.fresh sampleOut 0 sampleOpts]
            sampleOpts).activeWorkspaceIdx →
        ∀ ws ∈ (Monitor.mkNew sampleOut [Workspace.fresh sampleOut 0 sampleOpts]
            sampleOpts).workspaces[j]?, ws.keepable = true) ∧
      ((sampleLayout.hasWorkspaceNamed "web" = true →
          sampleLayout.ensureNamedWorkspace { name := "web", openOnOutput := none }
            = sampleLayout) ∧
        (sampleLayout.hasWorkspaceNamed "web" = false →
          sampleLayout.ensureNamedWorkspace { name := "web", openOnOutput := none }
            = { sampleLayout with
                monitorSet := .normal
                  ([Monitor.mkNew sampleOut [Workspace.fresh sampleOut 0 sampleOpts]
                      sampleOpts].set 0
                    { Monitor.mkNew sampleOut [Workspace.fresh sampleOut 0 sampleOpts]
                        sampleOpts with
                      workspaces :=
                        Workspace.freshNamed
                            (Monitor.mkNew sampleOut [Workspace.fresh sampleOut 0
                              sampleOpts] sampleOpts).output "web" sampleLayout.nextWsId
                            sampleLayout.options
                          :: (Monitor.mkNew sampleOut [Workspace.fresh sampleOut 0
                              sampleOpts] sampleOpts).workspaces
                      activeWorkspaceIdx :=
                        (Monitor.mkNew sampleOut [Workspace.fresh sampleOut 0 sampleOpts]
                            sampleOpts).activeWorkspaceIdx + 1
                      workspaceSwitch := none }) 0 0
                nextWsId := sampleLayout.nextWsId + 1 })) :=
  ⟨rfl, rfl, rfl, by decide,
    C9_ensureNamed_amended sampleLayout
      [Monitor.mkNew sampleOut [Workspace.fresh sampleOut 0 sampleOpts] sampleOpts] 0 0 0
      (Monitor.mkNew sampleOut [Workspace.fresh sampleOut 0 sampleOpts] sampleOpts)
      { name := "web", openOnOutput := none } rfl rfl rfl (by decide)⟩

/-- C5: for an interactive move in the `Starting` state on window `wid`:
while the accumulated squared pointer displacement stays below `256*256`,
`interactiveMoveUpdate` only sets the window's move offset to the
accumulated delta scaled by the rubber-band factor
`band(sqDist / 256^2)` with stiffness 1 and limit 1/2, keeps the state
`Starting`, and leaves the window in its workspace; once the squared
displacement reaches the threshold, the tile is removed from its
workspace and the state transitions to `Moving` carrying the removed
tile with its saved width and full-width flag. -/
theorem C5_startingRubberBand (L : Layout) (wid : Nat) (pd0 ratio delta : ℚ × ℚ)
    (out : Output) (pos : ℚ × ℚ) (pd : ℚ × ℚ) (sq factor : ℚ)
    (hmv : L.interactiveMove = some (.starting wid pd0 ratio))
    (hpd : pd = (pd0.1 + delta.1, pd0.2 + delta.2))
    (hsq : sq = pd.1 * pd.1 + pd.2 * pd.2)
    (hfactor : factor = RubberBand.band { stiffness := 1, limit := 1 / 2 }
        (sq / interactiveMoveStartThreshold)) :
    (sq < interactiveMoveStartThreshold →
        L.interactiveMoveUpdate wid delta out pos =
          { L.updateFirstTile wid fun t =>
              { t with moveOffset := (pd.1 * factor, pd.2 * factor) } with
            interactiveMove := some (.starting wid pd ratio) } ∧
        (L.interactiveMoveUpdate wid delta out pos).hasWindowInSet wid
          = L.hasWindowInSet wid) ∧
      (interactiveMoveStartThreshold ≤ sq →
        ∀ rem L2,
          ({ L.updateFirstTile wid fun t =>
              { t with moveOffset := (pd.1 * factor, pd.2 * factor) } with
            interactiveMove := some (.starting wid pd ratio) } : Layout).removeWindow wid
            = (some rem, L2) →
          L.interactiveMoveUpdate wid delta out pos =
            { L2 with interactiveMove := some (.moving
                { tile := { rem.tile with
                    moveOffset := (0, 0)
                    pendingFullscreen := false
                    options := L2.options.adjustedForScale out.scale }
                  output := out
                  pointerPosWithinOutput := pos
                  width := rem.width
                  isFullWidth := rem.isFullWidth
                  pointerRatioWithinWindow := ratio }) }) := by
  subst hpd
  subst hsq
  subst hfactor
  constructor
  · intro hlt
    constructor
    · unfold Layout.interactiveMoveUpdate
      rw [hmv]
      dsimp only
      rw [if_neg (fun h => h rfl), if_pos hlt]
    · unfold Layout.interactiveMoveUpdate
      rw [hmv]
      dsimp only
      rw [if_neg (fun h => h rfl), if_pos hlt]
      unfold Layout.hasWindowInSet
      exact applyToWindowWs_hasWindowMS L wid wid _
        (fun ws => updateTileFirst_shape ws wid _ fun t => rfl)
  · intro hge
    intro rem L2 hrw
    unfold Layout.interactiveMoveUpdate
    rw [hmv]
    dsimp only
    rw [if_neg (fun h => h rfl), if_neg (not_lt.mpr hge), hrw]
    dsimp only
    rcases rem with ⟨⟨w0, mo0, pf0, op0⟩, rwidth, rifw⟩
    cases pf0 with
    | false => rfl
    | true => rfl

theorem C5_startingRubberBand_witness :
    sampleLayoutStarting.interactiveMove
        = some (.starting 3 ((0 : ℚ), (0 : ℚ)) ((0 : ℚ), (0 : ℚ))) ∧
      ((0 : ℚ), (0 : ℚ)) = (((0 : ℚ), (0 : ℚ)).1 + ((0 : ℚ), (0 : ℚ)).1,
        ((0 : ℚ), (0 : ℚ)).2 + ((0 : ℚ), (0 : ℚ)).2) ∧
      (0 : ℚ) = ((0 : ℚ), (0 : ℚ)).1 * ((0 : ℚ), (0 : ℚ)).1 +
        ((0 : ℚ), (0 : ℚ)).2 * ((0 : ℚ), (0 : ℚ)).2 ∧
      (0 : ℚ) = RubberBand.band { stiffness := 1, limit := 1 / 2 }
          (0 / interactiveMoveStartThreshold) ∧
      (((0 : ℚ) < interactiveMoveStartThreshold →
          sampleLayoutStarting.interactiveMoveUpdate 3 (0, 0) sampleOut (0, 0) =
            { sampleLayoutStarting.updateFirstTile 3 fun t =>
                { t with moveOffset := (((0 : ℚ), (0 : ℚ)).1 * 0,
                    ((0 : ℚ), (0 : ℚ)).2 * 0) } with
              interactiveMove := some (.starting 3 ((0 : ℚ), (0 : ℚ))
                ((0 : ℚ), (0 : ℚ))) } ∧
          (sampleLayoutStarting.interactiveMoveUpdate 3 (0, 0) sampleOut
              (0, 0)).hasWindowInSet 3 = sampleLayoutStarting.hasWindowInSet 3) ∧
        (interactiveMoveStartThreshold ≤ (0 : ℚ) →
          ∀ rem L2,
            ({ sampleLayoutStarting.updateFirstTile 3 fun t =>
                { t with moveOffset := (((0 : ℚ), (0 : ℚ)).1 * 0,
                    ((0 : ℚ), (0 : ℚ)).2 * 0) } with
              interactiveMove := some (.starting 3 ((0 : ℚ), (0 : ℚ))
                ((0 : ℚ), (0 : ℚ))) } : Layout).removeWindow 3 = (some rem, L2) →
            sampleLayoutStarting.interactiveMoveUpdate 3 (0, 0) sampleOut (0, 0) =
              { L2 with interactiveMove := some (.moving
                  { tile := { rem.tile with
                      moveOffset := (0, 0)
                      pendingFullscreen := false
                      options := L2.options.adjustedForScale sampleOut.scale }
                    output := sampleOut
                    pointerPosWithinOutput := (0, 0)
                    width := rem.width
                    isFullWidth := rem.isFullWidth
                    pointerRatioWithinWindow := ((0 : ℚ), (0 : ℚ)) }) })) :=
  ⟨rfl, by simp, by simp, by simp [RubberBand.band],
    C5_startingRubberBand sampleLayoutStarting 3 ((0 : ℚ), (0 : ℚ)) ((0 : ℚ), (0 : ℚ))
      ((0 : ℚ), (0 : ℚ)) sampleOut ((0 : ℚ), (0 : ℚ)) ((0 : ℚ), (0 : ℚ)) 0 0
      rfl (by simp) (by simp) (by simp [RubberBand.band])⟩

/-- `any` of a list with one known element splits off that element. -/
theorem any_eraseIdx {α : Type _} (l : List α) (i : Nat) (x : α) (p : α → Bool)
    (h : l[i]? = some x) : l.any p = (p x || (l.eraseIdx i).any p) := by
  induction l generalizing i with
  | nil => simp at h
  | cons a t ih =>
      cases i with
      | zero =>
          rw [List.getElem?_cons_zero] at h
          injection h with h2
          subst h2
          rfl
      | succ i =>
          rw [List.getElem?_cons_succ] at h
          rw [show (a :: t).eraseIdx (i + 1) = a :: t.eraseIdx i from rfl]
          simp only [List.any_cons, ih i h]
          rw [Bool.or_left_comm]

/-- Erasing the index that was just overwritten ignores the overwrite. -/
theorem eraseIdx_set_self {α : Type _} (l : List α) (i : Nat) (y : α) :
    (l.set i y).eraseIdx i = l.eraseIdx i := by
  induction l generalizing i with
  | nil => rfl
  | cons a t ih =>
      cases i with
      | zero => rfl
      | succ i =>
          show a :: (t.set i y).eraseIdx i = a :: t.eraseIdx i
          rw [ih]

/-- Every list splits as its `dropLast` followed by its last element. -/
theorem dropLast_append_getLast_toList {α : Type _} (l : List α) :
    l.dropLast ++ l.getLast?.toList = l := by
  induction l using List.reverseRecOn with
  | nil => rfl
  | append_singleton zs x ih =>
      rw [List.dropLast_concat, List.getLast?_concat]
      rfl

/-- Filtering by a predicate implied by window presence keeps `any
hasWindow` intact. -/
theorem filter_keep_any (l : List Workspace) (w : Nat) (p : Workspace → Bool)
    (hp : ∀ ws, p ws = false → ws.hasWindow w = false) :
    (l.filter p).any (fun ws => ws.hasWindow w) = l.any fun ws => ws.hasWindow w := by
  induction l with
  | nil => rfl
  | cons a t ih =>
      cases hpa : p a
      · rw [List.filter_cons, if_neg (by simp [hpa])]
        simp only [List.any_cons, hp a hpa, Bool.false_or, ih]
      · rw [List.filter_cons, if_pos (by simp [hpa])]
        simp only [List.any_cons, ih]

/-- `setOutput (some o)` over a list keeps `any hasWindow` intact. -/
theorem map_setOutput_some_any (l : List Workspace) (o : Output) (w : Nat) :
    ((l.map fun ws => ws.setOutput (some o)).any fun ws => ws.hasWindow w) =
      l.any fun ws => ws.hasWindow w := by
  rw [List.any_map]
  exact any_congr' fun ws hws => (setOutput_some_shape ws o).2.2.2.2.2.2.2.2.2 w

/-- Stripping output-less empties keeps `any hasWindow` intact. -/
theorem stripped_any (l : List Workspace) (w : Nat) :
    (((l.map fun ws => ws.setOutput none).filter fun ws =>
        ws.hasWindows || ws.name.isSome).any fun ws => ws.hasWindow w) =
      l.any fun ws => ws.hasWindow w := by
  rw [filter_keep_any _ w _ ?_]
  · rw [List.any_map]
    exact any_congr' fun ws hws => (setOutput_none_shape ws).2.2.2.2.2.2.2.2.2 w
  · intro ws hpf
    cases hhw : ws.hasWindow w with
    | false => rfl
    | true =>
        exfalso
        have hW := hasWindow_hasWindows ws w hhw
        rw [hW] at hpf
        simp at hpf

/-- Splitting a list by a predicate splits `any`. -/
theorem filter_not_or_any (l : List Workspace) (q : Workspace → Bool)
    (pr : Workspace → Bool) :
    (((l.filter fun x => !q x).any pr) || ((l.filter q).any pr)) = l.any pr := by
  induction l with
  | nil => rfl
  | cons a t ih =>
      cases hq : q a
      · rw [List.filter_cons, if_pos (by simp [hq]), List.filter_cons,
          if_neg (by simp [hq])]
        simp only [List.any_cons, Bool.or_assoc, ih]
      · rw [List.filter_cons, if_neg (by simp [hq]), List.filter_cons,
          if_pos (by simp [hq])]
        simp only [List.any_cons]
        rw [Bool.or_left_comm, ih]

/-- Window presence over the monitor list after `removeOutput`'s
reinsertion equals presence before. -/
theorem remove_primary_any (monitors : List Monitor) (idx p2 : Nat)
    (monitor primary prim2 : Monitor) (w : Nat)
    (hm : monitors[idx]? = some monitor)
    (hp2 : (monitors.eraseIdx idx)[p2]? = some primary)
    (hws : prim2.workspaces = primary.workspaces.dropLast ++
      (((monitor.workspaces.map fun ws => ws.setOutput none).filter fun ws =>
          ws.hasWindows || ws.name.isSome).map fun ws =>
            ws.setOutput (some primary.output)) ++
      primary.workspaces.getLast?.toList) :
    ((monitors.eraseIdx idx).set p2 prim2).any
        (fun m => m.workspaces.any fun ws => ws.hasWindow w) =
      monitors.any fun m => m.workspaces.any fun ws => ws.hasWindow w := by
  have hlt : p2 < (monitors.eraseIdx idx).length := (List.getElem?_eq_some.mp hp2).1
  rw [any_eraseIdx ((monitors.eraseIdx idx).set p2 prim2) p2 prim2 _
    (List.getElem?_set_self (by simpa using hlt)), eraseIdx_set_self]
  rw [any_eraseIdx monitors idx monitor _ hm,
    any_eraseIdx (monitors.eraseIdx idx) p2 primary _ hp2]
  rw [hws]
  simp only [List.any_append]
  rw [map_setOutput_some_any, stripped_any]
  conv_rhs => rw [show primary.workspaces =
    primary.workspaces.dropLast ++ primary.workspaces.getLast?.toList from
    (dropLast_append_getLast_toList _).symm]
  simp only [List.any_append]
  simp only [Bool.or_assoc, Bool.or_comm, Bool.or_left_comm]

/-- Window presence over the monitor list after `addOutput`'s collection
equals presence before, given that the primary's replacement and the new
monitor jointly hold the primary's windows. -/
theorem set_append_any (monitors : List Monitor) (p : Nat)
    (primary prim2 newMon : Monitor) (w : Nat)
    (hm : monitors[p]? = some primary)
    (hsplit : ((prim2.workspaces.any fun ws => ws.hasWindow w) ||
        (newMon.workspaces.any fun ws => ws.hasWindow w)) =
      primary.workspaces.any fun ws => ws.hasWindow w) :
    (((monitors.set p prim2) ++ [newMon]).any
        fun m => m.workspaces.any fun ws => ws.hasWindow w) =
      monitors.any fun m => m.workspaces.any fun ws => ws.hasWindow w := by
  have hlt : p < monitors.length := (List.getElem?_eq_some.mp hm).1
  rw [List.any_append]
  rw [any_eraseIdx (monitors.set p prim2) p prim2 _
    (List.getElem?_set_self (by simpa using hlt)), eraseIdx_set_self]
  rw [any_eraseIdx monitors p primary _ hm]
  simp only [List.any_cons, List.any_nil, Bool.or_false]
  rw [← hsplit]
  simp only [Bool.or_assoc, Bool.or_comm, Bool.or_left_comm]

/-- `removeOutput` neither loses nor creates windows. -/
theorem removeOutput_hasWindowInSet (L : Layout) (oname w : Nat) :
    (L.removeOutput oname).hasWindowInSet w = L.hasWindowInSet w := by
  unfold Layout.removeOutput Layout.hasWindowInSet
  cases hms : L.monitorSet with
  | noOutputs wss => simp only [hms]
  | normal monitors p a =>
      dsimp only
      cases hf : monitors.findIdx? (fun mon => mon.output.name == oname) with
      | none => simp only [hms]
      | some idx =>
          dsimp only
          cases hm : monitors[idx]? with
          | none => simp only [hms]
          | some monitor =>
              dsimp only
              by_cases hemp : (monitors.eraseIdx idx).isEmpty = true
              · rw [if_pos hemp]
                have hidx : idx < monitors.length := (List.getElem?_eq_some.mp hm).1
                have hnil : monitors.eraseIdx idx = [] := by
                  cases he : monitors.eraseIdx idx with
                  | nil => rfl
                  | cons x xs => rw [he] at hemp; simp at hemp
                have hlen1 : monitors.length = 1 := by
                  have h2 : (monitors.eraseIdx idx).length = 0 := by
                    rw [hnil]
                    rfl
                  rw [List.length_eraseIdx, if_pos hidx] at h2
                  omega
                have hidx0 : idx = 0 := by omega
                subst hidx0
                cases monitors with
                | nil => simp at hidx
                | cons m0 rest =>
                    cases rest with
                    | cons m1 r2 => simp at hlen1
                    | nil =>
                        rw [List.getElem?_cons_zero] at hm
                        injection hm with hm2
                        subst hm2
                        simp only [MonitorSet.hasWindowMS, List.any_cons, List.any_nil,
                          Bool.or_false]
                        exact stripped_any m0.workspaces w
              · rw [if_neg hemp]
                cases hp2 : (monitors.eraseIdx idx)[if idx ≤ p then p - 1 else p]? with
                | none => simp only [hms]
                | some primary =>
                    dsimp only
                    simp only [MonitorSet.hasWindowMS]
                    generalize hp2e : (if idx ≤ p then p - 1 else p) = p2v
                    rw [hp2e] at hp2
                    split
                    · exact remove_primary_any monitors idx p2v monitor primary _ w hm hp2 rfl
                    · exact remove_primary_any monitors idx p2v monitor primary _ w hm hp2 rfl

/-- `addOutput` neither loses nor creates windows. -/
theorem addOutput_hasWindowInSet (L : Layout) (o : Output) (w : Nat) :
    (L.addOutput o).hasWindowInSet w = L.hasWindowInSet w := by
  unfold Layout.addOutput Layout.hasWindowInSet
  cases hms : L.monitorSet with
  | noOutputs wss =>
      dsimp only
      simp only [MonitorSet.hasWindowMS, List.any_cons, List.any_nil, Bool.or_false]
      rw [show (Monitor.mkNew o ((wss ++ [Workspace.fresh o L.nextWsId L.options]).map
          fun ws => ws.setOutput (some o)) L.options).workspaces =
        ((wss ++ [Workspace.fresh o L.nextWsId L.options]).map
          fun ws => ws.setOutput (some o)) from rfl]
      rw [map_setOutput_some_any]
      simp only [List.any_append, List.any_cons, List.any_nil]
      rw [show (Workspace.fresh o L.nextWsId L.options).hasWindow w = false from rfl]
      simp
  | normal monitors p a =>
      dsimp only
      cases hm : monitors[p]? with
      | none => simp only [hms]
      | some primary =>
          dsimp only
          rw [addOutputGo_spec o.name primary.workspaces []
            { wss := primary.workspaces
              activeIdx := primary.activeWorkspaceIdx
              collected := []
              switch := primary.workspaceSwitch
              stopped := false } (by simp)]
          dsimp only
          simp only [List.append_nil, List.nil_append, Bool.false_or,
            List.reverse_reverse]
          simp only [MonitorSet.hasWindowMS]
          refine set_append_any monitors p primary _ _ w hm ?_
          rw [show (Monitor.mkNew o (((primary.workspaces.filter fun w2 =>
              decide (w2.originalOutput = o.name) && (w2.hasWindows || w2.name.isSome)) ++
              [Workspace.fresh o L.nextWsId L.options]).map
                fun ws => ws.setOutput (some o)) L.options).workspaces =
            (((primary.workspaces.filter fun w2 =>
              decide (w2.originalOutput = o.name) && (w2.hasWindows || w2.name.isSome)) ++
              [Workspace.fresh o L.nextWsId L.options]).map
                fun ws => ws.setOutput (some o)) from rfl]
          rw [map_setOutput_some_any]
          simp only [List.any_append, List.any_cons, List.any_nil]
          rw [show (Workspace.fresh o L.nextWsId L.options).hasWindow w = false from rfl]
          simp only [Bool.or_false]
          have hcoll : ((primary.workspaces.filter fun w2 =>
              decide (w2.originalOutput = o.name) &&
                (w2.hasWindows || w2.name.isSome)).any fun ws => ws.hasWindow w) =
              ((primary.workspaces.filter fun w2 =>
                decide (w2.originalOutput = o.name)).any fun ws => ws.hasWindow w) := by
            rw [← List.filter_filter, List.filter_comm]
            refine filter_keep_any _ w _ ?_
            intro ws hpf
            cases hhw : ws.hasWindow w with
            | false => rfl
            | true =>
                exfalso
                have hW := hasWindow_hasWindows ws w hhw
                rw [hW] at hpf
                simp at hpf
          have hprim2 : ((if primary.workspaceSwitch.isSome &&
                primary.workspaces.any fun w2 => decide (w2.originalOutput = o.name) then
                ({ primary with
                  workspaces := primary.workspaces.filter fun w2 =>
                    !decide (w2.originalOutput = o.name)
                  activeWorkspaceIdx := primary.activeWorkspaceIdx -
                    ((primary.workspaces.take (primary.activeWorkspaceIdx + 1)).filter
                      fun w2 => decide (w2.originalOutput = o.name)).length
                  workspaceSwitch :=
                    if primary.workspaces.any fun w2 => decide (w2.originalOutput = o.name)
                    then none else primary.workspaceSwitch } : Monitor).cleanUpWorkspaces
              else
                { primary with
                  workspaces := primary.workspaces.filter fun w2 =>
                    !decide (w2.originalOutput = o.name)
                  activeWorkspaceIdx := primary.activeWorkspaceIdx -
                    ((primary.workspaces.take (primary.activeWorkspaceIdx + 1)).filter
                      fun w2 => decide (w2.originalOutput = o.name)).length
                  workspaceSwitch :=
                    if primary.workspaces.any fun w2 => decide (w2.originalOutput = o.name)
                    then none
                    else primary.workspaceSwitch }).workspaces.any
              fun ws => ws.hasWindow w) =
              ((primary.workspaces.filter fun w2 =>
                !decide (w2.originalOutput = o.name)).any fun ws => ws.hasWindow w) := by
            split
            · rw [cleanUpWorkspaces_hasWindow]
            · rfl
          rw [hprim2, hcoll]
          exact filter_not_or_any primary.workspaces _ _

/-- The last position of a list ending in `[x]` holds `x`. -/
theorem getElem?_last_append_singleton {α : Type _} (A : List α) (x : α) :
    (A ++ [x])[(A ++ [x]).length - 1]? = some x := by
  rw [show (A ++ [x]).length - 1 = A.length from by simp]
  exact getElem?_append_middle A x []

/-- C4: for `removeOutput oname` when at least one other monitor remains:
the removed monitor's workspaces are stripped of those with no windows and
no name, reassigned to the primary's output, and inserted into the
primary's workspace list immediately before its trailing empty workspace
(between `dropLast` and the old last workspace); and if the primary's
active workspace index pointed at its trailing workspace before the
insertion, the active index becomes the new last position, so the trailing
empty workspace remains focused. -/
theorem C4_removeOutputInsertion (L : Layout) (oname : Nat) (monitors : List Monitor)
    (p a idx : Nat) (monitor primary : Monitor)
    (hms : L.monitorSet = .normal monitors p a)
    (hfind : monitors.findIdx? (fun mon => mon.output.name == oname) = some idx)
    (hmon : monitors[idx]? = some monitor)
    (hne : (monitors.eraseIdx idx).isEmpty = false)
    (hp2 : (monitors.eraseIdx idx)[if idx ≤ p then p - 1 else p]? = some primary) :
    (let wss1 := ((monitor.workspaces.map fun ws => ws.setOutput none).filter fun ws =>
        ws.hasWindows || ws.name.isSome).map fun ws => ws.setOutput (some primary.output)
     let newWss :=
       primary.workspaces.dropLast ++ wss1 ++ primary.workspaces.getLast?.toList
     let primary1 : Monitor := { primary with workspaces := newWss }
     let primary2 :=
       if primary.activeWorkspaceIdx = primary.workspaces.length - 1 then
         { primary1 with activeWorkspaceIdx := newWss.length - 1 }
       else primary1
     L.removeOutput oname =
        { L with
          monitorSet := .normal
            ((monitors.eraseIdx idx).set (if idx ≤ p then p - 1 else p) primary2)
            (if idx ≤ p then p - 1 else p) (if idx ≤ a then a - 1 else a) } ∧
       ∀ lastWs, primary.workspaces.getLast? = some lastWs →
         newWss[newWss.length - 1]? = some lastWs) := by
  constructor
  · unfold Layout.removeOutput
    rw [hms]
    dsimp only
    rw [hfind]
    dsimp only
    rw [hmon]
    dsimp only
    rw [hne, if_neg Bool.false_ne_true]
    rw [hp2]
  · intro lastWs hlastWs
    rw [hlastWs, show Option.toList (some lastWs) = [lastWs] from rfl]
    exact getElem?_last_append_singleton _ lastWs

theorem C4_removeOutputInsertion_witness :
    sampleLayout2.monitorSet = .normal
        [Monitor.mkNew sampleOut [Workspace.fresh sampleOut 0 sampleOpts] sampleOpts,
          Monitor.mkNew sampleOut2 [Workspace.fresh sampleOut2 1 sampleOpts] sampleOpts]
        0 0 ∧
      [Monitor.mkNew sampleOut [Workspace.fresh sampleOut 0 sampleOpts] sampleOpts,
          Monitor.mkNew sampleOut2 [Workspace.fresh sampleOut2 1 sampleOpts]
            sampleOpts].findIdx? (fun mon => mon.output.name == 1) = some 1 ∧
      [Monitor.mkNew sampleOut [Workspace.fresh sampleOut 0 sampleOpts] sampleOpts,
          Monitor.mkNew sampleOut2 [Workspace.fresh sampleOut2 1 sampleOpts] sampleOpts][1]?
        = some (Monitor.mkNew sampleOut2 [Workspace.fresh sampleOut2 1 sampleOpts]
            sampleOpts) ∧
      ([Monitor.mkNew sampleOut [Workspace.fresh sampleOut 0 sampleOpts] sampleOpts,
          Monitor.mkNew sampleOut2 [Workspace.fresh sampleOut2 1 sampleOpts]
            sampleOpts].eraseIdx 1).isEmpty = false ∧
      ([Monitor.mkNew sampleOut [Workspace.fresh sampleOut 0 sampleOpts] sampleOpts,
          Monitor.mkNew sampleOut2 [Workspace.fresh sampleOut2 1 sampleOpts]
            sampleOpts].eraseIdx 1)[if 1 ≤ 0 then 0 - 1 else 0]?
        = some (Monitor.mkNew sampleOut [Workspace.fresh sampleOut 0 sampleOpts]
            sampleOpts) ∧
      (let wss1 := (((Monitor.mkNew sampleOut2 [Workspace.fresh sampleOut2 1 sampleOpts]
            sampleOpts).workspaces.map fun ws => ws.setOutput none).filter fun ws =>
            ws.hasWindows || ws.name.isSome).map fun ws =>
              ws.setOutput (some (Monitor.mkNew sampleOut
                [Workspace.fresh sampleOut 0 sampleOpts] sampleOpts).output)
       let newWss := (Monitor.mkNew sampleOut [Workspace.fresh sampleOut 0 sampleOpts]
            sampleOpts).workspaces.dropLast ++ wss1 ++
          (Monitor.mkNew sampleOut [Workspace.fresh sampleOut 0 sampleOpts]
            sampleOpts).workspaces.getLast?.toList
       let primary1 : Monitor := { Monitor.mkNew sampleOut
            [Workspace.fresh sampleOut 0 sampleOpts] sampleOpts with
          workspaces := newWss }
       let primary2 :=
         if (Monitor.mkNew sampleOut [Workspace.fresh sampleOut 0 sampleOpts]
              sampleOpts).activeWorkspaceIdx =
            (Monitor.mkNew sampleOut [Workspace.fresh sampleOut 0 sampleOpts]
              sampleOpts).workspaces.length - 1 then
           { primary1 with activeWorkspaceIdx := newWss.length - 1 }
         else primary1
       sampleLayout2.removeOutput 1 =
          { sampleLayout2 with
            monitorSet := .normal
              (([Monitor.mkNew sampleOut [Workspace.fresh sampleOut 0 sampleOpts]
                  sampleOpts,
                  Monitor.mkNew sampleOut2 [Workspace.fresh sampleOut2 1 sampleOpts]
                    sampleOpts].eraseIdx 1).set (if 1 ≤ 0 then 0 - 1 else 0) primary2)
              (if 1 ≤ 0 then 0 - 1 else 0) (if 1 ≤ 0 then 0 - 1 else 0) } ∧
         ∀ lastWs, (Monitor.mkNew sampleOut [Workspace.fresh sampleOut 0 sampleOpts]
              sampleOpts).workspaces.getLast? = some lastWs →
           newWss[newWss.length - 1]? = some lastWs) :=
  ⟨rfl, rfl, rfl, rfl, rfl,
    C4_removeOutputInsertion sampleLayout2 1
      [Monitor.mkNew sampleOut [Workspace.fresh sampleOut 0 sampleOpts] sampleOpts,
        Monitor.mkNew sampleOut2 [Workspace.fresh sampleOut2 1 sampleOpts] sampleOpts]
      0 0 1
      (Monitor.mkNew sampleOut2 [Workspace.fresh sampleOut2 1 sampleOpts] sampleOpts)
      (Monitor.mkNew sampleOut [Workspace.fresh sampleOut 0 sampleOpts] sampleOpts)
      rfl rfl rfl rfl rfl⟩

/-- C3: for `addOutput o` when monitors already exist: every workspace of
the primary monitor whose original-output matches `o` is removed from the
primary with relative order preserved (the filter keeps the others in
order); those of them that have windows or a name are appended to the new
monitor in that relative order, followed by exactly one fresh trailing
empty workspace; the primary's switch is terminated exactly when some
workspace matched, and when the collection interrupted an in-progress
switch the primary's workspace list is cleaned up. -/
theorem C3_addOutputCollection (L : Layout) (o : Output) (monitors : List Monitor)
    (p a : Nat) (primary : Monitor)
    (hms : L.monitorSet = .normal monitors p a)
    (hmon : monitors[p]? = some primary) :
    L.addOutput o =
      (let primary1 : Monitor :=
        { primary with
          workspaces :=
            primary.workspaces.filter fun w => !decide (w.originalOutput = o.name)
          activeWorkspaceIdx := primary.activeWorkspaceIdx -
            ((primary.workspaces.take (primary.activeWorkspaceIdx + 1)).filter fun w =>
              decide (w.originalOutput = o.name)).length
          workspaceSwitch :=
            if primary.workspaces.any (fun w => decide (w.originalOutput = o.name))
            then none else primary.workspaceSwitch }
      let stopped := primary.workspaceSwitch.isSome &&
        primary.workspaces.any fun w => decide (w.originalOutput = o.name)
      let primary2 := if stopped then primary1.cleanUpWorkspaces else primary1
      let newWss := ((primary.workspaces.filter fun w =>
            decide (w.originalOutput = o.name) && (w.hasWindows || w.name.isSome)) ++
          [Workspace.fresh o L.nextWsId L.options]).map fun ws => ws.setOutput (some o)
      { L with
        monitorSet := .normal ((monitors.set p primary2) ++
          [Monitor.mkNew o newWss L.options]) p a
        nextWsId := L.nextWsId + 1 }) := by
  unfold Layout.addOutput
  rw [hms]
  dsimp only
  rw [hmon]
  dsimp only
  rw [addOutputGo_spec o.name primary.workspaces []
    { wss := primary.workspaces
      activeIdx := primary.activeWorkspaceIdx
      collected := []
      switch := primary.workspaceSwitch
      stopped := false } (by simp)]
  dsimp only
  simp only [List.append_nil, List.nil_append, Bool.false_or, List.reverse_reverse]

theorem C3_addOutputCollection_witness :
    sampleLayout.monitorSet = .normal
        [Monitor.mkNew sampleOut [Workspace.fresh sampleOut 0 sampleOpts] sampleOpts] 0 0 ∧
      [Monitor.mkNew sampleOut [Workspace.fresh sampleOut 0 sampleOpts] sampleOpts][0]?
        = some (Monitor.mkNew sampleOut [Workspace.fresh sampleOut 0 sampleOpts]
            sampleOpts) ∧
      sampleLayout.addOutput sampleOut2 =
        (let primary1 : Monitor :=
          { Monitor.mkNew sampleOut [Workspace.fresh sampleOut 0 sampleOpts] sampleOpts with
            workspaces :=
              (Monitor.mkNew sampleOut [Workspace.fresh sampleOut 0 sampleOpts]
                sampleOpts).workspaces.filter fun w =>
                  !decide (w.originalOutput = sampleOut2.name)
            activeWorkspaceIdx :=
              (Monitor.mkNew sampleOut [Workspace.fresh sampleOut 0 sampleOpts]
                sampleOpts).activeWorkspaceIdx -
                (((Monitor.mkNew sampleOut [Workspace.fresh sampleOut 0 sampleOpts]
                  sampleOpts).workspaces.take
                    ((Monitor.mkNew sampleOut [Workspace.fresh sampleOut 0 sampleOpts]
                      sampleOpts).activeWorkspaceIdx + 1)).filter fun w =>
                  decide (w.originalOutput = sampleOut2.name)).length
            workspaceSwitch :=
              if (Monitor.mkNew sampleOut [Workspace.fresh sampleOut 0 sampleOpts]
                  sampleOpts).workspaces.any
                  (fun w => decide (w.originalOutput = sampleOut2.name))
              then none
              else (Monitor.mkNew sampleOut [Workspace.fresh sampleOut 0 sampleOpts]
                sampleOpts).workspaceSwitch }
        let stopped := (Monitor.mkNew sampleOut [Workspace.fresh sampleOut 0 sampleOpts]
            sampleOpts).workspaceSwitch.isSome &&
          (Monitor.mkNew sampleOut [Workspace.fresh sampleOut 0 sampleOpts]
            sampleOpts).workspaces.any fun w => decide (w.originalOutput = sampleOut2.name)
        let primary2 := if stopped then primary1.cleanUpWorkspaces else primary1
        let newWss := (((Monitor.mkNew sampleOut [Workspace.fresh sampleOut 0 sampleOpts]
              sampleOpts).workspaces.filter fun w =>
              decide (w.originalOutput = sampleOut2.name) &&
                (w.hasWindows || w.name.isSome)) ++
            [Workspace.fresh sampleOut2 sampleLayout.nextWsId sampleLayout.options]).map
            fun ws => ws.setOutput (some sampleOut2)
        { sampleLayout with
          monitorSet := .normal
            (([Monitor.mkNew sampleOut [Workspace.fresh sampleOut 0 sampleOpts]
                sampleOpts].set 0 primary2) ++
              [Monitor.mkNew sampleOut2 newWss sampleLayout.options]) 0 0
          nextWsId := sampleLayout.nextWsId + 1 }) :=
  ⟨rfl, rfl,
    C3_addOutputCollection sampleLayout sampleOut2
      [Monitor.mkNew sampleOut [Workspace.fresh sampleOut 0 sampleOpts] sampleOpts] 0 0
      (Monitor.mkNew sampleOut [Workspace.fresh sampleOut 0 sampleOpts] sampleOpts)
      rfl rfl⟩

/-- C1 (amended): disconnecting an output and immediately reconnecting it
is not the identity on the layout (see the counterexample: the re-attached
monitor is appended at the end of the monitor list, its trailing empty
workspace gets a fresh id, and the primary/active monitor indices are
renumbered), but it is the identity on the set of windows: `removeOutput`
and `addOutput` each preserve window presence exactly, hence so does the
round trip. -/
theorem C1_roundTrip_amended (L : Layout) (oname : Nat) (o : Output) (w : Nat) :
    (L.removeOutput oname).hasWindowInSet w = L.hasWindowInSet w ∧
      (L.addOutput o).hasWindowInSet w = L.hasWindowInSet w ∧
      ((L.removeOutput oname).addOutput o).hasWindowInSet w = L.hasWindowInSet w :=
  ⟨removeOutput_hasWindowInSet L oname w, addOutput_hasWindowInSet L o w,
    (addOutput_hasWindowInSet _ o w).trans (removeOutput_hasWindowInSet L oname w)⟩

/-- C1 counterexample: a two-monitor layout where the second monitor is
active; removing output 1 and immediately adding it back does not restore
the layout (the active monitor index is reset and the re-created trailing
workspace carries a fresh id). -/
theorem C1_roundTrip_counterexample :
    sampleLayoutC1.hasOutput 1 = true ∧
      (sampleLayoutC1.removeOutput 1).addOutput sampleOut2 ≠ sampleLayoutC1 :=
  ⟨by decide, by decide⟩

/-- C9 counterexample: on a monitor caught mid workspace-switch with an
orphan empty workspace below the active index, `ensureNamedWorkspace` with
a fresh name inserts at position 0 but the subsequent clean-up removes the
orphan, so the active workspace index does not advance by one (it stays at
1 instead of becoming 2). -/
theorem C9_ensureNamed_counterexample :
    sampleLayoutC9.hasWorkspaceNamed "web" = false ∧
      sampleLayoutC9.activeWsIdxAt 0 = some 1 ∧
      (sampleLayoutC9.ensureNamedWorkspace
          { name := "web", openOnOutput := none }).activeWsIdxAt 0 ≠ some 2 := by
  refine ⟨by decide, by decide, by decide⟩

end Niri
